import Mathlib

/-!
# A verification development for the memcache client (`memcache.go`)

The client speaks the memcached ASCII protocol over one buffered stream.
This file embeds the client in Lean:

* byte strings are lists of symbols (`Bytes`); every operation of the client
  only compares symbols with ASCII constants, so a symbol stands for a byte;
* the Go library pieces the client calls (`strings`, `strconv`, `bufio`,
  `io.ReadFull`, `net.Conn`) are modelled by their documented behaviour;
* a Go `panic` is an explicit exceptional result, and the deferred
  `handleError` is the function that turns it into the returned error.
-/

namespace Memcache

/-- A byte string (`string` and `[]byte` of the source). -/
abbrev Bytes := List Char

/-! ## Package `strings` -/

/-- Go `strings.HasPrefix(s, p)`. -/
def HasPrefix (s p : Bytes) : Bool := p.isPrefixOf s

/-- Go `strings.Contains(s, sub)`: `sub` occurs in `s` at some offset. -/
def Contains : Bytes → Bytes → Bool
  | [], sub => sub.isPrefixOf []
  | c :: cs, sub => sub.isPrefixOf (c :: cs) || Contains cs sub

/-- Go `strings.Split(s, sep)` for a separator of one byte: the pieces between
the occurrences of `sep`; there is always at least one piece. -/
def Split (sep : Char) : Bytes → List Bytes
  | [] => [[]]
  | c :: cs =>
    if c = sep then [] :: Split sep cs
    else
      match Split sep cs with
      | [] => [[c]]
      | h :: t => (c :: h) :: t

/-! ## Package `strconv` -/

/-- The two errors of `strconv.ParseUint`. -/
inductive NumError where
  | ErrSyntax
  | ErrRange
deriving DecidableEq, Repr

/-- The largest `uint64`. -/
def maxUint64 : Nat := 2 ^ 64 - 1

/-- The test `'0' <= c && c <= '9'` on the byte `c`. -/
def isDigit (c : Char) : Bool := decide (48 ≤ c.toNat ∧ c.toNat ≤ 57)

/-- The digit loop of `strconv.ParseUint` in base 10 over `uint64` arithmetic:
`cutoff = maxUint64/10 + 1`, `n *= 10`, `n1 := n + d`, with the overflow tests
of the library. -/
def parseLoop (maxVal : Nat) : Nat → Bytes → Except NumError Nat
  | n, [] => .ok n
  | n, c :: cs =>
    if isDigit c then
      if n ≥ maxUint64 / 10 + 1 then .error .ErrRange
      else
        let n10 := (n * 10) % 2 ^ 64
        let n1 := (n10 + (c.toNat - 48)) % 2 ^ 64
        if n1 < n10 ∨ n1 > maxVal then .error .ErrRange
        else parseLoop maxVal n1 cs
    else .error .ErrSyntax

/-- Go `strconv.ParseUint(s, 10, bitSize)`. -/
def ParseUint (s : Bytes) (bitSize : Nat) : Except NumError Nat :=
  if s = [] then .error .ErrSyntax else parseLoop (2 ^ bitSize - 1) 0 s

/-- The ASCII digit of a number below ten. -/
def digitChar (d : Nat) : Char := Char.ofNat (48 + d)

/-- The digit loop of `strconv.AppendUint(nil, u, 10)`: the last digit is
`u % 10`, the digits before it are those of `u / 10`. The counter bounds the
number of digits. -/
def formatBits : Nat → Nat → Bytes
  | 0, _ => []
  | k + 1, u => if u < 10 then [digitChar u] else formatBits k (u / 10) ++ [digitChar (u % 10)]

/-- Go `strconv.AppendUint(nil, u, 10)` for a `uint64` (at most 20 digits);
`strconv.AppendInt(nil, int64(n), 10)` coincides with it for `n ≥ 0`. -/
def AppendUint (u : Nat) : Bytes := formatBits 20 u

/-! ## The transport (`net.Conn`) -/

/-- The byte stream under the connection. `inp` holds the bytes the peer sends
that the client has not consumed yet (those sitting in the read buffer
included), after which the stream is at end of file; `out` holds the bytes the
transport has accepted; `closed` says `Close` was called on it, after which
its writes fail; `wcap`, when present, is the number of bytes the transport
still accepts before its writes fail. Reads are served from `inp` whatever
`closed` says: the client flushes a request before every read, and on a closed
transport that flush fails (`run_closed`), so no read of a closed transport
happens. -/
structure Transport where
  inp : Bytes
  out : Bytes
  closed : Bool
  wcap : Option Nat
deriving DecidableEq, Repr

/-- The call `nc.Write(p)`: the number of bytes accepted, whether an error is
returned, and the transport afterwards. -/
def Transport.Write (t : Transport) (p : Bytes) : Nat × Bool × Transport :=
  if t.closed then (0, true, t)
  else
    match t.wcap with
    | none => (p.length, false, { t with out := t.out ++ p })
    | some k =>
      if p.length ≤ k then
        (p.length, false, { t with out := t.out ++ p, wcap := some (k - p.length) })
      else (k, true, { t with out := t.out ++ p.take k, wcap := some 0 })

/-! ## Package `bufio` -/

/-- The size of the buffers made by `bufio.NewReader` and `bufio.NewWriter`. -/
def defaultBufSize : Nat := 4096

/-- The state of a `bufio.Writer`: the pending bytes `b.buf[0:b.n]` and
whether the sticky error `b.err` is set. -/
structure Writer where
  buf : Bytes
  err : Bool
deriving DecidableEq, Repr

/-- Go `(*Writer).Available`. -/
def Writer.Available (w : Writer) : Nat := defaultBufSize - w.buf.length

/-- Go `(*Writer).Flush`: returns whether an error is reported. -/
def Writer.Flush (w : Writer) (t : Transport) : Bool × Writer × Transport :=
  if w.err then (true, w, t)
  else if w.buf = [] then (false, w, t)
  else
    match t.Write w.buf with
    | (n, e, t') =>
      if e || n < w.buf.length then (true, { buf := w.buf.drop n, err := true }, t')
      else (false, { w with buf := [] }, t')

/-- The loop of `(*Writer).WriteString`: while the rest of `s` does not fit
and no error is set, fill the buffer and flush. Returns the writer, the
transport and the rest of `s`. -/
def wsLoop : Nat → Writer → Transport → Bytes → Writer × Transport × Bytes
  | 0, w, t, s => (w, t, s)
  | k + 1, w, t, s =>
    if s.length > w.Available ∧ w.err = false then
      match Writer.Flush { w with buf := w.buf ++ s.take w.Available } t with
      | (_, w', t') => wsLoop k w' t' (s.drop w.Available)
    else (w, t, s)

/-- Go `(*Writer).WriteString(s)`: returns whether an error is reported. -/
def Writer.WriteString (w : Writer) (t : Transport) (s : Bytes) : Bool × Writer × Transport :=
  match wsLoop (s.length + 2) w t s with
  | (w', t', s') =>
    if w'.err then (true, w', t') else (false, { w' with buf := w'.buf ++ s' }, t')

/-- The loop of `(*Writer).Write`: as for `WriteString`, but with an empty
buffer the bytes go to the transport directly. -/
def wLoop : Nat → Writer → Transport → Bytes → Writer × Transport × Bytes
  | 0, w, t, p => (w, t, p)
  | k + 1, w, t, p =>
    if p.length > w.Available ∧ w.err = false then
      if w.buf = [] then
        match t.Write p with
        | (n, e, t') => wLoop k { w with err := e } t' (p.drop n)
      else
        match Writer.Flush { w with buf := w.buf ++ p.take w.Available } t with
        | (_, w', t') => wLoop k w' t' (p.drop w.Available)
    else (w, t, p)

/-- Go `(*Writer).Write(p)`: returns whether an error is reported. -/
def Writer.Write (w : Writer) (t : Transport) (p : Bytes) : Bool × Writer × Transport :=
  match wLoop (p.length + 2) w t p with
  | (w', t', p') =>
    if w'.err then (true, w', t') else (false, { w' with buf := w'.buf ++ p' }, t')

/-- What `(*Reader).ReadLine` returns: the line, `isPrefix`, and whether `err`
is not nil. -/
structure Line where
  line : Bytes
  isPrefix : Bool
  err : Bool
deriving DecidableEq, Repr

/-- Go `(*Reader).ReadLine` on a reader whose buffer holds `size` bytes, as a
function of the unconsumed input: the line and the input left. A line ends at
the first `\n` found among the first `size` bytes and loses its `\n` or
`\r\n`; without one, a full buffer gives `isPrefix` (a final `\r` is put
back), and the end of the input gives what is left, or an error when nothing
is left. -/
def ReadLine (size : Nat) (inp : Bytes) : Line × Bytes :=
  let pre := inp.takeWhile (fun c => c != '\n')
  if pre.length < size ∧ pre.length < inp.length then
    (⟨if pre.getLast? = some '\r' then pre.dropLast else pre, false, false⟩,
      inp.drop (pre.length + 1))
  else if size ≤ inp.length then
    if (inp.take size).getLast? = some '\r' then
      (⟨inp.take (size - 1), true, false⟩, inp.drop (size - 1))
    else (⟨inp.take size, true, false⟩, inp.drop size)
  else if inp = [] then (⟨[], false, true⟩, [])
  else (⟨inp, false, false⟩, [])

/-- Go `io.ReadFull(r, b)` with `len(b) = count`: the bytes read, whether an
error is returned (the input ended early), and the input left. -/
def ReadFull (count : Nat) (inp : Bytes) : Bytes × Bool × Bytes :=
  if count ≤ inp.length then (inp.take count, false, inp.drop count)
  else (inp, true, [])

/-! ## Errors and panics -/

/-- The text of a `MemcacheError`, by the format that produced it. -/
inductive Text where
  /-- The text `Server error`. -/
  | serverError
  /-- The text `Malformed response:` followed by the header. -/
  | malformed (header : Bytes)
  /-- The reply line itself, formatted with `%v` (`Version`). -/
  | reply (line : Bytes)
  /-- What `fmt.Sprintf` makes of the reply line used as the format (`Stats`):
  the line itself when it holds no `%`. -/
  | formatted (line : Bytes)
  /-- The text of a `strconv` error. -/
  | number (e : NumError)
  /-- The text of a write, flush or read error of the transport. -/
  | transport
  /-- The text `Prefix:` followed by `isPrefix` and the error of `ReadLine`. -/
  | readline (isPrefix : Bool) (err : Bool)
deriving DecidableEq, Repr

/-- The error type of the client. -/
structure MemcacheError where
  Message : Text
deriving DecidableEq, Repr

/-- The value a panic carries: a `MemcacheError` raised by the client, or a
run-time error of Go (negative length for `make`, slice bound out of range,
index out of range, nil dereference). -/
inductive PanicValue where
  | memcache (e : MemcacheError)
  | runtime
deriving DecidableEq, Repr

/-! ## The connection -/

/-- The connection. `conn_nil` says the field `conn` is nil; `nc` is the
transport that `conn` and `buffered` were built over; `buffered` is the write
half of the `bufio.ReadWriter` (the read half has no state besides the
unconsumed input `nc.inp`); `has_error` is the sticky flag. -/
structure Connection where
  conn_nil : Bool
  nc : Transport
  buffered : Writer
  has_error : Bool
deriving DecidableEq, Repr

/-- The source's `newConnection`. -/
def newConnection (nc : Transport) : Connection :=
  { conn_nil := false, nc := nc, buffered := { buf := [], err := false }, has_error := false }

/-- The source's `IsClosed`. -/
def IsClosed (c : Connection) : Bool := c.conn_nil

/-- The source's `HasError`. -/
def HasError (c : Connection) : Bool := c.has_error

/-- A computation of the client on the connection: it ends normally with a
value or by a panic, and leaves a connection state either way. -/
def M (α : Type) : Type := Connection → Except PanicValue α × Connection

/-- Sequencing: a panic skips what follows. -/
def M.bind {α β : Type} (m : M α) (f : α → M β) : M β := fun c =>
  match m c with
  | (.ok a, c') => f a c'
  | (.error p, c') => (.error p, c')

instance : Monad M where
  pure a := fun c => (.ok a, c)
  bind := M.bind

/-- Go `panic(NewMemcacheError(...))`. -/
def raise {α : Type} (t : Text) : M α := fun c => (.error (.memcache ⟨t⟩), c)

/-- A run-time error of Go. -/
def raiseRuntime {α : Type} : M α := fun c => (.error .runtime, c)

/-- The source's `writestring`. -/
def writestring (s : Bytes) : M Unit := fun c =>
  match c.buffered.WriteString c.nc s with
  | (e, w, t) =>
    if e then (.error (.memcache ⟨.transport⟩), { c with buffered := w, nc := t })
    else (.ok (), { c with buffered := w, nc := t })

/-- The source's `writestrings`. -/
def writestrings : List Bytes → M Unit
  | [] => pure ()
  | s :: strs => do
    writestring s
    writestrings strs

/-- The source's `write`. -/
def write (b : Bytes) : M Unit := fun c =>
  match c.buffered.Write c.nc b with
  | (e, w, t) =>
    if e then (.error (.memcache ⟨.transport⟩), { c with buffered := w, nc := t })
    else (.ok (), { c with buffered := w, nc := t })

/-- The source's `flush`. -/
def flush : M Unit := fun c =>
  match c.buffered.Flush c.nc with
  | (e, w, t) =>
    if e then (.error (.memcache ⟨.transport⟩), { c with buffered := w, nc := t })
    else (.ok (), { c with buffered := w, nc := t })

/-- The call `self.buffered.ReadLine()` and the test that follows it in the
source's `readline`. -/
def readLineChecked : M Bytes := fun c =>
  match ReadLine defaultBufSize c.nc.inp with
  | (l, rest) =>
    if l.isPrefix || l.err then
      (.error (.memcache ⟨.readline l.isPrefix l.err⟩), { c with nc := { c.nc with inp := rest } })
    else (.ok l.line, { c with nc := { c.nc with inp := rest } })

/-- The source's `readline`. -/
def readline : M Bytes := do
  flush
  readLineChecked

/-- The conversion `int(x)` of a `uint64` and the arithmetic of `int`, 64 bits
wide: the signed value of `x` modulo `2^64`. -/
def toInt (x : Nat) : Int :=
  if x % 2 ^ 64 < 2 ^ 63 then (x % 2 ^ 64 : Nat) else ((x % 2 ^ 64 : Nat) : Int) - 2 ^ 64

/-- The call `io.ReadFull(self.buffered, b)` and the test that follows it in
the source's `read`, for a slice `b` of `count` bytes. -/
def readFullChecked (count : Nat) : M Bytes := fun c =>
  match ReadFull count c.nc.inp with
  | (b, e, rest) =>
    if e then (.error (.memcache ⟨.transport⟩), { c with nc := { c.nc with inp := rest } })
    else (.ok b, { c with nc := { c.nc with inp := rest } })

/-- The source's `read`: `make([]byte, count)` panics on a negative count,
then `io.ReadFull`. Allocation is taken to succeed for every other count: a
count beyond what the run time can allocate, which ends the program in the
code, is outside this model and behaves here as a block the input cannot
supply. -/
def read (count : Int) : M Bytes := do
  flush
  if count < 0 then raiseRuntime
  else readFullChecked count.toNat

/-- The slice expression `b[:size]`: a run-time error when `size` exceeds the
capacity of `b`. -/
def sliceTo (b : Bytes) (size : Nat) : M Bytes :=
  if size > b.length then raiseRuntime else pure (b.take size)

/-- A `strconv` result, with the panic of the source on an error. -/
def orPanic (r : Except NumError Nat) : M Nat :=
  match r with
  | .ok n => pure n
  | .error e => raise (.number e)

/-- The branch of the source's `get` for a header that begins with `VALUE`:
the value, the flags, the cas token, and the line read after the data block. -/
def getValue (header : Bytes) : M (Bytes × Nat × Nat × Bytes) :=
  let chunks := Split ' ' header
  if chunks.length < 4 then raise (.malformed header)
  else do
    let flags64 ← orPanic (ParseUint (chunks.getD 2 []) 16)
    let flags := flags64 % 2 ^ 16
    let size ← orPanic (ParseUint (chunks.getD 3 []) 64)
    let cas ← if chunks.length = 5 then orPanic (ParseUint (chunks.getD 4 []) 64) else pure 0
    let b ← read (toInt (size + 2))
    let value ← sliceTo b size
    let header' ← readline
    pure (value, flags, cas, header')

/-- The part of the source's `get` that follows the first `readline`. -/
def getReply (header : Bytes) : M (Bytes × Nat × Nat) := do
  let r ← if HasPrefix header "VALUE".toList then getValue header else pure ([], 0, 0, header)
  if HasPrefix r.2.2.2 "END".toList then pure (r.1, r.2.1, r.2.2.1)
  else raise (.malformed r.2.2.2)

/-- The source's `get`: value, flags and cas token. -/
def get (command key : Bytes) : M (Bytes × Nat × Nat) := do
  writestrings [command, " ".toList, key, "\r\n".toList]
  let header ← readline
  getReply header

/-- The part of the source's `store` that follows its `readline`. -/
def storeReply (reply : Bytes) : M Bool :=
  if Contains reply "ERROR".toList then raise .serverError
  else pure (HasPrefix reply "STORED".toList)

/-- The source's `store`. -/
def store (command key : Bytes) (flags timeout : Nat) (value : Bytes) (cas : Nat) : M Bool :=
  if value.length > 1000000 then pure false
  else do
    writestrings [command, " ".toList, key, " ".toList]
    write (AppendUint flags)
    writestring " ".toList
    write (AppendUint timeout)
    writestring " ".toList
    write (AppendUint value.length)
    if cas ≠ 0 then do
      writestring " ".toList
      write (AppendUint cas)
    else pure ()
    writestring "\r\n".toList
    write value
    writestring "\r\n".toList
    let reply ← readline
    storeReply reply

/-! ## The public operations -/

/-- How a public method ends: it returns its results and its error (`none`
for nil), or a run-time panic leaves it unrecovered (`crash`), or its loop
exceeds the bound of the model (`hang`, shown below not to happen). -/
inductive Outcome (α : Type) where
  | ret (val : α) (err : Option MemcacheError)
  | crash
  | hang
deriving DecidableEq, Repr

/-- The source's `handleError` at a panic: a `MemcacheError` becomes the
returned error, next to the results as they stand (`val`), and sets the
sticky flag; for any other panic value the type assertion panics in turn,
before the flag is set. -/
def recovered {α : Type} (val : α) (p : PanicValue) (c : Connection) : Outcome α × Connection :=
  match p with
  | .memcache e => (.ret val (some e), { c with has_error := true })
  | .runtime => (.crash, c)

/-- A method body under `defer handleError(self, &err)` whose results are
assigned only by its final `return`: `zero` is what the named results hold
when a panic interrupts it. -/
def handleError {α : Type} (zero : α) (body : M α) (c : Connection) : Outcome α × Connection :=
  match body c with
  | (.ok a, c') => (.ret a none, c')
  | (.error p, c') => recovered zero p c'

/-- The source's `Close`: calling it on a nil `conn` is a run-time error. -/
def Close (c : Connection) : Outcome Unit × Connection :=
  if c.conn_nil then (.crash, c)
  else (.ret () none, { c with conn_nil := true, nc := { c.nc with closed := true } })

/-- The source's `Get`. -/
def Get (key : Bytes) (c : Connection) : Outcome (Bytes × Nat) × Connection :=
  handleError ([], 0) (do let r ← get "get".toList key; pure (r.1, r.2.1)) c

/-- The source's `Gets`. -/
def Gets (key : Bytes) (c : Connection) : Outcome (Bytes × Nat × Nat) × Connection :=
  handleError ([], 0, 0) (get "gets".toList key) c

/-- The source's `Set`. -/
def Set (key : Bytes) (flags timeout : Nat) (value : Bytes) (c : Connection) :
    Outcome Bool × Connection :=
  handleError false (store "set".toList key flags timeout value 0) c

/-- The source's `Add`. -/
def Add (key : Bytes) (flags timeout : Nat) (value : Bytes) (c : Connection) :
    Outcome Bool × Connection :=
  handleError false (store "add".toList key flags timeout value 0) c

/-- The source's `Replace`. -/
def Replace (key : Bytes) (flags timeout : Nat) (value : Bytes) (c : Connection) :
    Outcome Bool × Connection :=
  handleError false (store "replace".toList key flags timeout value 0) c

/-- The source's `Append`. -/
def Append (key : Bytes) (flags timeout : Nat) (value : Bytes) (c : Connection) :
    Outcome Bool × Connection :=
  handleError false (store "append".toList key flags timeout value 0) c

/-- The source's `Prepend`. -/
def Prepend (key : Bytes) (flags timeout : Nat) (value : Bytes) (c : Connection) :
    Outcome Bool × Connection :=
  handleError false (store "prepend".toList key flags timeout value 0) c

/-- The source's `Cas`. -/
def Cas (key : Bytes) (flags timeout : Nat) (value : Bytes) (cas : Nat) (c : Connection) :
    Outcome Bool × Connection :=
  handleError false (store "cas".toList key flags timeout value cas) c

/-- The part of the source's `Version` that follows its `readline`; the index
expression `[1]` is a run-time error when the split has a single piece. -/
def versionReply (reply : Bytes) : M Bytes :=
  if Contains reply "ERROR".toList then raise .serverError
  else if !HasPrefix reply "VERSION ".toList then raise (.reply reply)
  else
    match (Split ' ' reply)[1]? with
    | some v => pure v
    | none => raiseRuntime

/-- The body of the source's `Version`. -/
def versionBody : M Bytes := do
  writestrings ["version\r\n".toList]
  let reply ← readline
  versionReply reply

/-- The source's `Version`. -/
def Version (c : Connection) : Outcome Bytes × Connection :=
  handleError [] versionBody c

/-- The part of the source's `Delete` that follows its `readline`. -/
def deleteReply (reply : Bytes) : M Bool :=
  if Contains reply "ERROR".toList then raise .serverError
  else pure (HasPrefix reply "DELETED".toList)

/-- The body of the source's `Delete`. -/
def deleteBody (key : Bytes) : M Bool := do
  writestrings ["delete ".toList, key, "\r\n".toList]
  let reply ← readline
  deleteReply reply

/-- The source's `Delete`. -/
def Delete (key : Bytes) (c : Connection) : Outcome Bool × Connection :=
  handleError false (deleteBody key) c

/-- How the loop of `Stats` ends: by `break` with the accumulated result, by
the `return nil, NewMemcacheError(l)`, by a panic of `readline` while the
named result holds what was accumulated, or at the bound of the model. -/
inductive StatsExit where
  | done (result : Bytes)
  | returned (e : MemcacheError)
  | panicked (result : Bytes) (p : PanicValue)
  | bound
deriving DecidableEq, Repr

/-- The `for` loop of the source's `Stats`, with a bound on its iterations. -/
def statsLoop : Nat → Bytes → Connection → StatsExit × Connection
  | 0, _, c => (.bound, c)
  | k + 1, result, c =>
    match readline c with
    | (.error p, c') => (.panicked result p, c')
    | (.ok l, c') =>
      if HasPrefix l "END".toList then (.done result, c')
      else if Contains l "ERROR".toList then (.returned ⟨.formatted l⟩, c')
      else statsLoop k (result ++ l ++ ['\n']) c'

/-- The request part of the source's `Stats`. -/
def statsRequest (argument : Bytes) : M Unit := do
  if argument = [] then writestrings ["stats\r\n".toList]
  else writestrings ["stats ".toList, argument, "\r\n".toList]
  flush

/-- The source's `Stats`. Every iteration of its loop consumes input or
panics, so one more iteration than there are input bytes is enough. The
`return nil, NewMemcacheError(l)` is an ordinary return: nothing is recovered
and the sticky flag is not touched. -/
def Stats (argument : Bytes) (c : Connection) : Outcome Bytes × Connection :=
  match statsRequest argument c with
  | (.error p, c') => recovered [] p c'
  | (.ok _, c') =>
    match statsLoop (c'.nc.inp.length + 1) [] c' with
    | (.done result, c'') => (.ret result none, c'')
    | (.returned e, c'') => (.ret [] (some e), c'')
    | (.panicked result p, c'') => recovered result p c''
    | (.bound, c'') => (.hang, c'')

/-! ## Decimal numerals -/

/-- The number denoted by the decimal digits `s` written after a numeral of
value `n`. -/
def decimalFrom (n : Nat) (s : Bytes) : Nat :=
  s.foldl (fun a c => 10 * a + (c.toNat - 48)) n

/-- The number a string of decimal digits denotes. -/
def decimalValue (s : Bytes) : Nat := decimalFrom 0 s

/-- The string `s` is an unsigned base-10 integer below `bound`: it is not
empty, holds digits only (no sign), and denotes a number below `bound`. -/
def IsUint (s : Bytes) (bound : Nat) : Prop :=
  s ≠ [] ∧ (∀ c ∈ s, isDigit c = true) ∧ decimalValue s < bound

instance (s : Bytes) (bound : Nat) : Decidable (IsUint s bound) := by
  unfold IsUint; infer_instance

/-! ## Working connections and requests -/

/-- The connection can write: its transport is open and accepts every byte,
and the buffered writer holds no error. -/
def Healthy (c : Connection) : Prop :=
  c.nc.closed = false ∧ c.nc.wcap = none ∧ c.buffered.err = false

instance (c : Connection) : Decidable (Healthy c) := by
  unfold Healthy; infer_instance

/-- The connection `c'` is `c` after the bytes `bs` were written with no
error: both can write, and `c'` differs from `c` only in that `bs` was added
to the bytes accepted or buffered. -/
structure Wrote (c c' : Connection) (bs : Bytes) : Prop where
  healthy : Healthy c
  healthy' : Healthy c'
  inp : c'.nc.inp = c.nc.inp
  conn_nil : c'.conn_nil = c.conn_nil
  has_error : c'.has_error = c.has_error
  bytes : c'.nc.out ++ c'.buffered.buf = c.nc.out ++ c.buffered.buf ++ bs

/-- The concatenation of the strings of a `writestrings` call. -/
def concat : List Bytes → Bytes
  | [] => []
  | s :: strs => s ++ concat strs

/-- The connection `c` once the request `bs` has been written and flushed and
the input has become `inp`. -/
def sent (c : Connection) (bs inp : Bytes) : Connection :=
  { c with
    nc := { c.nc with out := c.nc.out ++ c.buffered.buf ++ bs, inp := inp }
    buffered := { buf := [], err := false } }

/-- The wire layout of a store command as the specification words it: verb,
key, flags, exptime and byte length in decimal separated by single spaces, the
cas token after one more space exactly when it is not zero, `\r\n`, the value,
`\r\n`. -/
def storeFrame (verb key : Bytes) (flags exptime : Nat) (value : Bytes) (cas : Nat) : Bytes :=
  verb ++ [' '] ++ key ++ [' '] ++ AppendUint flags ++ [' '] ++ AppendUint exptime ++ [' '] ++
    AppendUint value.length ++ (if cas ≠ 0 then [' '] ++ AppendUint cas else []) ++
    ['\r', '\n'] ++ value ++ ['\r', '\n']

/-! ## The public operations as one family -/

/-- A call of a public operation with its arguments. -/
inductive Op where
  | Get (key : Bytes)
  | Gets (key : Bytes)
  | Set (key : Bytes) (flags timeout : Nat) (value : Bytes)
  | Add (key : Bytes) (flags timeout : Nat) (value : Bytes)
  | Replace (key : Bytes) (flags timeout : Nat) (value : Bytes)
  | Append (key : Bytes) (flags timeout : Nat) (value : Bytes)
  | Prepend (key : Bytes) (flags timeout : Nat) (value : Bytes)
  | Cas (key : Bytes) (flags timeout : Nat) (value : Bytes) (cas : Nat)
  | Delete (key : Bytes)
  | Stats (argument : Bytes)
  | Version
deriving DecidableEq, Repr

/-- The results of the public operations: an item (value, flags, cas token; 0
for the token of `Get`), a boolean (stored, deleted), or bytes (stats,
version). -/
inductive Reply where
  | item (value : Bytes) (flags cas : Nat)
  | bool (b : Bool)
  | bytes (s : Bytes)
deriving DecidableEq, Repr

/-- The outcome with its results mapped. -/
def Outcome.map {α β : Type} (f : α → β) : Outcome α → Outcome β
  | .ret v e => .ret (f v) e
  | .crash => .crash
  | .hang => .hang

/-- Runs a public operation on a connection. -/
def run : Op → Connection → Outcome Reply × Connection
  | .Get key, c => ((Get key c).1.map (fun r => .item r.1 r.2 0), (Get key c).2)
  | .Gets key, c => ((Gets key c).1.map (fun r => .item r.1 r.2.1 r.2.2), (Gets key c).2)
  | .Set key f t v, c => ((Set key f t v c).1.map .bool, (Set key f t v c).2)
  | .Add key f t v, c => ((Add key f t v c).1.map .bool, (Add key f t v c).2)
  | .Replace key f t v, c => ((Replace key f t v c).1.map .bool, (Replace key f t v c).2)
  | .Append key f t v, c => ((Append key f t v c).1.map .bool, (Append key f t v c).2)
  | .Prepend key f t v, c => ((Prepend key f t v c).1.map .bool, (Prepend key f t v c).2)
  | .Cas key f t v cas, c => ((Cas key f t v cas c).1.map .bool, (Cas key f t v cas c).2)
  | .Delete key, c => ((Delete key c).1.map .bool, (Delete key c).2)
  | .Stats argument, c => ((Stats argument c).1.map .bytes, (Stats argument c).2)
  | .Version, c => ((Version c).1.map .bytes, (Version c).2)

/-- The arguments a store operation hands to `store`: verb, key, flags,
exptime, value and cas token (0 for all but `Cas`); `none` for the other
operations. -/
def Op.storeArgs : Op → Option (Bytes × Bytes × Nat × Nat × Bytes × Nat)
  | .Set key f t v => some ("set".toList, key, f, t, v, 0)
  | .Add key f t v => some ("add".toList, key, f, t, v, 0)
  | .Replace key f t v => some ("replace".toList, key, f, t, v, 0)
  | .Append key f t v => some ("append".toList, key, f, t, v, 0)
  | .Prepend key f t v => some ("prepend".toList, key, f, t, v, 0)
  | .Cas key f t v cas => some ("cas".toList, key, f, t, v, cas)
  | _ => none

/-- The string `s` is the decimal numeral of `n` in its shortest form: digits
only (no sign), of value `n`, and with a first digit `0` only when it is the
single digit `0`. -/
def Numeral (s : Bytes) (n : Nat) : Prop :=
  s ≠ [] ∧ (∀ c ∈ s, isDigit c = true) ∧ decimalValue s = n ∧ (s.head? = some '0' → s = ['0'])

/-- The bytes of a `get` or `gets` request. -/
def fetchRequest (command key : Bytes) : Bytes := command ++ [' '] ++ key ++ ['\r', '\n']

/-- The header line of the reply for an item. -/
def valueHeader (key : Bytes) (flags size : Nat) : Bytes :=
  "VALUE ".toList ++ key ++ [' '] ++ AppendUint flags ++ [' '] ++ AppendUint size

/-- The reply of a conforming server to `get` for an item: the header, `\r\n`,
the value, `\r\n`, `END`, `\r\n`. -/
def valueReply (key : Bytes) (flags : Nat) (value : Bytes) : Bytes :=
  valueHeader key flags value.length ++ ['\r', '\n'] ++ value ++ ['\r', '\n'] ++
    "END\r\n".toList

/-! ## Closed transports -/

/-- The writer holds an error or pending bytes: its next flush reaches the
transport or reports the error. -/
def Pend (c : Connection) : Prop := c.buffered.err = true ∨ c.buffered.buf ≠ []

/-- The connection `c'` has the transport, the `conn` field and the sticky
flag of `c`. -/
def Same (c c' : Connection) : Prop :=
  c'.nc = c.nc ∧ c'.conn_nil = c.conn_nil ∧ c'.has_error = c.has_error

/-- The computation ended by the panic of a transport error, without any
effect on the transport. -/
def Stopped {α : Type} (c : Connection) (r : Except PanicValue α × Connection) : Prop :=
  r.1 = .error (.memcache ⟨.transport⟩) ∧ Same c r.2

/-- On a closed transport the computation `m` stops whenever the writer holds
an error or pending bytes. -/
def StopsIfPend {α : Type} (m : M α) : Prop :=
  ∀ c, c.nc.closed = true → Pend c → Stopped c (m c)

/-- On a closed transport the computation `m` stops. -/
def Stops {α : Type} (m : M α) : Prop :=
  ∀ c, c.nc.closed = true → Stopped c (m c)

/-- The operation is a store whose value exceeds the size cap. -/
def Op.oversized (op : Op) : Bool :=
  match op.storeArgs with
  | some (_, _, _, _, v, _) => decide (v.length > 1000000)
  | none => false

/-- The zero results of an operation: what it returns next to an error raised
by a panic before any result is assigned. -/
def Op.zero : Op → Reply
  | .Get _ => .item [] 0 0
  | .Gets _ => .item [] 0 0
  | .Stats _ => .bytes []
  | .Version => .bytes []
  | _ => .bool false

/-! ## Connecting -/

/-- The errors of the source's `Connect`: the one it makes itself for an empty
address list (`Invalid addresses`), and the one `net.Dial` returned. -/
inductive ConnectError where
  | invalidAddresses
  | dial
deriving DecidableEq, Repr

/-- How `Connect` ends: with a connection and a nil error, with a nil
connection and an error, or in a run-time panic. -/
inductive ConnectResult where
  | connected (conn : Connection)
  | failed (err : ConnectError)
  | crash
deriving DecidableEq, Repr

/-- Go `rand.Intn(n)`: a run-time panic for `n ≤ 0`, else a number in
`[0, n)`; `draw` stands for the state of the random source. -/
def Intn (draw n : Nat) : Option Nat := if n = 0 then none else some (draw % n)

/-- The source's `Connect`. `dial network address` stands for `net.Dial`
(`none` when it returns an error) and `draw` for the random source; the second
component lists the calls of `net.Dial`, in order, with their network and
address. The line printed on standard output is left out. -/
def Connect (dial : Bytes → Bytes → Option Transport) (draw : Nat) (addresses : List Bytes) :
    ConnectResult × List (Bytes × Bytes) :=
  if addresses.length = 0 then (.failed .invalidAddresses, [])
  else
    match Intn draw addresses.length with
    | none => (.crash, [])
    | some idx =>
      match addresses[idx]? with
      | none => (.crash, [])
      | some address =>
        let network := if Contains address "/".toList then "unix".toList else "tcp".toList
        match dial network address with
        | none => (.failed .dial, [(network, address)])
        | some nc => (.connected (newConnection nc), [(network, address)])

/-- The network the specification gives an address: the local socket when the
address holds the path separator, TCP otherwise. -/
def networkOf (address : Bytes) : Bytes :=
  if '/' ∈ address then "unix".toList else "tcp".toList

/-! ## Properties of computations on the connection -/

/-- The computation `g` leaves the sticky flag alone: it runs the same
whatever the flag holds and hands the flag on unchanged, and it changes
neither the `conn` field nor whether the transport is closed. -/
def Tame {β : Type} (g : Connection → β × Connection) : Prop :=
  ∀ c, (∀ b, g { c with has_error := b } = ((g c).1, { (g c).2 with has_error := b })) ∧
    (g c).2.conn_nil = c.conn_nil ∧ (g c).2.nc.closed = c.nc.closed

/-- A public method `g` treats the sticky flag as the specification says:
run with either value of the flag it returns the same outcome and leaves the
same transport, writer and `conn` field; it changes neither the `conn` field
nor whether the transport is closed; it never clears the flag; and it sets the
flag only when it returns an error. -/
def Sticky {β : Type} (g : Connection → Outcome β × Connection) : Prop :=
  ∀ c,
    (∀ b, (g { c with has_error := b }).1 = (g c).1 ∧
      (g { c with has_error := b }).2.nc = (g c).2.nc ∧
      (g { c with has_error := b }).2.buffered = (g c).2.buffered ∧
      (g { c with has_error := b }).2.conn_nil = (g c).2.conn_nil) ∧
    (g c).2.conn_nil = c.conn_nil ∧ (g c).2.nc.closed = c.nc.closed ∧
    (c.has_error = true → (g c).2.has_error = true) ∧
    ((g c).2.has_error = true → c.has_error = true ∨ ∃ v e, (g c).1 = .ret v (some e))

/-- The writer holds no pending byte and no error. -/
def Quiet (s : Connection) : Prop := s.buffered = { buf := [], err := false }

/-- Every state after the computation `g` stands in the relation `R` to the
state before it. -/
def Pres {β : Type} (R : Connection → Connection → Prop) (g : Connection → β × Connection) :
    Prop :=
  ∀ c, R c (g c).2

/-- From a state with nothing pending, `s'` still has nothing pending and the
transport has accepted no further byte. -/
def ReadRel (s s' : Connection) : Prop := Quiet s → Quiet s' ∧ s'.nc.out = s.nc.out

/-- The state `c'` has the unconsumed input of `c`. -/
def InpRel (c c' : Connection) : Prop := c'.nc.inp = c.nc.inp

/-- The computation writes nothing when nothing is pending. -/
def ReadOnly {β : Type} (g : Connection → β × Connection) : Prop := Pres ReadRel g

/-- The computation consumes no input. -/
def NoRead {β : Type} (g : Connection → β × Connection) : Prop := Pres InpRel g

/-- The computation consumes input only after a flush that succeeded, and
writes nothing afterwards: either it has consumed no input, or it ends with
nothing pending in the writer. -/
def FlushFirst {β : Type} (g : Connection → β × Connection) : Prop :=
  ∀ c, (g c).2.nc.inp = c.nc.inp ∨ Quiet (g c).2

/-- The request of the operations other than the store operations, as the
specification words it. -/
def Op.request : Op → Option Bytes
  | .Get key => some ("get ".toList ++ key ++ "\r\n".toList)
  | .Gets key => some ("gets ".toList ++ key ++ "\r\n".toList)
  | .Delete key => some ("delete ".toList ++ key ++ "\r\n".toList)
  | .Stats argument =>
    if argument = [] then some "stats\r\n".toList
    else some ("stats ".toList ++ argument ++ "\r\n".toList)
  | .Version => some "version\r\n".toList
  | _ => none

/-! ## Reply lines -/

/-- The input `inp` delivers the lines `ls` to successive `ReadLine` calls,
each whole and without error, and the input left after them. -/
def replyLines : List Bytes → Bytes → Option Bytes
  | [], inp => some inp
  | l :: ls, inp =>
    if (ReadLine defaultBufSize inp).1 = ⟨l, false, false⟩ then
      replyLines ls (ReadLine defaultBufSize inp).2
    else none

/-- Each line followed by a single `\n`, in order. -/
def withNewlines (ls : List Bytes) : Bytes := concat (ls.map (fun l => l ++ ['\n']))

/-! # Theorems

## Decimal numerals -/

theorem isDigit_bounds (c : Char) (h : isDigit c = true) : 48 ≤ c.toNat ∧ c.toNat ≤ 57 := by
  simpa [isDigit] using h

theorem decimalFrom_cons (n : Nat) (c : Char) (s : Bytes) :
    decimalFrom n (c :: s) = decimalFrom (10 * n + (c.toNat - 48)) s := rfl

theorem decimalFrom_append (n : Nat) (s r : Bytes) :
    decimalFrom n (s ++ r) = decimalFrom (decimalFrom n s) r := by
  simp [decimalFrom, List.foldl_append]

theorem le_decimalFrom (n : Nat) (s : Bytes) : n ≤ decimalFrom n s := by
  induction s generalizing n with
  | nil => simp [decimalFrom]
  | cons c s ih =>
    rw [decimalFrom_cons]
    have := ih (10 * n + (c.toNat - 48))
    omega

/-- The digit loop of `ParseUint` succeeds exactly on digit strings whose
value stays within `maxVal`, and then returns that value. -/
theorem parseLoop_ok_iff (maxVal : Nat) (hmax : maxVal < 2 ^ 64) (s : Bytes) (n m : Nat)
    (hn : n ≤ maxVal) :
    parseLoop maxVal n s = .ok m ↔
      (∀ c ∈ s, isDigit c = true) ∧ decimalFrom n s ≤ maxVal ∧ m = decimalFrom n s := by
  induction s generalizing n with
  | nil =>
    simp only [parseLoop, Except.ok.injEq, List.not_mem_nil, false_implies, implies_true,
      true_and, decimalFrom, List.foldl_nil]
    constructor
    · intro h; subst h; exact ⟨hn, rfl⟩
    · intro h; exact h.2.symm
  | cons c s ih =>
    rw [decimalFrom_cons]
    unfold parseLoop
    by_cases hd : isDigit c = true
    · have hb := isDigit_bounds c hd
      have hmono := le_decimalFrom (10 * n + (c.toNat - 48)) s
      simp only [hd, if_true, List.mem_cons, forall_eq_or_imp, true_and, maxUint64]
      norm_num only at hmax ⊢
      by_cases hcut : n ≥ 1844674407370955162
      · simp only [hcut, if_true]
        constructor
        · intro h; cases h
        · intro h; omega
      · simp only [hcut, if_false]
        have h10 : n * 10 % 18446744073709551616 = n * 10 := Nat.mod_eq_of_lt (by omega)
        rw [h10]
        by_cases hwrap : n * 10 + (c.toNat - 48) < 18446744073709551616
        · rw [Nat.mod_eq_of_lt hwrap]
          by_cases hov : n * 10 + (c.toNat - 48) < n * 10 ∨ n * 10 + (c.toNat - 48) > maxVal
          · simp only [hov, if_true]
            constructor
            · intro h; cases h
            · intro h; omega
          · simp only [hov, if_false]
            rw [ih (n * 10 + (c.toNat - 48)) (by omega), show 10 * n = n * 10 by omega]
        · have hlt : (n * 10 + (c.toNat - 48)) % 18446744073709551616 < n * 10 := by omega
          simp only [hlt, true_or, if_true]
          constructor
          · intro h; cases h
          · intro h; omega
    · simp only [hd, List.mem_cons, forall_eq_or_imp]
      simp

/-- The result of `ParseUint`: it succeeds exactly on the unsigned base-10
integers below `2 ^ bitSize`, with their value. -/
theorem ParseUint_ok_iff (s : Bytes) (bitSize : Nat) (hb : bitSize ≤ 64) (m : Nat) :
    ParseUint s bitSize = .ok m ↔ IsUint s (2 ^ bitSize) ∧ m = decimalValue s := by
  have hpow : 2 ^ bitSize ≤ 2 ^ 64 := Nat.pow_le_pow_right (by decide) hb
  have hpos : 0 < 2 ^ bitSize := Nat.two_pow_pos bitSize
  unfold ParseUint IsUint decimalValue
  by_cases hs : s = []
  · simp [hs]
  · simp only [hs, if_false, ne_eq, not_false_eq_true, true_and]
    rw [parseLoop_ok_iff (2 ^ bitSize - 1) (by omega) s 0 m (by omega)]
    constructor
    · rintro ⟨h1, h2, h3⟩; exact ⟨⟨h1, by omega⟩, h3⟩
    · rintro ⟨⟨h1, h2⟩, h3⟩; exact ⟨h1, by omega, h3⟩

theorem ParseUint_error_of_not (s : Bytes) (bitSize : Nat) (hb : bitSize ≤ 64)
    (h : ¬ IsUint s (2 ^ bitSize)) : ∃ e, ParseUint s bitSize = .error e := by
  cases hp : ParseUint s bitSize with
  | error e => exact ⟨e, rfl⟩
  | ok m => exact absurd ((ParseUint_ok_iff s bitSize hb m).1 hp).1 h

theorem digitChar_toNat (d : Nat) (h : d < 10) : (digitChar d).toNat = 48 + d := by
  unfold digitChar
  interval_cases d <;> rfl

theorem isDigit_digitChar (d : Nat) (h : d < 10) : isDigit (digitChar d) = true := by
  simp [isDigit, digitChar_toNat d h]; omega

theorem formatBits_isDigit (k u : Nat) : ∀ c ∈ formatBits k u, isDigit c = true := by
  induction k generalizing u with
  | zero => simp [formatBits]
  | succ k ih =>
    unfold formatBits
    split
    · intro c hc
      simp only [List.mem_singleton] at hc
      subst hc
      exact isDigit_digitChar u (by assumption)
    · intro c hc
      simp only [List.mem_append, List.mem_singleton] at hc
      rcases hc with hc | hc
      · exact ih _ c hc
      · subst hc
        exact isDigit_digitChar _ (Nat.mod_lt _ (by decide))

theorem formatBits_ne_nil (k u : Nat) : formatBits (k + 1) u ≠ [] := by
  unfold formatBits
  split <;> simp

theorem decimalValue_formatBits (k u : Nat) (h : u < 10 ^ k) :
    decimalValue (formatBits k u) = u := by
  induction k generalizing u with
  | zero => simp at h; subst h; rfl
  | succ k ih =>
    unfold formatBits
    split
    · rename_i hu
      simp [decimalValue, decimalFrom, digitChar_toNat u hu]
    · have hq : u / 10 < 10 ^ k := by
        rw [Nat.div_lt_iff_lt_mul (by decide)]
        rw [pow_succ] at h
        exact h
      have := ih (u / 10) hq
      unfold decimalValue at this ⊢
      rw [decimalFrom_append, this]
      simp only [decimalFrom, List.foldl_cons, List.foldl_nil,
        digitChar_toNat (u % 10) (Nat.mod_lt _ (by decide))]
      omega

/-- The first digit written by the digit loop is `0` only for the number 0
(no leading zeros). -/
theorem formatBits_head (k u : Nat) (h : u < 10 ^ k) (h0 : u ≠ 0) :
    (formatBits k u).head? ≠ some (digitChar 0) := by
  induction k generalizing u with
  | zero => simp at h; exact absurd h h0
  | succ k ih =>
    unfold formatBits
    split
    · rename_i hu
      simp only [List.head?_cons, ne_eq, Option.some.injEq]
      intro heq
      have := congrArg Char.toNat heq
      rw [digitChar_toNat u hu, digitChar_toNat 0 (by decide)] at this
      omega
    · rename_i hu
      have hq : u / 10 < 10 ^ k := by
        rw [Nat.div_lt_iff_lt_mul (by decide)]
        rw [pow_succ] at h
        exact h
      have hq0 : u / 10 ≠ 0 := by omega
      have := ih (u / 10) hq hq0
      cases k with
      | zero => simp at hq; exact absurd hq hq0
      | succ k =>
        have hne := formatBits_ne_nil k (u / 10)
        cases hf : formatBits (k + 1) (u / 10) with
        | nil => exact absurd hf hne
        | cons a l =>
          rw [hf] at this
          simpa using this

theorem AppendUint_isUint (u : Nat) (bound : Nat) (hu : u < bound) (h64 : u < 2 ^ 64) :
    IsUint (AppendUint u) bound ∧ decimalValue (AppendUint u) = u := by
  have h20 : u < 10 ^ 20 := by norm_num at h64 ⊢; omega
  have hv := decimalValue_formatBits 20 u h20
  refine ⟨⟨formatBits_ne_nil 19 u, formatBits_isDigit 20 u, ?_⟩, hv⟩
  unfold AppendUint
  omega

/-- Parsing what `AppendUint` wrote gives the number back. -/
theorem ParseUint_AppendUint (u bitSize : Nat) (hb : bitSize ≤ 64) (hu : u < 2 ^ bitSize) :
    ParseUint (AppendUint u) bitSize = .ok u := by
  have hpow : 2 ^ bitSize ≤ 2 ^ 64 := Nat.pow_le_pow_right (by decide) hb
  have := AppendUint_isUint u (2 ^ bitSize) hu (by omega)
  rw [ParseUint_ok_iff _ _ hb]
  exact ⟨this.1, this.2.symm⟩

theorem not_mem_of_isDigit (s : Bytes) (h : ∀ c ∈ s, isDigit c = true) (x : Char)
    (hx : isDigit x = false) : x ∉ s := by
  intro hm
  rw [h x hm] at hx
  cases hx

theorem AppendUint_no_space (u : Nat) : ' ' ∉ AppendUint u :=
  not_mem_of_isDigit _ (formatBits_isDigit 20 u) ' ' (by decide)

theorem AppendUint_no_newline (u : Nat) : '\n' ∉ AppendUint u :=
  not_mem_of_isDigit _ (formatBits_isDigit 20 u) '\n' (by decide)

theorem AppendUint_length_le (u : Nat) : (AppendUint u).length ≤ 20 := by
  have : ∀ k u, (formatBits k u).length ≤ k := by
    intro k
    induction k with
    | zero => intro u; simp [formatBits]
    | succ k ih =>
      intro u
      unfold formatBits
      split
      · simp
      · have := ih (u / 10)
        simp only [List.length_append, List.length_singleton]
        omega
  exact this 20 u

/-! ## Facts about `Split`, `HasPrefix` and `ReadLine` -/

theorem Split_ne_nil (sep : Char) (s : Bytes) : Split sep s ≠ [] := by
  cases s with
  | nil => simp [Split]
  | cons c cs =>
    unfold Split
    split
    · simp
    · split <;> simp

theorem Split_of_not_mem (sep : Char) (s : Bytes) (h : sep ∉ s) : Split sep s = [s] := by
  induction s with
  | nil => rfl
  | cons c cs ih =>
    simp only [List.mem_cons, not_or] at h
    unfold Split
    rw [if_neg (fun e => h.1 e.symm), ih h.2]

theorem Split_append_sep (sep : Char) (a b : Bytes) (h : sep ∉ a) :
    Split sep (a ++ sep :: b) = a :: Split sep b := by
  induction a with
  | nil => simp [Split]
  | cons c cs ih =>
    simp only [List.mem_cons, not_or] at h
    simp only [List.cons_append]
    conv_lhs => unfold Split
    rw [if_neg (fun e => h.1 e.symm), ih h.2]

theorem HasPrefix_append (p s : Bytes) : HasPrefix (p ++ s) p = true := by
  simp [HasPrefix]

theorem takeWhile_append_of_not_mem (l r : Bytes) (x : Char) (h : x ∉ l) :
    (l ++ x :: r).takeWhile (fun c => c != x) = l := by
  induction l with
  | nil => simp
  | cons c cs ih =>
    simp only [List.mem_cons, not_or] at h
    have hc : (c != x) = true := by simp [bne_iff_ne]; exact fun e => h.1 e.symm
    simp [List.takeWhile_cons, hc, ih h.2]

/-- A line `l` that holds no `\n`, is followed by `\r\n` and fits the buffer
with its terminator is what `ReadLine` returns. -/
theorem ReadLine_crlf (size : Nat) (l rest : Bytes) (hl : '\n' ∉ l)
    (hsize : l.length + 1 < size) :
    ReadLine size (l ++ '\r' :: '\n' :: rest) = (⟨l, false, false⟩, rest) := by
  have hl' : '\n' ∉ l ++ ['\r'] := by simp [hl]
  have hpre : (l ++ '\r' :: '\n' :: rest).takeWhile (fun c => c != '\n') = l ++ ['\r'] := by
    have := takeWhile_append_of_not_mem (l ++ ['\r']) rest '\n' hl'
    simpa using this
  unfold ReadLine
  simp only [hpre]
  have h1 : (l ++ ['\r']).length < size ∧
      (l ++ ['\r']).length < (l ++ '\r' :: '\n' :: rest).length := by
    simp; omega
  rw [if_pos h1]
  have hdrop : List.drop ((l ++ ['\r']).length + 1) (l ++ '\r' :: '\n' :: rest) = rest := by
    have : l ++ '\r' :: '\n' :: rest = (l ++ ['\r', '\n']) ++ rest := by simp
    rw [this]
    exact List.drop_left' (by simp)
  rw [hdrop]
  simp

/-! ## The monad of the client -/

theorem bind_ok {α β : Type} (m : M α) (f : α → M β) (c c' : Connection) (a : α)
    (h : m c = (.ok a, c')) : (m >>= f) c = f a c' := by
  show M.bind m f c = _
  simp [M.bind, h]

theorem bind_error {α β : Type} (m : M α) (f : α → M β) (c c' : Connection) (p : PanicValue)
    (h : m c = (.error p, c')) : (m >>= f) c = (.error p, c') := by
  show M.bind m f c = _
  simp [M.bind, h]

theorem pure_eq {α : Type} (a : α) (c : Connection) : (pure a : M α) c = (.ok a, c) := rfl

/-! ## Writing on a working transport -/

theorem Transport.Write_open (t : Transport) (p : Bytes) (h1 : t.closed = false)
    (h2 : t.wcap = none) : t.Write p = (p.length, false, { t with out := t.out ++ p }) := by
  simp [Transport.Write, h1, h2]

theorem Writer.Flush_open (w : Writer) (t : Transport) (he : w.err = false)
    (h1 : t.closed = false) (h2 : t.wcap = none) :
    w.Flush t = (false, { buf := [], err := false }, { t with out := t.out ++ w.buf }) := by
  unfold Writer.Flush
  rw [Transport.Write_open t _ h1 h2]
  by_cases hb : w.buf = []
  · cases w; cases t; simp_all
  · cases w; simp_all

/-- On a working transport the loop of `WriteString` loses no byte and sets
no error: what the transport has accepted, followed by the buffer and by the
rest of the string, is the same byte sequence before and after. -/
theorem wsLoop_open (k : Nat) (w : Writer) (t : Transport) (s : Bytes) (he : w.err = false)
    (h1 : t.closed = false) (h2 : t.wcap = none) :
    (wsLoop k w t s).1.err = false ∧ (wsLoop k w t s).2.1.closed = false ∧
    (wsLoop k w t s).2.1.wcap = none ∧ (wsLoop k w t s).2.1.inp = t.inp ∧
    (wsLoop k w t s).2.1.out ++ (wsLoop k w t s).1.buf ++ (wsLoop k w t s).2.2 =
      t.out ++ w.buf ++ s := by
  induction k generalizing w t s with
  | zero => simp [wsLoop, he, h1, h2]
  | succ k ih =>
    unfold wsLoop
    split
    · rw [Writer.Flush_open { buf := w.buf ++ s.take w.Available, err := w.err } t he h1 h2]
      have := ih { buf := [], err := false } { t with out := t.out ++ (w.buf ++ s.take w.Available) }
        (s.drop w.Available) rfl h1 h2
      simp only at this ⊢
      refine ⟨this.1, this.2.1, this.2.2.1, this.2.2.2.1, ?_⟩
      rw [this.2.2.2.2]
      simp [List.append_assoc]
    · simp [he, h1, h2]

theorem wLoop_open (k : Nat) (w : Writer) (t : Transport) (p : Bytes) (he : w.err = false)
    (h1 : t.closed = false) (h2 : t.wcap = none) :
    (wLoop k w t p).1.err = false ∧ (wLoop k w t p).2.1.closed = false ∧
    (wLoop k w t p).2.1.wcap = none ∧ (wLoop k w t p).2.1.inp = t.inp ∧
    (wLoop k w t p).2.1.out ++ (wLoop k w t p).1.buf ++ (wLoop k w t p).2.2 =
      t.out ++ w.buf ++ p := by
  induction k generalizing w t p with
  | zero => simp [wLoop, he, h1, h2]
  | succ k ih =>
    unfold wLoop
    split
    · split
      · rename_i hb
        rw [Transport.Write_open t _ h1 h2]
        have := ih { w with err := false } { t with out := t.out ++ p } (p.drop p.length)
          rfl h1 h2
        simp only at this ⊢
        refine ⟨this.1, this.2.1, this.2.2.1, this.2.2.2.1, ?_⟩
        rw [this.2.2.2.2]
        simp [hb]
      · rw [Writer.Flush_open { buf := w.buf ++ p.take w.Available, err := w.err } t he h1 h2]
        have := ih { buf := [], err := false }
          { t with out := t.out ++ (w.buf ++ p.take w.Available) } (p.drop w.Available) rfl h1 h2
        simp only at this ⊢
        refine ⟨this.1, this.2.1, this.2.2.1, this.2.2.2.1, ?_⟩
        rw [this.2.2.2.2]
        simp [List.append_assoc]
    · simp [he, h1, h2]

theorem Wrote_start (c : Connection) (h : Healthy c) : Wrote c c [] :=
  ⟨h, h, rfl, rfl, rfl, by simp⟩

theorem writestring_wrote (c c1 : Connection) (bs s : Bytes) (h : Wrote c c1 bs) :
    ∃ c2, writestring s c1 = (.ok (), c2) ∧ Wrote c c2 (bs ++ s) := by
  obtain ⟨h1, h2, he⟩ := h.healthy'
  have hl := wsLoop_open (s.length + 2) c1.buffered c1.nc s he h1 h2
  unfold writestring Writer.WriteString
  generalize wsLoop (s.length + 2) c1.buffered c1.nc s = r at hl
  obtain ⟨w', t', s'⟩ := r
  simp only at hl
  obtain ⟨l1, l2, l3, l4, l5⟩ := hl
  simp only [l1, Bool.false_eq_true, if_false]
  refine ⟨_, rfl, h.healthy, ⟨l2, l3, rfl⟩, ?_, h.conn_nil, h.has_error, ?_⟩
  · simpa using l4.trans h.inp
  · simp only
    rw [← List.append_assoc, l5, h.bytes]
    simp [List.append_assoc]

theorem write_wrote (c c1 : Connection) (bs p : Bytes) (h : Wrote c c1 bs) :
    ∃ c2, write p c1 = (.ok (), c2) ∧ Wrote c c2 (bs ++ p) := by
  obtain ⟨h1, h2, he⟩ := h.healthy'
  have hl := wLoop_open (p.length + 2) c1.buffered c1.nc p he h1 h2
  unfold write Writer.Write
  generalize wLoop (p.length + 2) c1.buffered c1.nc p = r at hl
  obtain ⟨w', t', s'⟩ := r
  simp only at hl
  obtain ⟨l1, l2, l3, l4, l5⟩ := hl
  simp only [l1, Bool.false_eq_true, if_false]
  refine ⟨_, rfl, h.healthy, ⟨l2, l3, rfl⟩, ?_, h.conn_nil, h.has_error, ?_⟩
  · simpa using l4.trans h.inp
  · simp only
    rw [← List.append_assoc, l5, h.bytes]
    simp [List.append_assoc]

theorem writestrings_wrote (strs : List Bytes) (c c1 : Connection) (bs : Bytes)
    (h : Wrote c c1 bs) :
    ∃ c2, writestrings strs c1 = (.ok (), c2) ∧ Wrote c c2 (bs ++ concat strs) := by
  induction strs generalizing c1 bs with
  | nil => exact ⟨c1, rfl, by simpa [concat] using h⟩
  | cons s strs ih =>
    obtain ⟨c2, e2, w2⟩ := writestring_wrote c c1 bs s h
    obtain ⟨c3, e3, w3⟩ := ih c2 (bs ++ s) w2
    refine ⟨c3, ?_, by simpa [concat, List.append_assoc] using w3⟩
    unfold writestrings
    rw [bind_ok _ _ _ _ _ e2, e3]

theorem flush_wrote (c c1 : Connection) (bs : Bytes) (h : Wrote c c1 bs) :
    flush c1 = (.ok (), sent c bs c.nc.inp) := by
  obtain ⟨h1, h2, he⟩ := h.healthy'
  obtain ⟨g1, g2, ge⟩ := h.healthy
  unfold flush
  rw [Writer.Flush_open _ _ he h1 h2]
  simp only [Bool.false_eq_true, if_false, sent]
  rw [h.bytes]
  obtain ⟨a, ⟨i, o, cl, wc⟩, b, e⟩ := c1
  obtain ⟨a', ⟨i', o', cl', wc'⟩, b', e'⟩ := c
  have := h.inp; have := h.conn_nil; have := h.has_error
  simp_all

theorem sent_healthy (c : Connection) (bs inp : Bytes) (h : Healthy c) :
    Healthy (sent c bs inp) := ⟨h.1, h.2.1, rfl⟩

theorem flush_sent (c : Connection) (bs inp : Bytes) :
    flush (sent c bs inp) = (.ok (), sent c bs inp) := by
  unfold flush Writer.Flush
  simp [sent]

/-! ## A request followed by the reply -/

theorem bind_def {α β : Type} (m : M α) (f : α → M β) : (m >>= f) = M.bind m f := rfl

theorem bind_assoc' {α β γ : Type} (m : M α) (f : α → M β) (g : β → M γ) :
    M.bind (M.bind m f) g = M.bind m (fun a => M.bind (f a) g) := by
  funext c
  simp only [M.bind]
  cases h : m c with
  | mk r c' => cases r <;> simp

theorem sent_inp (c : Connection) (bs inp rest : Bytes) :
    { sent c bs inp with nc := { (sent c bs inp).nc with inp := rest } } = sent c bs rest := rfl

/-- Once the request is written, `readline` flushes it and reads a line from
the input. -/
theorem readline_wrote {α : Type} (c c1 : Connection) (bs : Bytes) (h : Wrote c c1 bs)
    (K : Bytes → M α) :
    (readline >>= K) c1 = (readLineChecked >>= K) (sent c bs c.nc.inp) := by
  unfold readline
  simp only [bind_def, bind_assoc']
  show M.bind flush _ c1 = _
  simp only [M.bind, flush_wrote c c1 bs h]

theorem readline_sent {α : Type} (c : Connection) (bs inp : Bytes) (K : Bytes → M α) :
    (readline >>= K) (sent c bs inp) = (readLineChecked >>= K) (sent c bs inp) := by
  unfold readline
  simp only [bind_def, bind_assoc']
  show M.bind flush _ _ = _
  simp only [M.bind, flush_sent]

/-- A request written by `writestrings` on a working connection, followed by
`readline`: the request reaches the transport whole, then a line is read. -/
theorem request_reply {α : Type} (c : Connection) (h : Healthy c) (strs : List Bytes)
    (K : Bytes → M α) :
    (writestrings strs >>= fun _ => readline >>= K) c =
      (readLineChecked >>= K) (sent c (concat strs) c.nc.inp) := by
  obtain ⟨c1, e1, w1⟩ := writestrings_wrote strs c c [] (Wrote_start c h)
  rw [bind_ok _ _ _ _ _ e1, readline_wrote c c1 _ w1]
  simp

theorem readLineChecked_ok {α : Type} (c : Connection) (bs inp r rest : Bytes)
    (K : Bytes → M α) (h : ReadLine defaultBufSize inp = (⟨r, false, false⟩, rest)) :
    (readLineChecked >>= K) (sent c bs inp) = K r (sent c bs rest) := by
  have : readLineChecked (sent c bs inp) = (.ok r, sent c bs rest) := by
    unfold readLineChecked
    simp only [sent] at h ⊢
    rw [h]
    simp
  rw [bind_ok _ _ _ _ _ this]

theorem readLineChecked_fail {α : Type} (c : Connection) (bs inp rest : Bytes) (l : Line)
    (K : Bytes → M α) (h : ReadLine defaultBufSize inp = (l, rest))
    (hl : (l.isPrefix || l.err) = true) :
    (readLineChecked >>= K) (sent c bs inp) =
      (.error (.memcache ⟨.readline l.isPrefix l.err⟩), sent c bs rest) := by
  have : readLineChecked (sent c bs inp) =
      (.error (.memcache ⟨.readline l.isPrefix l.err⟩), sent c bs rest) := by
    unfold readLineChecked
    simp only [sent] at h ⊢
    rw [h]
    simp [hl]
  rw [bind_error _ _ _ _ _ this]

/-! ## The store frame -/

/-- On a working connection `store` with a value within the size cap writes
the store frame, flushes it, and then reads the status line. -/
theorem store_request (c : Connection) (h : Healthy c) (command key : Bytes)
    (flags timeout : Nat) (value : Bytes) (cas : Nat) (hv : value.length ≤ 1000000) :
    store command key flags timeout value cas c =
      (readLineChecked >>= storeReply)
        (sent c (storeFrame command key flags timeout value cas) c.nc.inp) := by
  unfold store
  rw [if_neg (by omega)]
  obtain ⟨c1, e1, w1⟩ := writestrings_wrote [command, " ".toList, key, " ".toList] c c []
    (Wrote_start c h)
  obtain ⟨c2, e2, w2⟩ := write_wrote c c1 _ (AppendUint flags) w1
  obtain ⟨c3, e3, w3⟩ := writestring_wrote c c2 _ " ".toList w2
  obtain ⟨c4, e4, w4⟩ := write_wrote c c3 _ (AppendUint timeout) w3
  obtain ⟨c5, e5, w5⟩ := writestring_wrote c c4 _ " ".toList w4
  obtain ⟨c6, e6, w6⟩ := write_wrote c c5 _ (AppendUint value.length) w5
  rw [bind_ok _ _ _ _ _ e1, bind_ok _ _ _ _ _ e2, bind_ok _ _ _ _ _ e3, bind_ok _ _ _ _ _ e4,
    bind_ok _ _ _ _ _ e5, bind_ok _ _ _ _ _ e6]
  by_cases hc : cas = 0
  · subst hc
    simp only [ne_eq, not_true_eq_false, if_false]
    obtain ⟨c7, e7, w7⟩ := writestring_wrote c c6 _ "\r\n".toList w6
    obtain ⟨c8, e8, w8⟩ := write_wrote c c7 _ value w7
    obtain ⟨c9, e9, w9⟩ := writestring_wrote c c8 _ "\r\n".toList w8
    rw [bind_ok _ _ _ _ _ (pure_eq () c6), bind_ok _ _ _ _ _ e7, bind_ok _ _ _ _ _ e8,
      bind_ok _ _ _ _ _ e9, readline_wrote c c9 _ w9]
    simp [storeFrame, concat, List.append_assoc]
  · simp only [ne_eq, hc, not_false_eq_true, if_true]
    obtain ⟨d1, f1, v1⟩ := writestring_wrote c c6 _ " ".toList w6
    obtain ⟨d2, f2, v2⟩ := write_wrote c d1 _ (AppendUint cas) v1
    obtain ⟨c7, e7, w7⟩ := writestring_wrote c d2 _ "\r\n".toList v2
    obtain ⟨c8, e8, w8⟩ := write_wrote c c7 _ value w7
    obtain ⟨c9, e9, w9⟩ := writestring_wrote c c8 _ "\r\n".toList w8
    rw [bind_ok _ _ _ _ _ f1, bind_ok _ _ _ _ _ f2, bind_ok _ _ _ _ _ e7, bind_ok _ _ _ _ _ e8,
      bind_ok _ _ _ _ _ e9, readline_wrote c c9 _ w9]
    simp [storeFrame, concat, List.append_assoc, hc]

/-! ## Store operations -/

theorem run_store (op : Op) (verb key : Bytes) (f t : Nat) (v : Bytes) (cas : Nat)
    (h : op.storeArgs = some (verb, key, f, t, v, cas)) (c : Connection) :
    run op c = ((handleError false (store verb key f t v cas) c).1.map .bool,
      (handleError false (store verb key f t v cas) c).2) := by
  cases op <;> simp only [Op.storeArgs, Option.some.injEq, Prod.mk.injEq, reduceCtorEq] at h <;>
    (obtain ⟨rfl, rfl, rfl, rfl, rfl, rfl⟩ := h; rfl)

theorem AppendUint_numeral (n : Nat) (h : n < 2 ^ 64) : Numeral (AppendUint n) n := by
  have h20 : n < 10 ^ 20 := by norm_num at h ⊢; omega
  refine ⟨formatBits_ne_nil 19 n, formatBits_isDigit 20 n, decimalValue_formatBits 20 n h20, ?_⟩
  intro hd
  by_cases hn : n = 0
  · subst hn; rfl
  · exact absurd hd (formatBits_head 20 n h20 hn)

/-- The status line decides the result of `store` and leaves the connection
as it is. -/
theorem storeReply_eq (r : Bytes) (s : Connection) :
    storeReply r s =
      (if Contains r "ERROR".toList then .error (.memcache ⟨.serverError⟩)
        else .ok (HasPrefix r "STORED".toList), s) := by
  unfold storeReply
  split <;> rfl

theorem readLineChecked_state (s : Connection) :
    (readLineChecked s).2.nc.out = s.nc.out ∧ (readLineChecked s).2.buffered = s.buffered ∧
      (readLineChecked s).2.has_error = s.has_error ∧
      (readLineChecked s).2.conn_nil = s.conn_nil := by
  unfold readLineChecked
  split
  split <;> simp

theorem handleError_out {α : Type} (zero : α) (body : M α) (c : Connection) :
    (handleError zero body c).2.nc = (body c).2.nc ∧
      (handleError zero body c).2.buffered = (body c).2.buffered ∧
      (handleError zero body c).2.conn_nil = (body c).2.conn_nil := by
  unfold handleError
  rcases h : body c with ⟨r, c'⟩
  cases r with
  | ok a => simp
  | error p => cases p <;> simp [recovered]

/-- What a store operation within the size cap leaves on a working transport:
the pending bytes and the frame, all flushed. -/
theorem store_out (c : Connection) (h : Healthy c) (verb key : Bytes) (f t : Nat) (v : Bytes)
    (cas : Nat) (hv : v.length ≤ 1000000) :
    (store verb key f t v cas c).2.nc.out =
        c.nc.out ++ c.buffered.buf ++ storeFrame verb key f t v cas ∧
      (store verb key f t v cas c).2.buffered.buf = [] := by
  rw [store_request c h verb key f t v cas hv, bind_def]
  simp only [M.bind]
  have hs := readLineChecked_state (sent c (storeFrame verb key f t v cas) c.nc.inp)
  rcases hr : readLineChecked (sent c (storeFrame verb key f t v cas) c.nc.inp) with ⟨r, s⟩
  rw [hr] at hs
  cases r with
  | ok a =>
    simp only [storeReply_eq]
    exact ⟨hs.1, by rw [hs.2.1]; rfl⟩
  | error p => exact ⟨hs.1, by rw [hs.2.1]; rfl⟩

theorem store_oversize (verb key : Bytes) (f t : Nat) (v : Bytes) (cas : Nat)
    (hv : v.length > 1000000) (c : Connection) :
    handleError false (store verb key f t v cas) c = (.ret false none, c) := by
  unfold handleError store
  rw [if_pos hv]

/-- What a store operation returns once its status line `r` has been read. -/
theorem store_result (c : Connection) (h : Healthy c) (verb key : Bytes) (f t : Nat)
    (v : Bytes) (cas : Nat) (hv : v.length ≤ 1000000) (r rest : Bytes)
    (hr : ReadLine defaultBufSize c.nc.inp = (⟨r, false, false⟩, rest)) :
    (handleError false (store verb key f t v cas) c).1 =
      if Contains r "ERROR".toList then .ret false (some ⟨.serverError⟩)
      else .ret (HasPrefix r "STORED".toList) none := by
  unfold handleError
  rw [store_request c h verb key f t v cas hv, readLineChecked_ok c _ _ r rest _ hr,
    storeReply_eq]
  by_cases he : Contains r "ERROR".toList = true
  · rw [if_pos he, if_pos he]; rfl
  · rw [if_neg he, if_neg he]

/-- C2 (amended): for every store operation (set, add, replace, append,
prepend, cas) on a working connection, with a value of at most 1,000,000
bytes, the bytes that reach the transport are exactly the pending bytes
followed by the store frame: verb, space, key, space, flags, space, exptime,
space, byte length, then a space and the cas token exactly when the token
handed to `store` is not zero (it is zero for all but `Cas`, and `Cas` hands
over the token it is given, so `Cas` with token 0 writes no cas field),
`\r\n`, the value, `\r\n`; nothing stays buffered; and each numeric field is
the shortest decimal numeral of its number (digits only, no sign, no leading
zero). -/
theorem store_wire_format (op : Op) (verb key : Bytes) (f t : Nat) (v : Bytes) (cas : Nat)
    (c : Connection) (hop : op.storeArgs = some (verb, key, f, t, v, cas)) (h : Healthy c)
    (hv : v.length ≤ 1000000) (hf : f < 2 ^ 16) (ht : t < 2 ^ 64) (hc : cas < 2 ^ 64) :
    (run op c).2.nc.out = c.nc.out ++ c.buffered.buf ++ storeFrame verb key f t v cas ∧
      (run op c).2.buffered.buf = [] ∧
      Numeral (AppendUint f) f ∧ Numeral (AppendUint t) t ∧
      Numeral (AppendUint v.length) v.length ∧ Numeral (AppendUint cas) cas := by
  have ho := store_out c h verb key f t v cas hv
  have hh := handleError_out false (store verb key f t v cas) c
  rw [run_store op verb key f t v cas hop c]
  refine ⟨by rw [hh.1]; exact ho.1, by rw [hh.2.1]; exact ho.2, ?_, ?_, ?_, ?_⟩
  · exact AppendUint_numeral f (by norm_num at hf ⊢; omega)
  · exact AppendUint_numeral t ht
  · exact AppendUint_numeral v.length (by norm_num; omega)
  · exact AppendUint_numeral cas hc

/-- The wire format theorem applied to `Cas("k", 1, 2, "v", 7)` on a fresh
connection. -/
theorem store_wire_format_witness :
    (run (.Cas "k".toList 1 2 "v".toList 7)
        (newConnection ⟨"STORED\r\n".toList, [], false, none⟩)).2.nc.out =
      "cas k 1 2 1 7\r\nv\r\n".toList :=
  (store_wire_format (.Cas "k".toList 1 2 "v".toList 7) "cas".toList "k".toList 1 2 "v".toList 7
    (newConnection ⟨"STORED\r\n".toList, [], false, none⟩) rfl (by decide) (by decide)
    (by decide) (by decide) (by decide)).1

/-- C2 (counterexample): `Cas` given the token 0 writes a frame without a cas
field, `cas k 0 0 1`, and not `cas k 0 0 1 0`. -/
theorem Cas_token_zero_omits_cas_field :
    (run (.Cas "k".toList 0 0 "v".toList 0)
        (newConnection ⟨"STORED\r\n".toList, [], false, none⟩)).2.nc.out =
      "cas k 0 0 1\r\nv\r\n".toList ∧
    (run (.Cas "k".toList 0 0 "v".toList 0)
        (newConnection ⟨"STORED\r\n".toList, [], false, none⟩)).2.nc.out ≠
      "cas k 0 0 1 0\r\nv\r\n".toList := by
  decide

/-- C6: a store operation whose value has more than 1,000,000 bytes returns
stored=false with a nil error and leaves the connection exactly as it was, in
every connection state (nothing written or buffered, nothing read, sticky flag
unchanged); a value of exactly 1,000,000 bytes is not rejected: on a working
connection its frame, value included, reaches the transport. -/
theorem store_size_cap (op : Op) (verb key : Bytes) (f t : Nat) (v : Bytes) (cas : Nat)
    (c : Connection) (hop : op.storeArgs = some (verb, key, f, t, v, cas)) :
    (v.length > 1000000 → run op c = (.ret (.bool false) none, c)) ∧
    (v.length = 1000000 → Healthy c →
      (run op c).2.nc.out = c.nc.out ++ c.buffered.buf ++ storeFrame verb key f t v cas) := by
  rw [run_store op verb key f t v cas hop c]
  constructor
  · intro hv
    rw [store_oversize verb key f t v cas hv c]
    rfl
  · intro hv h
    rw [(handleError_out false (store verb key f t v cas) c).1]
    exact (store_out c h verb key f t v cas (by omega)).1

/-- The size cap theorem applied to `Set` with 1,000,001 bytes and to `Set`
with 1,000,000 bytes. -/
theorem store_size_cap_witness :
    run (.Set "k".toList 0 0 (List.replicate 1000001 'x'))
        (newConnection ⟨"STORED\r\n".toList, [], false, none⟩) =
      (.ret (.bool false) none, newConnection ⟨"STORED\r\n".toList, [], false, none⟩) ∧
    (run (.Set "k".toList 0 0 (List.replicate 1000000 'x'))
        (newConnection ⟨"STORED\r\n".toList, [], false, none⟩)).2.nc.out =
      [] ++ [] ++ storeFrame "set".toList "k".toList 0 0 (List.replicate 1000000 'x') 0 :=
  ⟨(store_size_cap (.Set "k".toList 0 0 (List.replicate 1000001 'x')) "set".toList "k".toList
      0 0 (List.replicate 1000001 'x') 0 _ rfl).1
      (by rw [List.length_replicate]; omega),
   (store_size_cap (.Set "k".toList 0 0 (List.replicate 1000000 'x')) "set".toList "k".toList
      0 0 (List.replicate 1000000 'x') 0 (newConnection ⟨"STORED\r\n".toList, [], false, none⟩)
      rfl).2 (List.length_replicate _ _) (by decide)⟩

/-- C10: for every status line `r` read in reply to a store command with a
value of at most 1,000,000 bytes on a working connection: if `r` contains
`ERROR` the operation returns a fault (and stored=false); otherwise it returns
a nil error and stored=true exactly when `r` begins with `STORED`. -/
theorem store_reply (op : Op) (verb key : Bytes) (f t : Nat) (v : Bytes) (cas : Nat)
    (c : Connection) (r rest : Bytes) (hop : op.storeArgs = some (verb, key, f, t, v, cas))
    (h : Healthy c) (hv : v.length ≤ 1000000)
    (hr : ReadLine defaultBufSize c.nc.inp = (⟨r, false, false⟩, rest)) :
    (Contains r "ERROR".toList = true →
      (run op c).1 = .ret (.bool false) (some ⟨.serverError⟩)) ∧
    (Contains r "ERROR".toList = false →
      (run op c).1 = .ret (.bool (HasPrefix r "STORED".toList)) none) := by
  rw [run_store op verb key f t v cas hop c]
  simp only [store_result c h verb key f t v cas hv r rest hr]
  constructor
  · intro he; rw [if_pos he]; rfl
  · intro he; rw [if_neg (by rw [he]; exact Bool.false_ne_true)]; rfl

/-- The store reply theorem applied to `Add` answered by `NOT_STORED`. -/
theorem store_reply_witness :
    (run (.Add "k".toList 0 0 "v".toList)
        (newConnection ⟨"NOT_STORED\r\n".toList, [], false, none⟩)).1 =
      .ret (.bool false) none :=
  (store_reply (.Add "k".toList 0 0 "v".toList) "add".toList "k".toList 0 0 "v".toList 0
    (newConnection ⟨"NOT_STORED\r\n".toList, [], false, none⟩) "NOT_STORED".toList [] rfl
    (by decide) (by decide) (by decide)).2 (by decide)

/-! ## Fetch replies -/

theorem toInt_small (x : Nat) (h : x < 2 ^ 63) : toInt x = (x : Int) := by
  unfold toInt
  have : x % 2 ^ 64 = x := Nat.mod_eq_of_lt (by norm_num at h ⊢; omega)
  rw [this, if_pos h]

theorem read_sent (c : Connection) (bs inp : Bytes) (n : Nat) (hlen : n ≤ inp.length) :
    read (n : Int) (sent c bs inp) = (.ok (inp.take n), sent c bs (inp.drop n)) := by
  unfold read
  rw [bind_ok _ _ _ _ _ (flush_sent c bs inp)]
  rw [if_neg (by omega)]
  simp only [Int.toNat_ofNat, readFullChecked, ReadFull, sent]
  rw [if_pos hlen]
  rfl

theorem readline_sent_ok (c : Connection) (bs inp r rest : Bytes)
    (h : ReadLine defaultBufSize inp = (⟨r, false, false⟩, rest)) :
    readline (sent c bs inp) = (.ok r, sent c bs rest) := by
  have := readline_sent c bs inp (fun x => (pure x : M Bytes))
  have h2 := readLineChecked_ok c bs inp r rest (fun x => (pure x : M Bytes)) h
  have e1 : (readline >>= fun x => (pure x : M Bytes)) (sent c bs inp) =
      readline (sent c bs inp) := by
    rw [bind_def]
    simp only [M.bind]
    rcases readline (sent c bs inp) with ⟨r', c'⟩
    cases r' <;> rfl
  rw [← e1, this, h2]
  rfl

/-- A header with fewer than four fields is a fault. -/
theorem getValue_short (header : Bytes) (s : Connection)
    (h : (Split ' ' header).length < 4) :
    getValue header s = (.error (.memcache ⟨.malformed header⟩), s) := by
  unfold getValue
  simp only [h, if_true]
  rfl

/-- A header of four or five fields with a flags, byte-length or cas field
that is not a number of its width is a fault, raised before anything is read. -/
theorem getValue_number_fault (header : Bytes) (s : Connection)
    (hlen : (Split ' ' header).length = 4 ∨ (Split ' ' header).length = 5)
    (hbad : ¬ IsUint ((Split ' ' header).getD 2 []) (2 ^ 16) ∨
      ¬ IsUint ((Split ' ' header).getD 3 []) (2 ^ 64) ∨
      ((Split ' ' header).length = 5 ∧ ¬ IsUint ((Split ' ' header).getD 4 []) (2 ^ 64))) :
    ∃ e, getValue header s = (.error (.memcache ⟨.number e⟩), s) := by
  unfold getValue
  simp only [show ¬ (Split ' ' header).length < 4 by omega, if_false]
  cases hf : ParseUint ((Split ' ' header).getD 2 []) 16 with
  | error e => exact ⟨e, rfl⟩
  | ok f =>
    have hfv := ((ParseUint_ok_iff _ 16 (by decide) f).1 hf).1
    cases hn : ParseUint ((Split ' ' header).getD 3 []) 64 with
    | error e => exact ⟨e, rfl⟩
    | ok n =>
      have hnv := ((ParseUint_ok_iff _ 64 (by decide) n).1 hn).1
      rcases hbad with hb | hb | ⟨h5, hb⟩
      · exact absurd hfv hb
      · exact absurd hnv hb
      · cases hc : ParseUint ((Split ' ' header).getD 4 []) 64 with
        | ok cs => exact absurd ((ParseUint_ok_iff _ 64 (by decide) cs).1 hc).1 hb
        | error e =>
          refine ⟨e, ?_⟩
          simp only [bind_def, M.bind, orPanic, h5, if_true, hc]
          rfl

/-- A header of at least four fields whose flags and byte-length fields are
numbers (and whose fifth field is one when there are exactly five), followed
by a data block of that length plus two bytes and by a line: the value is the
data block, the line is handed on. -/
theorem getValue_ok (header : Bytes) (c : Connection) (bs inp : Bytes) (f n cs : Nat)
    (hlen : 4 ≤ (Split ' ' header).length)
    (hf : ParseUint ((Split ' ' header).getD 2 []) 16 = .ok f)
    (hn : ParseUint ((Split ' ' header).getD 3 []) 64 = .ok n)
    (hcas : if (Split ' ' header).length = 5
      then ParseUint ((Split ' ' header).getD 4 []) 64 = .ok cs else cs = 0)
    (hsz : n + 2 ≤ inp.length) (hbig : n + 2 < 2 ^ 63) (e rest : Bytes)
    (hend : ReadLine defaultBufSize (inp.drop (n + 2)) = (⟨e, false, false⟩, rest)) :
    getValue header (sent c bs inp) = (.ok (inp.take n, f, cs, e), sent c bs rest) := by
  have hf16 : f < 2 ^ 16 := by
    have := (ParseUint_ok_iff _ 16 (by decide) f).1 hf
    rw [this.2]; exact this.1.2.2
  have hread := read_sent c bs inp (n + 2) hsz
  have hint : toInt (n + 2) = ((n + 2 : Nat) : Int) := toInt_small (n + 2) hbig
  have hslice : sliceTo (inp.take (n + 2)) n (sent c bs (inp.drop (n + 2))) =
      (.ok (inp.take n), sent c bs (inp.drop (n + 2))) := by
    unfold sliceTo
    rw [if_neg (by simp; omega)]
    simp only [List.take_take]
    rw [show min n (n + 2) = n by omega]
    rfl
  unfold getValue
  simp only [show ¬ (Split ' ' header).length < 4 by omega, if_false, hf, hn, hint]
  rw [bind_ok _ _ _ _ _ (show orPanic (.ok f) (sent c bs inp) = (.ok f, sent c bs inp) from rfl),
    bind_ok _ _ _ _ _ (show orPanic (.ok n) (sent c bs inp) = (.ok n, sent c bs inp) from rfl)]
  by_cases h5 : (Split ' ' header).length = 5
  · rw [if_pos h5] at hcas
    rw [if_pos h5, hcas,
      bind_ok _ _ _ _ _ (show orPanic (.ok cs) (sent c bs inp) = (.ok cs, sent c bs inp) from rfl),
      hint, bind_ok _ _ _ _ _ hread, bind_ok _ _ _ _ _ hslice,
      bind_ok _ _ _ _ _ (readline_sent_ok c bs _ e rest hend), Nat.mod_eq_of_lt hf16]
    rfl
  · rw [if_neg h5] at hcas
    rw [if_neg h5, hcas, bind_ok _ _ _ _ _ (pure_eq 0 (sent c bs inp)),
      hint, bind_ok _ _ _ _ _ hread, bind_ok _ _ _ _ _ hslice,
      bind_ok _ _ _ _ _ (readline_sent_ok c bs _ e rest hend), Nat.mod_eq_of_lt hf16]
    rfl

theorem getReply_value_error (header : Bytes) (s s' : Connection) (p : PanicValue)
    (hv : HasPrefix header "VALUE".toList = true) (h : getValue header s = (.error p, s')) :
    getReply header s = (.error p, s') := by
  unfold getReply
  rw [if_pos hv, bind_error _ _ _ _ _ h]

theorem getReply_value_ok (header : Bytes) (s s' : Connection) (v : Bytes) (f cs : Nat)
    (e : Bytes) (hv : HasPrefix header "VALUE".toList = true)
    (h : getValue header s = (.ok (v, f, cs, e), s')) :
    getReply header s =
      if HasPrefix e "END".toList then (.ok (v, f, cs), s')
      else (.error (.memcache ⟨.malformed e⟩), s') := by
  unfold getReply
  rw [if_pos hv, bind_ok _ _ _ _ _ h]
  by_cases he : HasPrefix e "END".toList = true
  · simp only [he, if_true]; rfl
  · simp only [he, if_false]; rfl

theorem getReply_other (header : Bytes) (s : Connection)
    (hv : HasPrefix header "VALUE".toList = false) :
    getReply header s =
      if HasPrefix header "END".toList then (.ok ([], 0, 0), s)
      else (.error (.memcache ⟨.malformed header⟩), s) := by
  unfold getReply
  rw [if_neg (by rw [hv]; exact Bool.false_ne_true), bind_ok _ _ _ _ _ (pure_eq _ s)]
  by_cases he : HasPrefix header "END".toList = true
  · simp only [he, if_true]; rfl
  · simp only [he, if_false]; rfl

/-- On a working connection `get` writes its request, flushes it, and then
reads the header line. -/
theorem get_request (c : Connection) (h : Healthy c) (command key : Bytes) :
    get command key c =
      (readLineChecked >>= getReply) (sent c (fetchRequest command key) c.nc.inp) := by
  unfold get
  have := request_reply c h [command, " ".toList, key, "\r\n".toList] getReply
  have hc : concat [command, " ".toList, key, "\r\n".toList] = fetchRequest command key := by
    simp [concat, fetchRequest]
  rw [hc] at this
  exact this

theorem Get_ok (key : Bytes) (c c' : Connection) (v : Bytes × Nat × Nat)
    (h : get "get".toList key c = (.ok v, c')) :
    Get key c = (.ret (v.1, v.2.1) none, c') := by
  unfold Get handleError
  rw [bind_ok _ _ _ _ _ h]

theorem Get_error (key : Bytes) (c c' : Connection) (p : PanicValue)
    (h : get "get".toList key c = (.error p, c')) :
    Get key c = recovered ([], 0) p c' := by
  unfold Get handleError
  rw [bind_error _ _ _ _ _ h]

theorem Gets_ok (key : Bytes) (c c' : Connection) (v : Bytes × Nat × Nat)
    (h : get "gets".toList key c = (.ok v, c')) :
    Gets key c = (.ret v none, c') := by
  unfold Gets handleError
  rw [h]

theorem Gets_error (key : Bytes) (c c' : Connection) (p : PanicValue)
    (h : get "gets".toList key c = (.error p, c')) :
    Gets key c = recovered ([], 0, 0) p c' := by
  unfold Gets handleError
  rw [h]

/-- What `Get` and `Gets` do with a panic of `get` raised with a
`MemcacheError`: they return zero results with the error and set the flag. -/
theorem fetch_fault (key : Bytes) (c : Connection) (t : Text) (s1 s2 : Connection)
    (h1 : get "get".toList key c = (.error (.memcache ⟨t⟩), s1))
    (h2 : get "gets".toList key c = (.error (.memcache ⟨t⟩), s2)) :
    run (.Get key) c = (.ret (.item [] 0 0) (some ⟨t⟩), { s1 with has_error := true }) ∧
    run (.Gets key) c = (.ret (.item [] 0 0) (some ⟨t⟩), { s2 with has_error := true }) := by
  simp only [run, Get_error key c s1 _ h1, Gets_error key c s2 _ h2]
  exact ⟨rfl, rfl⟩

/-- What `Get` and `Gets` return when `get` returns. -/
theorem fetch_ok (key : Bytes) (c : Connection) (v : Bytes) (f cs : Nat) (s1 s2 : Connection)
    (h1 : get "get".toList key c = (.ok (v, f, cs), s1))
    (h2 : get "gets".toList key c = (.ok (v, f, cs), s2)) :
    run (.Get key) c = (.ret (.item v f 0) none, s1) ∧
    run (.Gets key) c = (.ret (.item v f cs) none, s2) := by
  simp only [run, Get_ok key c s1 _ h1, Gets_ok key c s2 _ h2]
  exact ⟨rfl, rfl⟩

/-- The result of `get` once the header line has been read. -/
theorem get_of_header (c : Connection) (h : Healthy c) (command key header rest : Bytes)
    (hr : ReadLine defaultBufSize c.nc.inp = (⟨header, false, false⟩, rest)) :
    get command key c = getReply header (sent c (fetchRequest command key) rest) := by
  rw [get_request c h, readLineChecked_ok c _ _ header rest _ hr]

/-- C9: for every `VALUE` header with 4 or 5 fields read on a working
connection: if the flags field is not an unsigned base-10 integer below 2^16,
or the byte-length field is not an unsigned base-10 integer below 2^64, or the
5th field of a 5-field header is not an unsigned base-10 integer below 2^64,
then `Get` and `Gets` return a fault (the `strconv` error) with zero results
and set the sticky flag: no field is truncated or replaced by zero. -/
theorem fetch_number_fault (key : Bytes) (c : Connection) (header rest : Bytes)
    (h : Healthy c)
    (hr : ReadLine defaultBufSize c.nc.inp = (⟨header, false, false⟩, rest))
    (hv : HasPrefix header "VALUE".toList = true)
    (hlen : (Split ' ' header).length = 4 ∨ (Split ' ' header).length = 5)
    (hbad : ¬ IsUint ((Split ' ' header).getD 2 []) (2 ^ 16) ∨
      ¬ IsUint ((Split ' ' header).getD 3 []) (2 ^ 64) ∨
      ((Split ' ' header).length = 5 ∧ ¬ IsUint ((Split ' ' header).getD 4 []) (2 ^ 64))) :
    ∃ e,
      (run (.Get key) c).1 = .ret (.item [] 0 0) (some ⟨.number e⟩) ∧
      (run (.Gets key) c).1 = .ret (.item [] 0 0) (some ⟨.number e⟩) ∧
      HasError (run (.Get key) c).2 = true ∧ HasError (run (.Gets key) c).2 = true := by
  have g1 := get_of_header c h "get".toList key header rest hr
  have g2 := get_of_header c h "gets".toList key header rest hr
  obtain ⟨e1, he1⟩ := getValue_number_fault header
    (sent c (fetchRequest "get".toList key) rest) hlen hbad
  obtain ⟨e2, he2⟩ := getValue_number_fault header
    (sent c (fetchRequest "gets".toList key) rest) hlen hbad
  have hee : e1 = e2 := by
    have a1 := he1; have a2 := he2
    unfold getValue at a1 a2
    simp only [show ¬ (Split ' ' header).length < 4 by omega, if_false] at a1 a2
    cases hf : ParseUint ((Split ' ' header).getD 2 []) 16 with
    | error e =>
      simp only [hf, bind_def, M.bind, orPanic, raise, Prod.mk.injEq, Except.error.injEq,
        PanicValue.memcache.injEq, MemcacheError.mk.injEq, Text.number.injEq] at a1 a2
      rw [← a1.1, ← a2.1]
    | ok f =>
      cases hn : ParseUint ((Split ' ' header).getD 3 []) 64 with
      | error e =>
        simp only [hf, hn, bind_def, M.bind, orPanic, raise, pure, Prod.mk.injEq,
          Except.error.injEq, PanicValue.memcache.injEq, MemcacheError.mk.injEq,
          Text.number.injEq] at a1 a2
        rw [← a1.1, ← a2.1]
      | ok n =>
        have hfv := ((ParseUint_ok_iff _ 16 (by decide) f).1 hf).1
        have hnv := ((ParseUint_ok_iff _ 64 (by decide) n).1 hn).1
        rcases hbad with hb | hb | ⟨h5, hb⟩
        · exact absurd hfv hb
        · exact absurd hnv hb
        · cases hc : ParseUint ((Split ' ' header).getD 4 []) 64 with
          | ok cs => exact absurd ((ParseUint_ok_iff _ 64 (by decide) cs).1 hc).1 hb
          | error e =>
            simp only [hf, hn, hc, h5, if_true, bind_def, M.bind, orPanic, raise, pure,
              Prod.mk.injEq, Except.error.injEq, PanicValue.memcache.injEq,
              MemcacheError.mk.injEq, Text.number.injEq] at a1 a2
            rw [← a1.1, ← a2.1]
  subst hee
  rw [getReply_value_error header _ _ _ hv he1] at g1
  rw [getReply_value_error header _ _ _ hv he2] at g2
  have := fetch_fault key c (.number e1) _ _ g1 g2
  refine ⟨e1, ?_, ?_, ?_, ?_⟩
  · rw [this.1]
  · rw [this.2]
  · rw [this.1]; rfl
  · rw [this.2]; rfl

/-- The fetch number fault theorem applied to the header `VALUE k 70000 3`,
whose flags do not fit 16 bits. -/
theorem fetch_number_fault_witness :
    ∃ e,
      (run (.Get "k".toList)
        (newConnection ⟨"VALUE k 70000 3\r\nabc\r\nEND\r\n".toList, [], false, none⟩)).1 =
          .ret (.item [] 0 0) (some ⟨.number e⟩) ∧
      (run (.Gets "k".toList)
        (newConnection ⟨"VALUE k 70000 3\r\nabc\r\nEND\r\n".toList, [], false, none⟩)).1 =
          .ret (.item [] 0 0) (some ⟨.number e⟩) ∧
      HasError (run (.Get "k".toList)
        (newConnection ⟨"VALUE k 70000 3\r\nabc\r\nEND\r\n".toList, [], false, none⟩)).2 = true ∧
      HasError (run (.Gets "k".toList)
        (newConnection ⟨"VALUE k 70000 3\r\nabc\r\nEND\r\n".toList, [], false, none⟩)).2 = true :=
  fetch_number_fault "k".toList
    (newConnection ⟨"VALUE k 70000 3\r\nabc\r\nEND\r\n".toList, [], false, none⟩)
    "VALUE k 70000 3".toList "abc\r\nEND\r\n".toList (by decide) (by decide) (by decide)
    (Or.inl (by decide)) (Or.inl (by decide))

/-- The result of `Get` and `Gets` on a working connection for a reply made
of a `VALUE` header of at least four fields with numeric flags and byte length
(and a numeric fifth field when there are exactly five), a data block of that
length, two more bytes, and a line that begins with `END`. -/
theorem fetch_value (key : Bytes) (c : Connection) (header rest : Bytes) (f n cs : Nat)
    (e rest' : Bytes) (h : Healthy c)
    (hr : ReadLine defaultBufSize c.nc.inp = (⟨header, false, false⟩, rest))
    (hv : HasPrefix header "VALUE".toList = true)
    (hlen : 4 ≤ (Split ' ' header).length)
    (hf : ParseUint ((Split ' ' header).getD 2 []) 16 = .ok f)
    (hn : ParseUint ((Split ' ' header).getD 3 []) 64 = .ok n)
    (hcas : if (Split ' ' header).length = 5
      then ParseUint ((Split ' ' header).getD 4 []) 64 = .ok cs else cs = 0)
    (hsz : n + 2 ≤ rest.length) (hbig : n + 2 < 2 ^ 63)
    (hend : ReadLine defaultBufSize (rest.drop (n + 2)) = (⟨e, false, false⟩, rest'))
    (he : HasPrefix e "END".toList = true) :
    run (.Get key) c =
      (.ret (.item (rest.take n) f 0) none, sent c (fetchRequest "get".toList key) rest') ∧
    run (.Gets key) c =
      (.ret (.item (rest.take n) f cs) none, sent c (fetchRequest "gets".toList key) rest') := by
  have g1 := get_of_header c h "get".toList key header rest hr
  have g2 := get_of_header c h "gets".toList key header rest hr
  rw [getReply_value_ok header _ _ _ _ _ _ hv
    (getValue_ok header c _ rest f n cs hlen hf hn hcas hsz hbig e rest' hend), if_pos he] at g1 g2
  exact fetch_ok key c _ f cs _ _ g1 g2

/-- C8 (amended): for every get/gets reply on a working connection whose
first line begins with `VALUE`: a line with fewer than 4 space-separated
fields makes `Get` and `Gets` return a fault (malformed response) with zero
results; a line with 4 or more fields, numeric flags and byte length, followed
by the data block and a line beginning with `END`, is parsed as
`VALUE key flags bytes [cas]`: the flags are its 3rd field and the value is
the block of as many bytes as its 4th field says; with exactly 4 fields the
cas token is 0; with exactly 5 fields the cas token is the 5th field, which
`Gets` returns; and a line with 6 or more fields is not rejected: the further
fields are ignored and the cas token returned is 0. -/
theorem fetch_field_count (key : Bytes) (c : Connection) (header rest : Bytes)
    (h : Healthy c)
    (hr : ReadLine defaultBufSize c.nc.inp = (⟨header, false, false⟩, rest))
    (hv : HasPrefix header "VALUE".toList = true) :
    ((Split ' ' header).length < 4 →
      (run (.Get key) c).1 = .ret (.item [] 0 0) (some ⟨.malformed header⟩) ∧
      (run (.Gets key) c).1 = .ret (.item [] 0 0) (some ⟨.malformed header⟩)) ∧
    (∀ (f n : Nat) (e rest' : Bytes),
      ParseUint ((Split ' ' header).getD 2 []) 16 = .ok f →
      ParseUint ((Split ' ' header).getD 3 []) 64 = .ok n →
      n + 2 ≤ rest.length → n + 2 < 2 ^ 63 →
      ReadLine defaultBufSize (rest.drop (n + 2)) = (⟨e, false, false⟩, rest') →
      HasPrefix e "END".toList = true →
      ((Split ' ' header).length = 4 →
        (run (.Get key) c).1 = .ret (.item (rest.take n) f 0) none ∧
        (run (.Gets key) c).1 = .ret (.item (rest.take n) f 0) none) ∧
      ((Split ' ' header).length = 5 → ∀ cs : Nat,
        ParseUint ((Split ' ' header).getD 4 []) 64 = .ok cs →
        (run (.Get key) c).1 = .ret (.item (rest.take n) f 0) none ∧
        (run (.Gets key) c).1 = .ret (.item (rest.take n) f cs) none) ∧
      (6 ≤ (Split ' ' header).length →
        (run (.Get key) c).1 = .ret (.item (rest.take n) f 0) none ∧
        (run (.Gets key) c).1 = .ret (.item (rest.take n) f 0) none)) := by
  constructor
  · intro hlen
    have g1 := get_of_header c h "get".toList key header rest hr
    have g2 := get_of_header c h "gets".toList key header rest hr
    rw [getReply_value_error header _ _ _ hv (getValue_short header _ hlen)] at g1 g2
    have := fetch_fault key c _ _ _ g1 g2
    rw [this.1, this.2]
    exact ⟨rfl, rfl⟩
  · intro f n e rest' hf hn hsz hbig hend he
    refine ⟨?_, ?_, ?_⟩
    · intro hlen
      have := fetch_value key c header rest f n 0 e rest' h hr hv (by omega) hf hn
        (by rw [if_neg (by omega)]) hsz hbig hend he
      rw [this.1, this.2]
      exact ⟨rfl, rfl⟩
    · intro hlen cs hcs
      have := fetch_value key c header rest f n cs e rest' h hr hv (by omega) hf hn
        (by rw [if_pos hlen]; exact hcs) hsz hbig hend he
      rw [this.1, this.2]
      exact ⟨rfl, rfl⟩
    · intro hlen
      have := fetch_value key c header rest f n 0 e rest' h hr hv (by omega) hf hn
        (by rw [if_neg (by omega)]) hsz hbig hend he
      rw [this.1, this.2]
      exact ⟨rfl, rfl⟩

/-- The field count theorem applied to the 3-field header `VALUE k 5`, to the
4-field header `VALUE k 5 3`, to the 5-field header `VALUE k 5 3 77` and to
the 6-field header `VALUE k 5 3 77 8`. -/
theorem fetch_field_count_witness :
    ((run (.Get "k".toList) (newConnection ⟨"VALUE k 5\r\n".toList, [], false, none⟩)).1 =
        .ret (.item [] 0 0) (some ⟨.malformed "VALUE k 5".toList⟩) ∧
      (run (.Gets "k".toList) (newConnection ⟨"VALUE k 5\r\n".toList, [], false, none⟩)).1 =
        .ret (.item [] 0 0) (some ⟨.malformed "VALUE k 5".toList⟩)) ∧
    ((run (.Get "k".toList)
        (newConnection ⟨"VALUE k 5 3\r\nabc\r\nEND\r\n".toList, [], false, none⟩)).1 =
        .ret (.item ("abc\r\nEND\r\n".toList.take 3) 5 0) none ∧
      (run (.Gets "k".toList)
        (newConnection ⟨"VALUE k 5 3\r\nabc\r\nEND\r\n".toList, [], false, none⟩)).1 =
        .ret (.item ("abc\r\nEND\r\n".toList.take 3) 5 0) none) ∧
    ((run (.Get "k".toList)
        (newConnection ⟨"VALUE k 5 3 77\r\nabc\r\nEND\r\n".toList, [], false, none⟩)).1 =
        .ret (.item ("abc\r\nEND\r\n".toList.take 3) 5 0) none ∧
      (run (.Gets "k".toList)
        (newConnection ⟨"VALUE k 5 3 77\r\nabc\r\nEND\r\n".toList, [], false, none⟩)).1 =
        .ret (.item ("abc\r\nEND\r\n".toList.take 3) 5 77) none) ∧
    ((run (.Get "k".toList)
        (newConnection ⟨"VALUE k 5 3 77 8\r\nabc\r\nEND\r\n".toList, [], false, none⟩)).1 =
        .ret (.item ("abc\r\nEND\r\n".toList.take 3) 5 0) none ∧
      (run (.Gets "k".toList)
        (newConnection ⟨"VALUE k 5 3 77 8\r\nabc\r\nEND\r\n".toList, [], false, none⟩)).1 =
        .ret (.item ("abc\r\nEND\r\n".toList.take 3) 5 0) none) :=
  ⟨(fetch_field_count "k".toList (newConnection ⟨"VALUE k 5\r\n".toList, [], false, none⟩)
      "VALUE k 5".toList [] (by decide) (by decide) (by decide)).1 (by decide),
   ((fetch_field_count "k".toList
      (newConnection ⟨"VALUE k 5 3\r\nabc\r\nEND\r\n".toList, [], false, none⟩)
      "VALUE k 5 3".toList "abc\r\nEND\r\n".toList (by decide) (by decide) (by decide)).2
      5 3 "END".toList [] rfl rfl (by decide) (by decide) (by decide) (by decide)).1
      (by decide),
   ((fetch_field_count "k".toList
      (newConnection ⟨"VALUE k 5 3 77\r\nabc\r\nEND\r\n".toList, [], false, none⟩)
      "VALUE k 5 3 77".toList "abc\r\nEND\r\n".toList (by decide) (by decide) (by decide)).2
      5 3 "END".toList [] rfl rfl (by decide) (by decide) (by decide) (by decide)).2.1
      (by decide) 77 rfl,
   ((fetch_field_count "k".toList
      (newConnection ⟨"VALUE k 5 3 77 8\r\nabc\r\nEND\r\n".toList, [], false, none⟩)
      "VALUE k 5 3 77 8".toList "abc\r\nEND\r\n".toList (by decide) (by decide) (by decide)).2
      5 3 "END".toList [] rfl rfl (by decide) (by decide) (by decide) (by decide)).2.2
      (by decide)⟩

/-- C8 (counterexample): a `VALUE` header of 6 fields is not a fault: `Gets`
returns the value and flags with a nil error, and the cas token 0. -/
theorem Gets_accepts_six_fields :
    (run (.Gets "k".toList)
      (newConnection ⟨"VALUE k 5 3 77 8\r\nabc\r\nEND\r\n".toList, [], false, none⟩)).1 =
      .ret (.item "abc".toList 5 0) none := by
  decide

/-- C3 (the code at the failing inputs): a `VALUE` header whose byte length is
9223372036854775808, or 18446744073709551615 followed by one byte, makes `Get`
end in an unrecovered run-time panic, not in a returned error. -/
theorem Get_huge_length_crashes :
    (run (.Get "k".toList)
      (newConnection ⟨"VALUE k 0 9223372036854775808\r\n".toList, [], false, none⟩)).1 =
        .crash ∧
    (run (.Get "k".toList)
      (newConnection ⟨"VALUE k 0 18446744073709551615\r\nx".toList, [], false, none⟩)).1 =
        .crash := by
  decide

/-! ## The round trip -/

theorem takeWhile_length_ge (l r : Bytes) (p : Char → Bool) (h : ∀ x ∈ l, p x = true) :
    l.length ≤ ((l ++ r).takeWhile p).length := by
  induction l with
  | nil => simp
  | cons a l ih =>
    have ha : p a = true := h a (List.mem_cons_self a l)
    have := ih (fun x hx => h x (List.mem_cons_of_mem a hx))
    simp only [List.cons_append, List.takeWhile_cons, ha, if_true, List.length_cons]
    omega

/-- A line that fills the buffer without a `\n` is returned as a prefix. -/
theorem ReadLine_full (size : Nat) (inp : Bytes)
    (h : size ≤ (inp.takeWhile (fun c => c != '\n')).length) :
    (ReadLine size inp).1.isPrefix = true ∧ (ReadLine size inp).1.err = false := by
  have hle : (inp.takeWhile (fun c => c != '\n')).length ≤ inp.length :=
    (List.takeWhile_sublist _).length_le
  unfold ReadLine
  simp only
  rw [if_neg (by omega), if_pos (by omega)]
  split <;> exact ⟨rfl, rfl⟩

theorem valueHeader_split (k : Bytes) (f n : Nat) (hk : ' ' ∉ k) :
    Split ' ' (valueHeader k f n) = ["VALUE".toList, k, AppendUint f, AppendUint n] := by
  have e : valueHeader k f n =
      "VALUE".toList ++ ' ' :: (k ++ ' ' :: (AppendUint f ++ ' ' :: AppendUint n)) := by
    simp [valueHeader]
  rw [e, Split_append_sep _ _ _ (by decide), Split_append_sep _ _ _ hk,
    Split_append_sep _ _ _ (AppendUint_no_space f), Split_of_not_mem _ _ (AppendUint_no_space n)]

theorem valueHeader_no_newline (k : Bytes) (f n : Nat) (hk : '\n' ∉ k) :
    '\n' ∉ valueHeader k f n := by
  have h1 := AppendUint_no_newline f
  have h2 := AppendUint_no_newline n
  have h0 : '\n' ∉ "VALUE ".toList := by decide
  have hs : '\n' ≠ ' ' := by decide
  intro hm
  simp only [valueHeader, List.mem_append, List.mem_singleton] at hm
  rcases hm with ((((hm | hm) | hm) | hm) | hm) | hm
  · exact h0 hm
  · exact hk hm
  · exact hs hm
  · exact h1 hm
  · exact hs hm
  · exact h2 hm

/-- A first line that fills the read buffer without a `\n` makes `Get` return
a fault. -/
theorem Get_full_buffer (key : Bytes) (c : Connection) (h : Healthy c)
    (hfull : defaultBufSize ≤ (c.nc.inp.takeWhile (fun x => x != '\n')).length) :
    (run (.Get key) c).1 = .ret (.item [] 0 0) (some ⟨.readline true false⟩) := by
  have hf := ReadLine_full defaultBufSize c.nc.inp hfull
  have g := get_request c h "get".toList key
  rw [readLineChecked_fail _ _ _ _ _ _ (Prod.mk.eta).symm (by rw [hf.1]; rfl)] at g
  rw [hf.1, hf.2] at g
  simp only [run, Get_error _ _ _ _ g]
  rfl

theorem valueHeader_length (k : Bytes) (f n : Nat) :
    (valueHeader k f n).length =
      k.length + (AppendUint f).length + (AppendUint n).length + 8 := by
  simp only [valueHeader, List.length_append, List.length_singleton]
  have : "VALUE ".toList.length = 6 := rfl
  omega

/-- The header line of an item whose key has at most 250 bytes fits the read
buffer together with its `\r\n`. -/
theorem valueHeader_fits (k : Bytes) (f n : Nat) (hk : k.length ≤ 250) :
    (valueHeader k f n).length + 2 ≤ defaultBufSize := by
  have h1 := AppendUint_length_le f
  have h2 := AppendUint_length_le n
  rw [valueHeader_length]
  have : defaultBufSize = 4096 := rfl
  omega

/-- C1: for every key `k` without space or line feed, every 16-bit flags `f`
and every value `v` of at most 1,000,000 arbitrary bytes, on working
connections: `Set(k, f, 0, v)` writes the store frame `set k f 0 len(v)`,
`\r\n`, `v`, `\r\n`, whose length field is the decimal numeral of `len(v)`;
and `Get(k)` reading the reply of a conforming server for that item returns
exactly `(v, f)` with a nil error, consuming the reply and leaving what
follows it, whenever the key has at most 250 bytes (the longest key of the
memcache protocol) and, more generally, whenever the header line
`VALUE k f len(v)` with its `\r\n` fits the 4096-byte read buffer. Beyond
that bound, which no item of a conforming server reaches, `Get` returns a
fault. -/
theorem round_trip (k : Bytes) (f : Nat) (v tail : Bytes) (c c' : Connection)
    (hk1 : ' ' ∉ k) (hk2 : '\n' ∉ k) (hf : f < 2 ^ 16) (hv : v.length ≤ 1000000)
    (h : Healthy c) (h' : Healthy c') (hin : c'.nc.inp = valueReply k f v ++ tail) :
    (run (.Set k f 0 v) c).2.nc.out =
        c.nc.out ++ c.buffered.buf ++ storeFrame "set".toList k f 0 v 0 ∧
      Numeral (AppendUint v.length) v.length ∧
      (k.length ≤ 250 ∨ (valueHeader k f v.length).length + 2 ≤ defaultBufSize →
        run (.Get k) c' =
          (.ret (.item v f 0) none, sent c' (fetchRequest "get".toList k) tail)) ∧
      (defaultBufSize < (valueHeader k f v.length).length + 2 →
        (run (.Get k) c').1 = .ret (.item [] 0 0) (some ⟨.readline true false⟩)) := by
  refine ⟨?_, AppendUint_numeral v.length (by norm_num; omega), ?_, ?_⟩
  · rw [run_store (.Set k f 0 v) "set".toList k f 0 v 0 rfl c,
      (handleError_out false (store "set".toList k f 0 v 0) c).1]
    exact (store_out c h "set".toList k f 0 v 0 hv).1
  · intro hfit0
    have hfit : (valueHeader k f v.length).length + 2 ≤ defaultBufSize := by
      rcases hfit0 with hk | hfit
      · exact valueHeader_fits k f v.length hk
      · exact hfit
    have hsplit := valueHeader_split k f v.length hk1
    have hrest : valueReply k f v ++ tail =
        valueHeader k f v.length ++ '\r' :: '\n' ::
          (v ++ '\r' :: '\n' :: ("END".toList ++ '\r' :: '\n' :: tail)) := by
      simp [valueReply]
    have hr : ReadLine defaultBufSize c'.nc.inp =
        (⟨valueHeader k f v.length, false, false⟩,
          v ++ '\r' :: '\n' :: ("END".toList ++ '\r' :: '\n' :: tail)) := by
      rw [hin, hrest]
      exact ReadLine_crlf _ _ _ (valueHeader_no_newline k f v.length hk2) (by omega)
    have hpre : HasPrefix (valueHeader k f v.length) "VALUE".toList = true := by
      have e : valueHeader k f v.length =
          "VALUE".toList ++ (' ' :: (k ++ [' '] ++ AppendUint f ++ [' '] ++ AppendUint v.length)) := by
        simp [valueHeader]
      rw [e]
      exact HasPrefix_append _ _
    have hdrop : List.drop (v.length + 2)
        (v ++ '\r' :: '\n' :: ("END".toList ++ '\r' :: '\n' :: tail)) =
        "END".toList ++ '\r' :: '\n' :: tail := by
      have e : v ++ '\r' :: '\n' :: ("END".toList ++ '\r' :: '\n' :: tail) =
          (v ++ ['\r', '\n']) ++ ("END".toList ++ '\r' :: '\n' :: tail) := by simp
      rw [e]
      exact List.drop_left' (by simp)
    have hend : ReadLine defaultBufSize (List.drop (v.length + 2)
        (v ++ '\r' :: '\n' :: ("END".toList ++ '\r' :: '\n' :: tail))) =
        (⟨"END".toList, false, false⟩, tail) := by
      rw [hdrop]
      exact ReadLine_crlf _ _ _ (by decide) (by decide)
    have a1 : 4 ≤ (Split ' ' (valueHeader k f v.length)).length := by rw [hsplit]; exact Nat.le_refl 4
    have a2 : ParseUint ((Split ' ' (valueHeader k f v.length)).getD 2 []) 16 = .ok f := by
      rw [hsplit]; exact ParseUint_AppendUint f 16 (by decide) hf
    have a3 : ParseUint ((Split ' ' (valueHeader k f v.length)).getD 3 []) 64 = .ok v.length := by
      rw [hsplit]; exact ParseUint_AppendUint v.length 64 (by decide) (by norm_num; omega)
    have a4 : if (Split ' ' (valueHeader k f v.length)).length = 5
        then ParseUint ((Split ' ' (valueHeader k f v.length)).getD 4 []) 64 = .ok 0
        else 0 = 0 := by
      rw [hsplit]; rfl
    have a5 : v.length + 2 ≤
        (v ++ '\r' :: '\n' :: ("END".toList ++ '\r' :: '\n' :: tail)).length := by
      simp
    have := fetch_value k c' (valueHeader k f v.length) _ f v.length 0 "END".toList tail h' hr
      hpre a1 a2 a3 a4 a5 (by norm_num; omega) hend (by decide)
    rw [this.1, List.take_left']
    rfl
  · intro hbig
    apply Get_full_buffer k c' h'
    rw [hin]
    have e : valueReply k f v ++ tail =
        (valueHeader k f v.length ++ ['\r']) ++
          ('\n' :: (v ++ '\r' :: '\n' :: ("END".toList ++ '\r' :: '\n' :: tail))) := by
      simp [valueReply]
    rw [e]
    refine le_trans ?_ (takeWhile_length_ge _ _ _ ?_)
    · rw [List.length_append, List.length_singleton]
      omega
    · intro x hx
      rw [List.mem_append, List.mem_singleton] at hx
      rcases hx with hx | hx
      · have hne : x ≠ '\n' := fun hxe => valueHeader_no_newline k f v.length hk2 (hxe ▸ hx)
        simpa using hne
      · subst hx; decide

/-- The round trip theorem applied to the key `Hello`, flags 65535 and value
`world`, as in the test of the client. -/
theorem round_trip_witness :
    (run (.Set "Hello".toList 65535 0 "world".toList)
        (newConnection ⟨"STORED\r\n".toList, [], false, none⟩)).2.nc.out =
      "set Hello 65535 0 5\r\nworld\r\n".toList ∧
    (run (.Get "Hello".toList)
        (newConnection ⟨"VALUE Hello 65535 5\r\nworld\r\nEND\r\n".toList, [], false, none⟩)).1 =
      .ret (.item "world".toList 65535 0) none :=
  have w := round_trip "Hello".toList 65535 "world".toList []
    (newConnection ⟨"STORED\r\n".toList, [], false, none⟩)
    (newConnection ⟨"VALUE Hello 65535 5\r\nworld\r\nEND\r\n".toList, [], false, none⟩)
    (by decide) (by decide) (by decide) (by decide) (by decide) (by decide) (by decide)
  ⟨w.1, congrArg Prod.fst (w.2.2.1 (Or.inl (by decide)))⟩

/-- Beyond the read buffer: for a key of 4090 letters `a`, flags 0 and the
empty value, `Get` reading a reply of the layout of an item returns a fault:
the header line does not fit the read buffer and `ReadLine` reports a
prefix. -/
theorem Get_long_key_faults :
    (run (.Get (List.replicate 4090 'a'))
      (newConnection ⟨valueReply (List.replicate 4090 'a') 0 [], [], false, none⟩)).1 =
      .ret (.item [] 0 0) (some ⟨.readline true false⟩) := by
  apply Get_full_buffer _ _ ⟨rfl, rfl, rfl⟩
  show defaultBufSize ≤
    ((valueReply (List.replicate 4090 'a') 0 []).takeWhile (fun x => x != '\n')).length
  have e : valueReply (List.replicate 4090 'a') 0 [] =
      ("VALUE ".toList ++ List.replicate 4090 'a') ++
        ([' '] ++ (AppendUint 0 ++ ([' '] ++ (AppendUint 0 ++ (['\r', '\n'] ++ ([] ++
          (['\r', '\n'] ++ "END\r\n".toList))))))) := by
    simp only [valueReply, valueHeader, List.length_nil, List.append_assoc]
  rw [e]
  refine le_trans ?_ (takeWhile_length_ge _ _ _ ?_)
  · rw [List.length_append, List.length_replicate]
    decide
  · intro x hx
    rw [List.mem_append, List.mem_replicate] at hx
    rcases hx with hx | ⟨_, hx⟩
    · revert x; decide
    · subst hx; decide

/-! ## The version reply -/

theorem Split_head (sep : Char) (s : Bytes) :
    (Split sep s)[0]? = some (s.takeWhile (fun x => x != sep)) := by
  induction s with
  | nil => rfl
  | cons c cs ih =>
    unfold Split
    by_cases hc : c = sep
    · subst hc; simp
    · rw [if_neg hc]
      have hb : (c != sep) = true := by simp [bne_iff_ne, hc]
      cases hs : Split sep cs with
      | nil => exact absurd hs (Split_ne_nil sep cs)
      | cons a l =>
        rw [hs] at ih
        simp only [List.getElem?_cons_zero, Option.some.injEq] at ih
        simp [List.takeWhile_cons, hb, ih]

theorem HasPrefix_eq (s p : Bytes) (h : HasPrefix s p = true) : s = p ++ s.drop p.length := by
  unfold HasPrefix at h
  rw [List.isPrefixOf_iff_prefix] at h
  obtain ⟨t, ht⟩ := h
  subst ht
  simp

/-- The second space-separated field of a line that begins with `VERSION `:
what follows the prefix, up to the next space. -/
theorem version_field (r : Bytes) (h : HasPrefix r "VERSION ".toList = true) :
    (Split ' ' r)[1]? = some ((r.drop 8).takeWhile (fun x => x != ' ')) := by
  have e := HasPrefix_eq r _ h
  have e' : r = "VERSION".toList ++ ' ' :: r.drop 8 := by
    conv_lhs => rw [e]
    rfl
  conv_lhs => rw [e']
  rw [Split_append_sep _ _ _ (by decide)]
  simp only [List.getElem?_cons_succ]
  exact Split_head ' ' _

theorem versionReply_eq (r : Bytes) (s : Connection) :
    versionReply r s =
      if Contains r "ERROR".toList then (.error (.memcache ⟨.serverError⟩), s)
      else if HasPrefix r "VERSION ".toList then
        (.ok ((r.drop 8).takeWhile (fun x => x != ' ')), s)
      else (.error (.memcache ⟨.reply r⟩), s) := by
  unfold versionReply
  by_cases he : Contains r "ERROR".toList = true
  · rw [if_pos he, if_pos he]; rfl
  · rw [if_neg he, if_neg he]
    by_cases hp : HasPrefix r "VERSION ".toList = true
    · rw [if_pos hp, if_neg (by rw [hp]; decide), version_field r hp]
      rfl
    · rw [if_neg hp, if_pos (by simpa using hp)]
      rfl

/-- C7 (amended): for every reply line `r` received by `Version` on a working
connection: if `r` contains `ERROR` the call is a fault; otherwise if `r` does
not begin with `VERSION ` the call is a fault; otherwise the error is nil and
the returned string is what follows the 8-character prefix up to, and not
including, the next space (the second space-separated field of `r`), which is
the whole remainder of the line exactly when the remainder holds no space. -/
theorem version_reply (c : Connection) (r rest : Bytes) (h : Healthy c)
    (hr : ReadLine defaultBufSize c.nc.inp = (⟨r, false, false⟩, rest)) :
    (Contains r "ERROR".toList = true →
      (run .Version c).1 = .ret (.bytes []) (some ⟨.serverError⟩)) ∧
    (Contains r "ERROR".toList = false → HasPrefix r "VERSION ".toList = false →
      (run .Version c).1 = .ret (.bytes []) (some ⟨.reply r⟩)) ∧
    (Contains r "ERROR".toList = false → HasPrefix r "VERSION ".toList = true →
      (run .Version c).1 = .ret (.bytes ((r.drop 8).takeWhile (fun x => x != ' '))) none ∧
      (' ' ∉ r.drop 8 → (run .Version c).1 = .ret (.bytes (r.drop 8)) none)) := by
  have hb : versionBody c = versionReply r (sent c "version\r\n".toList rest) := by
    unfold versionBody
    have := request_reply c h ["version\r\n".toList] versionReply
    rw [readLineChecked_ok c _ _ r rest _ hr] at this
    rw [this]
    simp [concat]
  have hrun : (run .Version c).1 = (handleError [] versionBody c).1.map .bytes := rfl
  rw [hrun]
  unfold handleError
  rw [hb, versionReply_eq]
  refine ⟨?_, ?_, ?_⟩
  · intro he
    rw [if_pos he]; rfl
  · intro he hp
    rw [if_neg (by rw [he]; decide), if_neg (by rw [hp]; decide)]; rfl
  · intro he hp
    rw [if_neg (by rw [he]; decide), if_pos hp]
    refine ⟨rfl, ?_⟩
    intro hsp
    have : (r.drop 8).takeWhile (fun x => x != ' ') = r.drop 8 := by
      rw [List.takeWhile_eq_self_iff]
      intro x hx
      simp only [bne_iff_ne, ne_eq]
      intro hxe
      exact hsp (hxe ▸ hx)
    rw [this]; rfl

/-- The version reply theorem applied to the reply `VERSION 1.4.15`. -/
theorem version_reply_witness :
    (run .Version (newConnection ⟨"VERSION 1.4.15\r\n".toList, [], false, none⟩)).1 =
      .ret (.bytes "1.4.15".toList) none :=
  ((version_reply (newConnection ⟨"VERSION 1.4.15\r\n".toList, [], false, none⟩)
    "VERSION 1.4.15".toList [] (by decide) (by decide)).2.2 (by decide) (by decide)).2
    (by decide)

/-- C7 (counterexample): for the reply line `VERSION 1.4.15 beta`, `Version`
returns `1.4.15` and not the whole remainder `1.4.15 beta`. -/
theorem Version_drops_after_space :
    (run .Version (newConnection ⟨"VERSION 1.4.15 beta\r\n".toList, [], false, none⟩)).1 =
      .ret (.bytes "1.4.15".toList) none ∧
    (run .Version (newConnection ⟨"VERSION 1.4.15 beta\r\n".toList, [], false, none⟩)).1 ≠
      .ret (.bytes "1.4.15 beta".toList) none := by
  decide

/-! ## The sticky flag and `Stats` -/

/-- C4 (the code at the failing input): `Stats` answered by a line that holds
`ERROR` returns a non-nil error, and `HasError` is false afterwards. -/
theorem Stats_error_line_leaves_flag :
    (run (.Stats []) (newConnection ⟨"ERROR\r\n".toList, [], false, none⟩)).1 =
      .ret (.bytes []) (some ⟨.formatted "ERROR".toList⟩) ∧
    HasError (run (.Stats []) (newConnection ⟨"ERROR\r\n".toList, [], false, none⟩)).2 =
      false := by
  decide

/-! ## Operations on a closed transport -/

theorem Transport.Write_closed (t : Transport) (p : Bytes) (h : t.closed = true) :
    t.Write p = (0, true, t) := by
  simp [Transport.Write, h]

theorem Writer.Flush_closed (w : Writer) (t : Transport) (h : t.closed = true) :
    (w.Flush t).2.2 = t ∧
    ((w.Flush t).1 = true ∧ (w.Flush t).2.1.err = true ∨
      (w.Flush t).1 = false ∧ (w.Flush t).2.1 = w ∧ w.err = false ∧ w.buf = []) := by
  unfold Writer.Flush
  rw [Transport.Write_closed t _ h]
  by_cases he : w.err = true
  · simp [he]
  · by_cases hb : w.buf = []
    · simp [he, hb]
    · simp [he, hb]

theorem wsLoop_closed (k : Nat) (w : Writer) (t : Transport) (s : Bytes) (h : t.closed = true) :
    (wsLoop k w t s).2.1 = t ∧
    ((wsLoop k w t s).1.err = false →
      w.err = false ∧ (wsLoop k w t s).1.buf ++ (wsLoop k w t s).2.2 = w.buf ++ s) := by
  induction k generalizing w s with
  | zero => simp [wsLoop]
  | succ k ih =>
    unfold wsLoop
    split
    · rename_i hcond
      have hf := Writer.Flush_closed { w with buf := w.buf ++ s.take w.Available } t h
      rcases hfl : Writer.Flush { w with buf := w.buf ++ s.take w.Available } t with ⟨e, w', t'⟩
      rw [hfl] at hf
      simp only at hf ⊢
      obtain ⟨ht, hcase⟩ := hf
      subst ht
      have := ih w' (s.drop w.Available)
      refine ⟨this.1, ?_⟩
      intro herr
      rcases hcase with ⟨_, he'⟩ | ⟨_, hw, _, hb⟩
      · exfalso
        cases k with
        | zero => simp [wsLoop, he'] at herr
        | succ k => simp [wsLoop, he'] at herr
      · have h2 := (this.2 herr).2
        rw [h2, hw]
        exact ⟨hcond.2, by simp [List.append_assoc]⟩
    · simp

theorem wLoop_closed (k : Nat) (w : Writer) (t : Transport) (p : Bytes) (h : t.closed = true) :
    (wLoop k w t p).2.1 = t ∧
    ((wLoop k w t p).1.err = false →
      w.err = false ∧ (wLoop k w t p).1.buf ++ (wLoop k w t p).2.2 = w.buf ++ p) := by
  induction k generalizing w p with
  | zero => simp [wLoop]
  | succ k ih =>
    unfold wLoop
    split
    · rename_i hcond
      split
      · rw [Transport.Write_closed t _ h]
        simp only
        have := ih { w with err := true } (p.drop 0)
        refine ⟨this.1, ?_⟩
        intro herr
        exfalso
        cases k with
        | zero => simp [wLoop] at herr
        | succ k => simp [wLoop] at herr
      · have hf := Writer.Flush_closed { w with buf := w.buf ++ p.take w.Available } t h
        rcases hfl : Writer.Flush { w with buf := w.buf ++ p.take w.Available } t with ⟨e, w', t'⟩
        rw [hfl] at hf
        simp only at hf ⊢
        obtain ⟨ht, hcase⟩ := hf
        subst ht
        have := ih w' (p.drop w.Available)
        refine ⟨this.1, ?_⟩
        intro herr
        rcases hcase with ⟨_, he'⟩ | ⟨_, hw, _, hb⟩
        · exfalso
          cases k with
          | zero => simp [wLoop, he'] at herr
          | succ k => simp [wLoop, he'] at herr
        · have h2 := (this.2 herr).2
          rw [h2, hw]
          exact ⟨hcond.2, by simp [List.append_assoc]⟩
    · simp

/-- A `writestring` on a closed transport either stops or buffers the string. -/
theorem writestring_closed (s : Bytes) (c : Connection) (h : c.nc.closed = true) :
    Stopped c (writestring s c) ∨
      (c.buffered.err = false ∧ writestring s c =
        (.ok (), { c with buffered := { buf := c.buffered.buf ++ s, err := false } })) := by
  have hl := wsLoop_closed (s.length + 2) c.buffered c.nc s h
  unfold writestring Writer.WriteString
  rcases hw : wsLoop (s.length + 2) c.buffered c.nc s with ⟨w', t', s'⟩
  rw [hw] at hl
  simp only at hl ⊢
  obtain ⟨ht, hb⟩ := hl
  subst ht
  by_cases he : w'.err = true
  · left
    simp only [he, if_true]
    exact ⟨rfl, rfl, rfl, rfl⟩
  · right
    have he' : w'.err = false := by simpa using he
    simp only [he', Bool.false_eq_true, if_false]
    rw [(hb he').2]
    exact ⟨(hb he').1, rfl⟩

theorem write_closed (p : Bytes) (c : Connection) (h : c.nc.closed = true) :
    Stopped c (write p c) ∨
      (c.buffered.err = false ∧ write p c =
        (.ok (), { c with buffered := { buf := c.buffered.buf ++ p, err := false } })) := by
  have hl := wLoop_closed (p.length + 2) c.buffered c.nc p h
  unfold write Writer.Write
  rcases hw : wLoop (p.length + 2) c.buffered c.nc p with ⟨w', t', s'⟩
  rw [hw] at hl
  simp only at hl ⊢
  obtain ⟨ht, hb⟩ := hl
  subst ht
  by_cases he : w'.err = true
  · left
    simp only [he, if_true]
    exact ⟨rfl, rfl, rfl, rfl⟩
  · right
    have he' : w'.err = false := by simpa using he
    simp only [he', Bool.false_eq_true, if_false]
    rw [(hb he').2]
    exact ⟨(hb he').1, rfl⟩

theorem flush_closed : StopsIfPend flush := by
  intro c h hp
  have hf := Writer.Flush_closed c.buffered c.nc h
  unfold flush
  rcases hfl : c.buffered.Flush c.nc with ⟨e, w', t'⟩
  rw [hfl] at hf
  simp only at hf ⊢
  obtain ⟨ht, hcase⟩ := hf
  subst ht
  rcases hcase with ⟨he, _⟩ | ⟨_, _, he, hb⟩
  · simp only [he, if_true]
    exact ⟨rfl, rfl, rfl, rfl⟩
  · rcases hp with hp | hp
    · rw [he] at hp; cases hp
    · exact absurd hb hp

theorem Stopped_trans {α : Type} (c c' : Connection) (r : Except PanicValue α × Connection)
    (hs : Same c c') (h : Stopped c' r) : Stopped c r :=
  ⟨h.1, h.2.1.trans hs.1, h.2.2.1.trans hs.2.1, h.2.2.2.trans hs.2.2⟩

theorem Stopped_bind {α β : Type} (c : Connection) (m : M α) (f : α → M β)
    (h : Stopped c (m c)) : Stopped c ((m >>= f) c) := by
  rcases hm : m c with ⟨r, c'⟩
  rw [hm] at h
  obtain ⟨h1, h2⟩ := h
  simp only at h1
  subst h1
  rw [bind_error _ _ _ _ _ hm]
  exact ⟨rfl, h2⟩

theorem StopsIfPend_bind {α β : Type} (m : M α) (f : α → M β) (h : StopsIfPend m) :
    StopsIfPend (m >>= f) :=
  fun c hc hp => Stopped_bind c m f (h c hc hp)

theorem Stops_toIfPend {α : Type} (m : M α) (h : Stops m) : StopsIfPend m :=
  fun c hc _ => h c hc

/-- After a `writestring` the rest stops if it stops on pending bytes, when
bytes were pending before or the string is not empty. -/
theorem writestring_then {β : Type} (s : Bytes) (rest : Unit → M β)
    (h : StopsIfPend (rest ())) (c : Connection) (hc : c.nc.closed = true)
    (hp : Pend c ∨ s ≠ []) : Stopped c ((writestring s >>= rest) c) := by
  rcases writestring_closed s c hc with hs | ⟨he, hs⟩
  · exact Stopped_bind c _ _ hs
  · rw [bind_ok _ _ _ _ _ hs]
    refine Stopped_trans c _ _ ⟨rfl, rfl, rfl⟩ (h _ hc ?_)
    right
    simp only
    intro hnil
    have hn := List.append_eq_nil.1 hnil
    rcases hp with (hp | hp) | hp
    · rw [he] at hp; cases hp
    · exact hp hn.1
    · exact hp hn.2

theorem write_then {β : Type} (p : Bytes) (rest : Unit → M β)
    (h : StopsIfPend (rest ())) (c : Connection) (hc : c.nc.closed = true)
    (hp : Pend c ∨ p ≠ []) : Stopped c ((write p >>= rest) c) := by
  rcases write_closed p c hc with hs | ⟨he, hs⟩
  · exact Stopped_bind c _ _ hs
  · rw [bind_ok _ _ _ _ _ hs]
    refine Stopped_trans c _ _ ⟨rfl, rfl, rfl⟩ (h _ hc ?_)
    right
    simp only
    intro hnil
    have hn := List.append_eq_nil.1 hnil
    rcases hp with (hp | hp) | hp
    · rw [he] at hp; cases hp
    · exact hp hn.1
    · exact hp hn.2

theorem writestring_pend {β : Type} (s : Bytes) (rest : Unit → M β)
    (h : StopsIfPend (rest ())) : StopsIfPend (writestring s >>= rest) :=
  fun c hc hp => writestring_then s rest h c hc (Or.inl hp)

theorem write_pend {β : Type} (p : Bytes) (rest : Unit → M β)
    (h : StopsIfPend (rest ())) : StopsIfPend (write p >>= rest) :=
  fun c hc hp => write_then p rest h c hc (Or.inl hp)

theorem writestring_stops {β : Type} (s : Bytes) (rest : Unit → M β)
    (h : StopsIfPend (rest ())) (hs : s ≠ []) : Stops (writestring s >>= rest) :=
  fun c hc => writestring_then s rest h c hc (Or.inr hs)

theorem readline_pend {β : Type} (K : Bytes → M β) : StopsIfPend (readline >>= K) := by
  apply StopsIfPend_bind
  unfold readline
  exact StopsIfPend_bind _ _ flush_closed

theorem bind_assoc_M {α β γ : Type} (m : M α) (f : α → M β) (g : β → M γ) :
    ((m >>= f) >>= g) = (m >>= fun a => f a >>= g) := by
  simp only [bind_def, bind_assoc']

theorem pure_bind_M {α β : Type} (a : α) (f : α → M β) : ((pure a : M α) >>= f) = f a := by
  funext c
  rfl

theorem writestring_any {β : Type} (s : Bytes) (rest : Unit → M β) (h : Stops (rest ())) :
    Stops (writestring s >>= rest) := by
  intro c hc
  rcases writestring_closed s c hc with hs | ⟨_, hs⟩
  · exact Stopped_bind c _ _ hs
  · rw [bind_ok _ _ _ _ _ hs]
    exact Stopped_trans c _ _ ⟨rfl, rfl, rfl⟩ (h _ hc)

theorem writestrings_pend {β : Type} (strs : List Bytes) (rest : Unit → M β)
    (h : StopsIfPend (rest ())) : StopsIfPend (writestrings strs >>= rest) := by
  induction strs with
  | nil =>
    unfold writestrings
    rw [pure_bind_M]
    exact h
  | cons s strs ih =>
    unfold writestrings
    rw [bind_assoc_M]
    exact writestring_pend s _ ih

theorem writestrings_stops {β : Type} (strs : List Bytes) (rest : Unit → M β)
    (h : StopsIfPend (rest ())) (hne : ∃ s ∈ strs, s ≠ []) :
    Stops (writestrings strs >>= rest) := by
  induction strs with
  | nil => obtain ⟨s, hs, _⟩ := hne; cases hs
  | cons s strs ih =>
    unfold writestrings
    rw [bind_assoc_M]
    by_cases hs : s = []
    · apply writestring_any
      apply ih
      obtain ⟨x, hx, hxne⟩ := hne
      rcases List.mem_cons.1 hx with hx | hx
      · exact absurd (hx ▸ hs) hxne
      · exact ⟨x, hx, hxne⟩
    · exact writestring_stops s _ (writestrings_pend strs rest h) hs

theorem get_stops (command key : Bytes) : Stops (get command key) := by
  unfold get
  apply writestrings_stops
  · exact readline_pend _
  · exact ⟨" ".toList, by simp, by decide⟩

theorem store_stops (command key : Bytes) (f t : Nat) (v : Bytes) (cas : Nat)
    (hv : v.length ≤ 1000000) : Stops (store command key f t v cas) := by
  unfold store
  rw [if_neg (by omega)]
  apply writestrings_stops _ _ _ ⟨" ".toList, by simp, by decide⟩
  apply write_pend
  apply writestring_pend
  apply write_pend
  apply writestring_pend
  apply write_pend
  by_cases hc : cas = 0
  · simp only [hc, ne_eq, not_true_eq_false, if_false]
    rw [pure_bind_M]
    apply writestring_pend
    apply write_pend
    apply writestring_pend
    exact readline_pend _
  · simp only [hc, ne_eq, not_false_eq_true, if_true]
    apply writestring_pend
    apply write_pend
    apply writestring_pend
    apply write_pend
    apply writestring_pend
    exact readline_pend _

theorem versionBody_stops : Stops versionBody := by
  unfold versionBody
  apply writestrings_stops
  · exact readline_pend _
  · exact ⟨"version\r\n".toList, by simp, by decide⟩

theorem deleteBody_stops (key : Bytes) : Stops (deleteBody key) := by
  unfold deleteBody
  apply writestrings_stops
  · exact readline_pend _
  · exact ⟨"delete ".toList, by simp, by decide⟩

theorem statsRequest_stops (argument : Bytes) : Stops (statsRequest argument) := by
  unfold statsRequest
  by_cases ha : argument = []
  · simp only [ha, if_true]
    apply writestrings_stops
    · exact flush_closed
    · exact ⟨"stats\r\n".toList, by simp, by decide⟩
  · simp only [ha, if_false]
    apply writestrings_stops
    · exact flush_closed
    · exact ⟨"stats ".toList, by simp, by decide⟩

theorem handleError_stopped {α : Type} (zero : α) (body : M α) (c : Connection)
    (h : Stopped c (body c)) :
    (handleError zero body c).1 = .ret zero (some ⟨.transport⟩) ∧
      (handleError zero body c).2.nc = c.nc ∧
      (handleError zero body c).2.has_error = true := by
  unfold handleError
  rcases hb : body c with ⟨r, c'⟩
  rw [hb] at h
  obtain ⟨h1, h2, _, _⟩ := h
  simp only at h1 h2
  subst h1
  exact ⟨rfl, h2, rfl⟩

theorem store_closed (verb key : Bytes) (f t : Nat) (v : Bytes) (cas : Nat) (c : Connection)
    (h : c.nc.closed = true) (hv : v.length ≤ 1000000) :
    (handleError false (store verb key f t v cas) c).1 = .ret false (some ⟨.transport⟩) ∧
      (handleError false (store verb key f t v cas) c).2.nc = c.nc ∧
      (handleError false (store verb key f t v cas) c).2.has_error = true :=
  handleError_stopped false _ c (store_stops verb key f t v cas hv c h)

/-- What every operation does on a connection whose transport is closed. -/
theorem run_closed (c : Connection) (op : Op) (h : c.nc.closed = true) :
    (op.oversized = true → run op c = (.ret (.bool false) none, c)) ∧
    (op.oversized = false →
      (run op c).1 = .ret op.zero (some ⟨.transport⟩) ∧ (run op c).2.nc = c.nc ∧
      HasError (run op c).2 = true) := by
  have hstore : ∀ (verb key : Bytes) (f t : Nat) (v : Bytes) (cas : Nat),
      op.storeArgs = some (verb, key, f, t, v, cas) → op.zero = .bool false →
      (op.oversized = true → run op c = (.ret (.bool false) none, c)) ∧
      (op.oversized = false →
        (run op c).1 = .ret op.zero (some ⟨.transport⟩) ∧ (run op c).2.nc = c.nc ∧
        HasError (run op c).2 = true) := by
    intro verb key f t v cas hop hz
    rw [run_store op verb key f t v cas hop c, hz]
    have hov : op.oversized = decide (v.length > 1000000) := by
      unfold Op.oversized; rw [hop]
    rw [hov]
    constructor
    · intro hb
      rw [store_oversize verb key f t v cas (by simpa using hb) c]
      rfl
    · intro hb
      have := store_closed verb key f t v cas c h (by simpa using hb)
      rw [this.1, this.2.1]
      exact ⟨rfl, rfl, this.2.2⟩
  cases op with
  | Get key =>
    refine ⟨fun hb => (by cases hb), fun _ => ?_⟩
    have := handleError_stopped ([], 0)
      (do let r ← get "get".toList key; pure (r.1, r.2.1)) c
      (Stopped_bind c _ _ (get_stops _ key c h))
    show ((Get key c).1.map _ = _) ∧ (Get key c).2.nc = c.nc ∧ (Get key c).2.has_error = true
    unfold Get
    rw [this.1]
    exact ⟨rfl, this.2.1, this.2.2⟩
  | Gets key =>
    refine ⟨fun hb => (by cases hb), fun _ => ?_⟩
    have := handleError_stopped ([], 0, 0) (get "gets".toList key) c (get_stops _ key c h)
    show ((Gets key c).1.map _ = _) ∧ (Gets key c).2.nc = c.nc ∧ (Gets key c).2.has_error = true
    unfold Gets
    rw [this.1]
    exact ⟨rfl, this.2.1, this.2.2⟩
  | Set key f t v => exact hstore _ key f t v 0 rfl rfl
  | Add key f t v => exact hstore _ key f t v 0 rfl rfl
  | Replace key f t v => exact hstore _ key f t v 0 rfl rfl
  | Append key f t v => exact hstore _ key f t v 0 rfl rfl
  | Prepend key f t v => exact hstore _ key f t v 0 rfl rfl
  | Cas key f t v cas => exact hstore _ key f t v cas rfl rfl
  | Delete key =>
    refine ⟨fun hb => (by cases hb), fun _ => ?_⟩
    have := handleError_stopped false (deleteBody key) c (deleteBody_stops key c h)
    show ((Delete key c).1.map _ = _) ∧ (Delete key c).2.nc = c.nc ∧
      (Delete key c).2.has_error = true
    unfold Delete
    rw [this.1]
    exact ⟨rfl, this.2.1, this.2.2⟩
  | Stats argument =>
    refine ⟨fun hb => (by cases hb), fun _ => ?_⟩
    have hs := statsRequest_stops argument c h
    show ((Stats argument c).1.map _ = _) ∧ (Stats argument c).2.nc = c.nc ∧
      (Stats argument c).2.has_error = true
    unfold Stats
    rcases hq : statsRequest argument c with ⟨r, c'⟩
    rw [hq] at hs
    obtain ⟨h1, h2, _, _⟩ := hs
    simp only at h1 h2
    subst h1
    exact ⟨rfl, h2, rfl⟩
  | Version =>
    refine ⟨fun hb => (by cases hb), fun _ => ?_⟩
    have := handleError_stopped [] versionBody c (versionBody_stops c h)
    show ((Version c).1.map _ = _) ∧ (Version c).2.nc = c.nc ∧ (Version c).2.has_error = true
    unfold Version
    rw [this.1]
    exact ⟨rfl, this.2.1, this.2.2⟩

/-- C5 (amended): after `Close()` has been called on a connection, every
further operation other than a store whose value exceeds 1,000,000 bytes fails:
it returns zero results with the error of the transport, raised when the
request it has buffered is flushed to the closed transport (the client makes
no test of its own for a closed connection), it sets the sticky flag, it leaves
the transport as it was (no byte accepted, none consumed), and it does not
crash; a store whose value exceeds 1,000,000 bytes returns stored=false with a
nil error and changes nothing. -/
theorem after_close (c : Connection) (op : Op) (hc : IsClosed c = false) :
    (op.oversized = true →
      run op (Close c).2 = (.ret (.bool false) none, (Close c).2)) ∧
    (op.oversized = false →
      (run op (Close c).2).1 = .ret op.zero (some ⟨.transport⟩) ∧
      (run op (Close c).2).2.nc = (Close c).2.nc ∧
      HasError (run op (Close c).2).2 = true) := by
  apply run_closed
  unfold IsClosed at hc
  unfold Close
  rw [hc]
  rfl

/-- The theorem on closed connections applied to `Get("k")` after `Close` on
a fresh connection. -/
theorem after_close_witness :
    (run (.Get "k".toList) (Close (newConnection ⟨"END\r\n".toList, [], false, none⟩)).2).1 =
        .ret (.item [] 0 0) (some ⟨.transport⟩) ∧
      (run (.Get "k".toList)
        (Close (newConnection ⟨"END\r\n".toList, [], false, none⟩)).2).2.nc =
        (Close (newConnection ⟨"END\r\n".toList, [], false, none⟩)).2.nc ∧
      HasError (run (.Get "k".toList)
        (Close (newConnection ⟨"END\r\n".toList, [], false, none⟩)).2).2 = true :=
  (after_close (newConnection ⟨"END\r\n".toList, [], false, none⟩) (.Get "k".toList)
    (by decide)).2 (by decide)

/-- C5 (counterexample): after `Close`, a `Set` with a value of 1,000,001
bytes does not fail (stored=false, nil error), and `Get` does hand its request
to the writer, whose flush to the closed transport fails: the request stays
in the buffer and the writer holds the write error. -/
theorem closed_connection_not_tested :
    run (.Set "k".toList 0 0 (List.replicate 1000001 'x'))
        (Close (newConnection ⟨"END\r\n".toList, [], false, none⟩)).2 =
      (.ret (.bool false) none, (Close (newConnection ⟨"END\r\n".toList, [], false, none⟩)).2) ∧
    (run (.Get "k".toList)
        (Close (newConnection ⟨"END\r\n".toList, [], false, none⟩)).2).2.buffered =
      { buf := "get k\r\n".toList, err := true } := by
  constructor
  · rw [run_store (.Set "k".toList 0 0 (List.replicate 1000001 'x')) "set".toList "k".toList 0 0
        (List.replicate 1000001 'x') 0 rfl,
      store_oversize _ _ _ _ _ _ (by rw [List.length_replicate]; omega)]
    rfl
  · decide

/-! ## The bounds of the loops are never reached -/

theorem Writer.Flush_nonempty (w : Writer) (t : Transport) (he : w.err = false)
    (hb : w.buf ≠ []) : (w.Flush t).2.1.err = true ∨ (w.Flush t).2.1.buf = [] := by
  unfold Writer.Flush
  simp only [he, Bool.false_eq_true, if_false, hb]
  rcases t.Write w.buf with ⟨n, e, t'⟩
  simp only
  split
  · left; rfl
  · right; rfl

/-- The loop of `WriteString` ends because its condition fails, not because
the counter of the model runs out. -/
theorem wsLoop_exit (k : Nat) (w : Writer) (t : Transport) (s : Bytes)
    (h : w.err = true ∨ s.length + 2 ≤ k ∨ (w.buf = [] ∧ s.length + 1 ≤ k)) :
    ¬ ((wsLoop k w t s).2.2.length > (wsLoop k w t s).1.Available ∧
      (wsLoop k w t s).1.err = false) := by
  induction k generalizing w t s with
  | zero =>
    rcases h with h | h | h
    · simp [wsLoop, h]
    · omega
    · omega
  | succ k ih =>
    unfold wsLoop
    split
    · rename_i hcond
      have hne : w.buf ++ s.take w.Available ≠ [] := by
        intro hnil
        have hn := List.append_eq_nil.1 hnil
        have ha : w.Available = defaultBufSize := by simp [Writer.Available, hn.1]
        have hl : (s.take w.Available).length = 0 := by rw [hn.2]; rfl
        rw [List.length_take, ha] at hl
        have : defaultBufSize = 4096 := rfl
        omega
      have hf := Writer.Flush_nonempty { w with buf := w.buf ++ s.take w.Available } t
        hcond.2 hne
      rcases hfl : Writer.Flush { w with buf := w.buf ++ s.take w.Available } t with ⟨e, w', t'⟩
      rw [hfl] at hf
      simp only at hf ⊢
      apply ih
      rcases hf with hf | hf
      · exact Or.inl hf
      · right; right
        refine ⟨hf, ?_⟩
        rw [List.length_drop]
        rcases h with h | h | h
        · rw [hcond.2] at h; cases h
        · omega
        · have ha : w.Available = defaultBufSize := by simp [Writer.Available, h.1]
          have : defaultBufSize = 4096 := rfl
          omega
    · rename_i hcond
      exact hcond

/-- The loop of `Write` ends because its condition fails, not because the
counter of the model runs out. -/
theorem wLoop_exit (k : Nat) (w : Writer) (t : Transport) (p : Bytes)
    (h : w.err = true ∨ p.length + 2 ≤ k ∨ (w.buf = [] ∧ p.length + 1 ≤ k)) :
    ¬ ((wLoop k w t p).2.2.length > (wLoop k w t p).1.Available ∧
      (wLoop k w t p).1.err = false) := by
  induction k generalizing w t p with
  | zero =>
    rcases h with h | h | h
    · simp [wLoop, h]
    · omega
    · omega
  | succ k ih =>
    unfold wLoop
    split
    · rename_i hcond
      split
      · rename_i hb
        rcases hw : t.Write p with ⟨n, e, t'⟩
        simp only
        apply ih
        cases e with
        | true => exact Or.inl rfl
        | false =>
          right; right
          refine ⟨hb, ?_⟩
          have hn : n = p.length := by
            unfold Transport.Write at hw
            split at hw
            · simp at hw
            · split at hw
              · simp at hw; exact hw.1.symm
              · split at hw
                · simp at hw; exact hw.1.symm
                · simp at hw
          rw [List.length_drop, hn]
          have hpos := hcond.1
          rcases h with h | h | h
          · rw [hcond.2] at h; cases h
          · omega
          · omega
      · rename_i hb
        have hne : w.buf ++ p.take w.Available ≠ [] := by
          intro hnil
          exact hb (List.append_eq_nil.1 hnil).1
        have hf := Writer.Flush_nonempty { w with buf := w.buf ++ p.take w.Available } t
          hcond.2 hne
        rcases hfl : Writer.Flush { w with buf := w.buf ++ p.take w.Available } t
          with ⟨e, w', t'⟩
        rw [hfl] at hf
        simp only at hf ⊢
        apply ih
        rcases hf with hf | hf
        · exact Or.inl hf
        · right; right
          refine ⟨hf, ?_⟩
          rw [List.length_drop]
          rcases h with h | h | h
          · rw [hcond.2] at h; cases h
          · omega
          · exact absurd h.1 hb
    · rename_i hcond
      exact hcond

/-- The counter given to the loop of `WriteString` is enough. -/
theorem WriteString_loop_ends (w : Writer) (t : Transport) (s : Bytes) :
    ¬ ((wsLoop (s.length + 2) w t s).2.2.length > (wsLoop (s.length + 2) w t s).1.Available ∧
      (wsLoop (s.length + 2) w t s).1.err = false) :=
  wsLoop_exit _ w t s (Or.inr (Or.inl (Nat.le_refl _)))

/-- The counter given to the loop of `Write` is enough. -/
theorem Write_loop_ends (w : Writer) (t : Transport) (p : Bytes) :
    ¬ ((wLoop (p.length + 2) w t p).2.2.length > (wLoop (p.length + 2) w t p).1.Available ∧
      (wLoop (p.length + 2) w t p).1.err = false) :=
  wLoop_exit _ w t p (Or.inr (Or.inl (Nat.le_refl _)))

theorem Transport.Write_inp (t : Transport) (p : Bytes) : (t.Write p).2.2.inp = t.inp := by
  unfold Transport.Write
  split
  · rfl
  · split
    · rfl
    · split <;> rfl

theorem Writer.Flush_inp (w : Writer) (t : Transport) : (w.Flush t).2.2.inp = t.inp := by
  unfold Writer.Flush
  split
  · rfl
  · split
    · rfl
    · have := Transport.Write_inp t w.buf
      rcases hw : t.Write w.buf with ⟨n, e, t'⟩
      rw [hw] at this
      simp only at this ⊢
      split <;> exact this

/-- A line returned by `ReadLine` without prefix or error consumes input. -/
theorem ReadLine_consumes (size : Nat) (inp : Bytes)
    (h1 : (ReadLine size inp).1.isPrefix = false) (h2 : (ReadLine size inp).1.err = false) :
    (ReadLine size inp).2.length < inp.length := by
  unfold ReadLine at h1 h2 ⊢
  simp only at h1 h2 ⊢
  split
  · rename_i hc
    simp only [List.length_drop]
    omega
  · rename_i hc
    rw [if_neg hc] at h1 h2
    split
    · rename_i hs
      rw [if_pos hs] at h1
      split at h1 <;> cases h1
    · rename_i hs
      rw [if_neg hs] at h2
      split
      · rename_i hn
        rw [if_pos hn] at h2
        cases h2
      · rename_i hn
        simp only [List.length_nil]
        exact List.length_pos.2 hn

theorem readline_consumes (c c' : Connection) (l : Bytes) (h : readline c = (.ok l, c')) :
    c'.nc.inp.length < c.nc.inp.length := by
  unfold readline at h
  rw [bind_def] at h
  simp only [M.bind] at h
  have hfi := Writer.Flush_inp c.buffered c.nc
  unfold flush at h
  rcases hfl : c.buffered.Flush c.nc with ⟨e, w, t⟩
  rw [hfl] at h hfi
  simp only at h hfi
  cases e with
  | true => simp at h
  | false =>
    simp only [Bool.false_eq_true, if_false] at h
    unfold readLineChecked at h
    simp only at h
    have hc := ReadLine_consumes defaultBufSize t.inp
    rcases hrl : ReadLine defaultBufSize t.inp with ⟨ln, rest⟩
    rw [hrl] at h hc
    simp only at h hc
    by_cases hpe : (ln.isPrefix || ln.err) = true
    · rw [if_pos hpe] at h
      cases h
    · rw [if_neg hpe] at h
      simp only [Bool.or_eq_true, not_or, Bool.not_eq_true] at hpe
      have := hc hpe.1 hpe.2
      simp only [Prod.mk.injEq, Except.ok.injEq] at h
      rw [← h.2]
      simp only
      have hlen := congrArg List.length hfi
      omega

theorem statsLoop_bound (k : Nat) (result : Bytes) (c : Connection)
    (h : c.nc.inp.length < k) : (statsLoop k result c).1 ≠ .bound := by
  induction k generalizing result c with
  | zero => omega
  | succ k ih =>
    unfold statsLoop
    rcases hr : readline c with ⟨r, c'⟩
    cases r with
    | error p => simp
    | ok l =>
      simp only
      have := readline_consumes c c' l hr
      split
      · simp
      · split
        · simp
        · exact ih _ c' (by omega)

/-- `Stats` never reaches the bound of the model on its loop: every call
returns or ends in a panic. -/
theorem Stats_no_hang (argument : Bytes) (c : Connection) :
    (Stats argument c).1 ≠ .hang := by
  unfold Stats
  rcases statsRequest argument c with ⟨r, c'⟩
  cases r with
  | error p => cases p <;> simp [recovered]
  | ok u =>
    simp only
    have := statsLoop_bound (c'.nc.inp.length + 1) [] c' (by omega)
    rcases hs : statsLoop (c'.nc.inp.length + 1) [] c' with ⟨e, c''⟩
    rw [hs] at this
    cases e with
    | done result => simp
    | returned e => simp
    | panicked result p => cases p <;> simp [recovered]
    | bound => exact absurd rfl this

/-! ## Cache miss and delete -/

theorem HasPrefix_END_not_VALUE (s : Bytes) (h : HasPrefix s "END".toList = true) :
    HasPrefix s "VALUE".toList = false := by
  have e := HasPrefix_eq s _ h
  rw [e]
  rfl

/-- C11: for every key, on a working connection: when the first reply line to
get/gets begins with `END`, `Get` returns (empty value, flags 0, nil error)
and `Gets` returns (empty value, flags 0, cas 0, nil error), the input is left
right after that line (nothing more is read) and `HasError` is unchanged; when
the first reply line begins with neither `VALUE` nor `END` both calls are a
fault (malformed response). -/
theorem fetch_miss (key : Bytes) (c : Connection) (header rest : Bytes) (h : Healthy c)
    (hr : ReadLine defaultBufSize c.nc.inp = (⟨header, false, false⟩, rest)) :
    (HasPrefix header "END".toList = true →
      (run (.Get key) c).1 = .ret (.item [] 0 0) none ∧
      (run (.Gets key) c).1 = .ret (.item [] 0 0) none ∧
      (run (.Get key) c).2.nc.inp = rest ∧ (run (.Gets key) c).2.nc.inp = rest ∧
      HasError (run (.Get key) c).2 = HasError c ∧
      HasError (run (.Gets key) c).2 = HasError c) ∧
    (HasPrefix header "VALUE".toList = false → HasPrefix header "END".toList = false →
      (run (.Get key) c).1 = .ret (.item [] 0 0) (some ⟨.malformed header⟩) ∧
      (run (.Gets key) c).1 = .ret (.item [] 0 0) (some ⟨.malformed header⟩)) := by
  have g1 := get_of_header c h "get".toList key header rest hr
  have g2 := get_of_header c h "gets".toList key header rest hr
  constructor
  · intro he
    rw [getReply_other header _ (HasPrefix_END_not_VALUE header he), if_pos he] at g1 g2
    have := fetch_ok key c [] 0 0 _ _ g1 g2
    rw [this.1, this.2]
    exact ⟨rfl, rfl, rfl, rfl, rfl, rfl⟩
  · intro hv he
    rw [getReply_other header _ hv, if_neg (by rw [he]; decide)] at g1 g2
    have := fetch_fault key c _ _ _ g1 g2
    rw [this.1, this.2]
    exact ⟨rfl, rfl⟩

/-- The cache miss theorem applied to the reply `END`. -/
theorem fetch_miss_witness :
    (run (.Get "k".toList) (newConnection ⟨"END\r\nmore".toList, [], false, none⟩)).1 =
        .ret (.item [] 0 0) none ∧
      (run (.Gets "k".toList) (newConnection ⟨"END\r\nmore".toList, [], false, none⟩)).1 =
        .ret (.item [] 0 0) none ∧
      (run (.Get "k".toList) (newConnection ⟨"END\r\nmore".toList, [], false, none⟩)).2.nc.inp =
        "more".toList ∧
      (run (.Gets "k".toList) (newConnection ⟨"END\r\nmore".toList, [], false, none⟩)).2.nc.inp =
        "more".toList ∧
      HasError (run (.Get "k".toList)
        (newConnection ⟨"END\r\nmore".toList, [], false, none⟩)).2 =
        HasError (newConnection ⟨"END\r\nmore".toList, [], false, none⟩) ∧
      HasError (run (.Gets "k".toList)
        (newConnection ⟨"END\r\nmore".toList, [], false, none⟩)).2 =
        HasError (newConnection ⟨"END\r\nmore".toList, [], false, none⟩) :=
  (fetch_miss "k".toList (newConnection ⟨"END\r\nmore".toList, [], false, none⟩)
    "END".toList "more".toList (by decide) (by decide)).1 (by decide)

theorem deleteReply_eq (r : Bytes) (s : Connection) :
    deleteReply r s =
      (if Contains r "ERROR".toList then .error (.memcache ⟨.serverError⟩)
        else .ok (HasPrefix r "DELETED".toList), s) := by
  unfold deleteReply
  split <;> rfl

/-- On a working connection `Delete` writes its request, flushes it, and then
reads the status line. -/
theorem delete_request (c : Connection) (h : Healthy c) (key : Bytes) :
    deleteBody key c =
      (readLineChecked >>= deleteReply)
        (sent c ("delete ".toList ++ key ++ ['\r', '\n']) c.nc.inp) := by
  unfold deleteBody
  have := request_reply c h ["delete ".toList, key, "\r\n".toList] deleteReply
  have hc : concat ["delete ".toList, key, "\r\n".toList] =
      "delete ".toList ++ key ++ ['\r', '\n'] := by
    simp [concat]
  rw [hc] at this
  exact this

/-- C14: for every status line `r` read in reply to a delete command on a
working connection: if `r` contains `ERROR`, `Delete` returns a fault (and
deleted=false); otherwise it returns a nil error and deleted=true exactly when
`r` begins with `DELETED`. -/
theorem delete_reply (key : Bytes) (c : Connection) (r rest : Bytes) (h : Healthy c)
    (hr : ReadLine defaultBufSize c.nc.inp = (⟨r, false, false⟩, rest)) :
    (Contains r "ERROR".toList = true →
      (run (.Delete key) c).1 = .ret (.bool false) (some ⟨.serverError⟩)) ∧
    (Contains r "ERROR".toList = false →
      (run (.Delete key) c).1 = .ret (.bool (HasPrefix r "DELETED".toList)) none) := by
  have hrun : (run (.Delete key) c).1 = (handleError false (deleteBody key) c).1.map .bool := rfl
  rw [hrun]
  unfold handleError
  rw [delete_request c h key, readLineChecked_ok c _ _ r rest _ hr, deleteReply_eq]
  constructor
  · intro he; rw [if_pos he]; rfl
  · intro he; rw [if_neg (by rw [he]; decide)]; rfl

/-- The delete reply theorem applied to the replies `DELETED` and `NOT_FOUND`. -/
theorem delete_reply_witness :
    (run (.Delete "k".toList) (newConnection ⟨"DELETED\r\n".toList, [], false, none⟩)).1 =
        .ret (.bool true) none ∧
      (run (.Delete "k".toList) (newConnection ⟨"NOT_FOUND\r\n".toList, [], false, none⟩)).1 =
        .ret (.bool false) none :=
  ⟨(delete_reply "k".toList (newConnection ⟨"DELETED\r\n".toList, [], false, none⟩)
      "DELETED".toList [] (by decide) (by decide)).2 (by decide),
   (delete_reply "k".toList (newConnection ⟨"NOT_FOUND\r\n".toList, [], false, none⟩)
      "NOT_FOUND".toList [] (by decide) (by decide)).2 (by decide)⟩

/-! ## Connecting -/

theorem Contains_singleton (s : Bytes) (x : Char) : Contains s [x] = true ↔ x ∈ s := by
  induction s with
  | nil => simp [Contains, List.isPrefixOf]
  | cons c cs ih =>
    unfold Contains
    simp only [Bool.or_eq_true, ih, List.mem_cons]
    constructor
    · rintro (h | h)
      · left
        simp only [List.isPrefixOf, Bool.and_eq_true, beq_iff_eq] at h
        exact h.1
      · right; exact h
    · rintro (h | h)
      · left
        subst h
        simp [List.isPrefixOf]
      · right; exact h

/-- C17: `Connect` with an empty address list returns a nil connection and
its own error without any call of `net.Dial`; with a non-empty list it calls
`net.Dial` exactly once, for an address of the list (at an index below the
length of the list), on the network `unix` if and only if that address holds
`/` and on `tcp` otherwise; if that call fails, `Connect` returns its error
with no further call, and if it succeeds, `Connect` returns a fresh connection
over the transport opened. -/
theorem connect_once (dial : Bytes → Bytes → Option Transport) (draw : Nat)
    (addresses : List Bytes) :
    (addresses = [] → Connect dial draw addresses = (.failed .invalidAddresses, [])) ∧
    (addresses ≠ [] → ∃ idx address, idx < addresses.length ∧
      addresses[idx]? = some address ∧ address ∈ addresses ∧
      (Connect dial draw addresses).2 = [(networkOf address, address)] ∧
      (networkOf address = "unix".toList ↔ '/' ∈ address) ∧
      (dial (networkOf address) address = none →
        (Connect dial draw addresses).1 = .failed .dial) ∧
      (∀ nc, dial (networkOf address) address = some nc →
        (Connect dial draw addresses).1 = .connected (newConnection nc))) := by
  constructor
  · intro h
    subst h
    rfl
  · intro hne
    have hlen : addresses.length ≠ 0 := by
      intro h
      exact hne (List.length_eq_zero.1 h)
    have hidx : draw % addresses.length < addresses.length :=
      Nat.mod_lt _ (Nat.pos_of_ne_zero hlen)
    have hget : addresses[draw % addresses.length]? =
        some (addresses[draw % addresses.length]) := List.getElem?_eq_getElem hidx
    refine ⟨draw % addresses.length, addresses[draw % addresses.length], hidx, hget,
      List.getElem_mem _, ?_⟩
    have hnet : (if Contains (addresses[draw % addresses.length]) "/".toList = true
        then "unix".toList else "tcp".toList) = networkOf (addresses[draw % addresses.length]) := by
      unfold networkOf
      rw [show "/".toList = ['/'] from rfl]
      by_cases hm : '/' ∈ addresses[draw % addresses.length]
      · rw [if_pos hm, if_pos ((Contains_singleton _ '/').2 hm)]
      · rw [if_neg hm, if_neg (fun hc => hm ((Contains_singleton _ '/').1 hc))]
    have hun : networkOf (addresses[draw % addresses.length]) = "unix".toList ↔
        '/' ∈ addresses[draw % addresses.length] := by
      unfold networkOf
      by_cases hm : '/' ∈ addresses[draw % addresses.length]
      · simp [hm]
      · simp only [hm, if_false, iff_false]
        decide
    unfold Connect Intn
    simp only [hlen, if_false, hget, hnet]
    refine ⟨?_, hun, ?_, ?_⟩
    · cases dial (networkOf (addresses[draw % addresses.length]))
        (addresses[draw % addresses.length]) <;> rfl
    · intro hd
      rw [hd]
    · intro nc hd
      rw [hd]

/-- The theorem on `Connect` applied to the address list of the client's test,
the socket path `/tmp/memc.sock`, with a dial that fails. -/
theorem connect_once_witness :
    ∃ idx address, idx < ["/tmp/memc.sock".toList].length ∧
      ["/tmp/memc.sock".toList][idx]? = some address ∧ address ∈ ["/tmp/memc.sock".toList] ∧
      (Connect (fun _ _ => none) 7 ["/tmp/memc.sock".toList]).2 =
        [(networkOf address, address)] ∧
      (networkOf address = "unix".toList ↔ '/' ∈ address) ∧
      ((fun _ _ => none : Bytes → Bytes → Option Transport) (networkOf address) address = none →
        (Connect (fun _ _ => none) 7 ["/tmp/memc.sock".toList]).1 = .failed .dial) ∧
      (∀ nc, (fun _ _ => none : Bytes → Bytes → Option Transport) (networkOf address) address =
          some nc →
        (Connect (fun _ _ => none) 7 ["/tmp/memc.sock".toList]).1 =
          .connected (newConnection nc)) :=
  (connect_once (fun _ _ => none) 7 ["/tmp/memc.sock".toList]).2 (by decide)

/-! ## The framing bytes after the data block -/

/-- The result of `Get` and `Gets` on a working connection for a reply made
of a well-formed `VALUE` header, `\r\n`, a data block `d` of the announced
length, any two bytes `t`, and the line `END`. -/
theorem fetch_block (key : Bytes) (c : Connection) (header d t tail : Bytes) (f cs : Nat)
    (h : Healthy c) (hv : HasPrefix header "VALUE".toList = true) (hnl : '\n' ∉ header)
    (hfit : header.length + 2 ≤ defaultBufSize) (hlen : 4 ≤ (Split ' ' header).length)
    (hf : ParseUint ((Split ' ' header).getD 2 []) 16 = .ok f)
    (hn : ParseUint ((Split ' ' header).getD 3 []) 64 = .ok d.length)
    (hcas : if (Split ' ' header).length = 5
      then ParseUint ((Split ' ' header).getD 4 []) 64 = .ok cs else cs = 0)
    (hbig : d.length + 2 < 2 ^ 63) (ht : t.length = 2)
    (hin : c.nc.inp = header ++ ['\r', '\n'] ++ d ++ t ++ "END\r\n".toList ++ tail) :
    run (.Get key) c =
      (.ret (.item d f 0) none, sent c (fetchRequest "get".toList key) tail) ∧
    run (.Gets key) c =
      (.ret (.item d f cs) none, sent c (fetchRequest "gets".toList key) tail) := by
  have hrest : header ++ ['\r', '\n'] ++ d ++ t ++ "END\r\n".toList ++ tail =
      header ++ '\r' :: '\n' :: (d ++ t ++ ("END".toList ++ '\r' :: '\n' :: tail)) := by
    simp
  have hr : ReadLine defaultBufSize c.nc.inp =
      (⟨header, false, false⟩, d ++ t ++ ("END".toList ++ '\r' :: '\n' :: tail)) := by
    rw [hin, hrest]
    exact ReadLine_crlf _ _ _ hnl (by omega)
  have hdrop : List.drop (d.length + 2) (d ++ t ++ ("END".toList ++ '\r' :: '\n' :: tail)) =
      "END".toList ++ '\r' :: '\n' :: tail :=
    List.drop_left' (by simp [ht])
  have hend : ReadLine defaultBufSize
      (List.drop (d.length + 2) (d ++ t ++ ("END".toList ++ '\r' :: '\n' :: tail))) =
      (⟨"END".toList, false, false⟩, tail) := by
    rw [hdrop]
    exact ReadLine_crlf _ _ _ (by decide) (by decide)
  have hsz : d.length + 2 ≤ (d ++ t ++ ("END".toList ++ '\r' :: '\n' :: tail)).length := by
    simp [ht]
  have := fetch_value key c header _ f d.length cs "END".toList tail h hr hv hlen hf hn hcas
    hsz hbig hend (by decide)
  have htake : List.take d.length (d ++ t ++ ("END".toList ++ '\r' :: '\n' :: tail)) = d := by
    rw [List.append_assoc]
    exact List.take_left' rfl
  rw [htake] at this
  exact this

/-- C20: the two framing bytes after a value block are consumed and never
examined: for every well-formed `VALUE` header with byte length `n` (at least
four fields, numeric flags and byte length, a numeric fifth field when there
are exactly five, no line feed, within the read buffer), every data block `d`
of `n` bytes and every pair of bytes `t`, on working connections a reply of
header, `\r\n`, `d`, `t`, `END\r\n` makes `Get` and `Gets` return the value
`d` with the flags and cas token of the header and a nil error, which is what
they return for the reply in which `t` is `\r\n`. -/
theorem framing_bytes_ignored (key : Bytes) (c c' : Connection) (header d t tail : Bytes)
    (f cs : Nat) (h : Healthy c) (h' : Healthy c')
    (hv : HasPrefix header "VALUE".toList = true) (hnl : '\n' ∉ header)
    (hfit : header.length + 2 ≤ defaultBufSize) (hlen : 4 ≤ (Split ' ' header).length)
    (hf : ParseUint ((Split ' ' header).getD 2 []) 16 = .ok f)
    (hn : ParseUint ((Split ' ' header).getD 3 []) 64 = .ok d.length)
    (hcas : if (Split ' ' header).length = 5
      then ParseUint ((Split ' ' header).getD 4 []) 64 = .ok cs else cs = 0)
    (hbig : d.length + 2 < 2 ^ 63) (ht : t.length = 2)
    (hin : c.nc.inp = header ++ ['\r', '\n'] ++ d ++ t ++ "END\r\n".toList ++ tail)
    (hin' : c'.nc.inp = header ++ ['\r', '\n'] ++ d ++ ['\r', '\n'] ++ "END\r\n".toList ++ tail) :
    (run (.Get key) c).1 = .ret (.item d f 0) none ∧
    (run (.Gets key) c).1 = .ret (.item d f cs) none ∧
    (run (.Get key) c).1 = (run (.Get key) c').1 ∧
    (run (.Gets key) c).1 = (run (.Gets key) c').1 ∧
    (run (.Get key) c).2.nc.inp = tail ∧ (run (.Gets key) c).2.nc.inp = tail := by
  have a := fetch_block key c header d t tail f cs h hv hnl hfit hlen hf hn hcas hbig ht hin
  have b := fetch_block key c' header d ['\r', '\n'] tail f cs h' hv hnl hfit hlen hf hn hcas
    hbig rfl hin'
  rw [a.1, a.2, b.1, b.2]
  exact ⟨rfl, rfl, rfl, rfl, rfl, rfl⟩

/-- The framing theorem applied to the reply `VALUE k 5 3 77`, data `abc`,
followed by the two bytes `xy` in place of `\r\n`. -/
theorem framing_bytes_ignored_witness :
    (run (.Get "k".toList)
        (newConnection ⟨"VALUE k 5 3 77\r\nabcxyEND\r\n".toList, [], false, none⟩)).1 =
      .ret (.item "abc".toList 5 0) none ∧
    (run (.Gets "k".toList)
        (newConnection ⟨"VALUE k 5 3 77\r\nabcxyEND\r\n".toList, [], false, none⟩)).1 =
      .ret (.item "abc".toList 5 77) none :=
  have w := framing_bytes_ignored "k".toList
    (newConnection ⟨"VALUE k 5 3 77\r\nabcxyEND\r\n".toList, [], false, none⟩)
    (newConnection ⟨"VALUE k 5 3 77\r\nabc\r\nEND\r\n".toList, [], false, none⟩)
    "VALUE k 5 3 77".toList "abc".toList "xy".toList [] 5 77 (by decide) (by decide)
    (by decide) (by decide) (by decide) (by decide) rfl rfl rfl (by decide) (by decide)
    (by decide) (by decide)
  ⟨w.1, w.2.1⟩

/-! ## Results next to an error -/

/-- A body under `handleError` that returns an error returns the zero results
with it. -/
theorem handleError_fault_zero {α : Type} (zero : α) (body : M α) (c : Connection) (v : α)
    (e : MemcacheError) (h : (handleError zero body c).1 = .ret v (some e)) : v = zero := by
  unfold handleError at h
  rcases hb : body c with ⟨r, c'⟩
  rw [hb] at h
  cases r with
  | ok a => simp at h
  | error p =>
    cases p with
    | memcache e' =>
      simp only [recovered, Outcome.ret.injEq] at h
      exact h.1.symm
    | runtime => simp [recovered] at h

/-- For every operation other than `Stats`, a returned error comes with the
zero results of the operation. -/
theorem fault_results_zero (op : Op) (c : Connection) (v : Reply) (e : MemcacheError)
    (hop : ∀ a, op ≠ .Stats a) (h : (run op c).1 = .ret v (some e)) : v = op.zero := by
  have aux : ∀ {α : Type} (zero : α) (body : M α) (g : α → Reply),
      (handleError zero body c).1.map g = .ret v (some e) → v = g zero := by
    intro α zero body g hm
    cases ho : (handleError zero body c).1 with
    | ret a err =>
      rw [ho] at hm
      simp only [Outcome.map, Outcome.ret.injEq] at hm
      rw [hm.2] at ho
      rw [← hm.1, handleError_fault_zero zero body c a e ho]
    | crash => rw [ho] at hm; cases hm
    | hang => rw [ho] at hm; cases hm
  cases op with
  | Stats a => exact absurd rfl (hop a)
  | Get key => exact aux ([], 0) _ (fun r => .item r.1 r.2 0) h
  | Gets key => exact aux ([], 0, 0) _ (fun r => .item r.1 r.2.1 r.2.2) h
  | Set key f t v' => exact aux false _ .bool h
  | Add key f t v' => exact aux false _ .bool h
  | Replace key f t v' => exact aux false _ .bool h
  | Append key f t v' => exact aux false _ .bool h
  | Prepend key f t v' => exact aux false _ .bool h
  | Cas key f t v' cas => exact aux false _ .bool h
  | Delete key => exact aux false _ .bool h
  | Version => exact aux [] _ .bytes h

/-- C18 (the code at the failing input): `Stats` answered by the line
`STAT a 1` and then the end of the stream returns a non-nil error together
with the bytes accumulated so far, not with nil bytes. -/
theorem Stats_fault_keeps_lines :
    (run (.Stats []) (newConnection ⟨"STAT a 1\r\n".toList, [], false, none⟩)).1 =
      .ret (.bytes "STAT a 1\n".toList) (some ⟨.readline false true⟩) := by
  decide

/-! ## The sticky flag is only written by `handleError` -/

theorem Tame_keeps {β : Type} (g : Connection → β × Connection) (h : Tame g) (c : Connection) :
    (g c).2.has_error = c.has_error := by
  have := (h c).1 c.has_error
  have e : ({ c with has_error := c.has_error } : Connection) = c := rfl
  rw [e] at this
  have h2 := congrArg (fun r => r.2.has_error) this
  simp only at h2
  exact h2

theorem Tame_pure {α : Type} (a : α) : Tame (pure a : M α) :=
  fun _ => ⟨fun _ => rfl, rfl, rfl⟩

theorem Tame_raise {α : Type} (t : Text) : Tame (raise t : M α) :=
  fun _ => ⟨fun _ => rfl, rfl, rfl⟩

theorem Tame_raiseRuntime {α : Type} : Tame (raiseRuntime : M α) :=
  fun _ => ⟨fun _ => rfl, rfl, rfl⟩

theorem Tame_bind {α β : Type} (m : M α) (f : α → M β) (hm : Tame m)
    (hf : ∀ a, Tame (f a)) : Tame (m >>= f) := by
  intro c
  have h1 := hm c
  refine ⟨fun b => ?_, ?_, ?_⟩
  · rw [bind_def]
    simp only [M.bind]
    rw [h1.1 b]
    rcases hmc : m c with ⟨r, c'⟩
    cases r with
    | ok a => exact ((hf a) c').1 b
    | error p => rfl
  · rw [bind_def]
    simp only [M.bind]
    rcases hmc : m c with ⟨r, c'⟩
    rw [hmc] at h1
    cases r with
    | ok a => exact (((hf a) c').2.1).trans h1.2.1
    | error p => exact h1.2.1
  · rw [bind_def]
    simp only [M.bind]
    rcases hmc : m c with ⟨r, c'⟩
    rw [hmc] at h1
    cases r with
    | ok a => exact (((hf a) c').2.2).trans h1.2.2
    | error p => exact h1.2.2

theorem Transport.Write_closed_eq (t : Transport) (p : Bytes) :
    (t.Write p).2.2.closed = t.closed := by
  unfold Transport.Write
  split
  · rfl
  · split
    · rfl
    · split <;> rfl

theorem Writer.Flush_closed_eq (w : Writer) (t : Transport) :
    (w.Flush t).2.2.closed = t.closed := by
  unfold Writer.Flush
  split
  · rfl
  · split
    · rfl
    · have := Transport.Write_closed_eq t w.buf
      rcases hw : t.Write w.buf with ⟨n, e, t'⟩
      rw [hw] at this
      simp only at this ⊢
      split <;> exact this

theorem wsLoop_closed_eq (k : Nat) (w : Writer) (t : Transport) (s : Bytes) :
    (wsLoop k w t s).2.1.closed = t.closed := by
  induction k generalizing w t s with
  | zero => rfl
  | succ k ih =>
    unfold wsLoop
    split
    · have hf := Writer.Flush_closed_eq { w with buf := w.buf ++ s.take w.Available } t
      rcases hfl : Writer.Flush { w with buf := w.buf ++ s.take w.Available } t with ⟨e, w', t'⟩
      rw [hfl] at hf
      simp only at hf ⊢
      rw [ih, hf]
    · rfl

theorem wLoop_closed_eq (k : Nat) (w : Writer) (t : Transport) (p : Bytes) :
    (wLoop k w t p).2.1.closed = t.closed := by
  induction k generalizing w t p with
  | zero => rfl
  | succ k ih =>
    unfold wLoop
    split
    · split
      · have hf := Transport.Write_closed_eq t p
        rcases hw : t.Write p with ⟨n, e, t'⟩
        rw [hw] at hf
        simp only at hf ⊢
        rw [ih, hf]
      · have hf := Writer.Flush_closed_eq { w with buf := w.buf ++ p.take w.Available } t
        rcases hfl : Writer.Flush { w with buf := w.buf ++ p.take w.Available } t with ⟨e, w', t'⟩
        rw [hfl] at hf
        simp only at hf ⊢
        rw [ih, hf]
    · rfl

theorem Tame_writestring (s : Bytes) : Tame (writestring s) := by
  intro c
  have hc := wsLoop_closed_eq (s.length + 2) c.buffered c.nc s
  unfold writestring Writer.WriteString
  simp only
  rcases hw : wsLoop (s.length + 2) c.buffered c.nc s with ⟨w', t', s'⟩
  rw [hw] at hc
  simp only at hc ⊢
  refine ⟨fun b => ?_, ?_, ?_⟩
  · split <;> rfl
  · split <;> rfl
  · split <;> exact hc

theorem Tame_write (p : Bytes) : Tame (write p) := by
  intro c
  have hc := wLoop_closed_eq (p.length + 2) c.buffered c.nc p
  unfold write Writer.Write
  simp only
  rcases hw : wLoop (p.length + 2) c.buffered c.nc p with ⟨w', t', s'⟩
  rw [hw] at hc
  simp only at hc ⊢
  refine ⟨fun b => ?_, ?_, ?_⟩
  · split <;> rfl
  · split <;> rfl
  · split <;> exact hc

theorem Tame_flush : Tame flush := by
  intro c
  have hc := Writer.Flush_closed_eq c.buffered c.nc
  unfold flush
  simp only
  rcases hw : c.buffered.Flush c.nc with ⟨e, w', t'⟩
  rw [hw] at hc
  simp only at hc ⊢
  refine ⟨fun b => ?_, ?_, ?_⟩
  · split <;> rfl
  · split <;> rfl
  · split <;> exact hc

theorem Tame_readLineChecked : Tame readLineChecked := by
  intro c
  unfold readLineChecked
  simp only
  refine ⟨fun b => ?_, ?_, ?_⟩
  · split <;> rfl
  · split <;> rfl
  · split <;> rfl

theorem Tame_readFullChecked (n : Nat) : Tame (readFullChecked n) := by
  intro c
  unfold readFullChecked
  simp only
  refine ⟨fun b => ?_, ?_, ?_⟩
  · split <;> rfl
  · split <;> rfl
  · split <;> rfl

theorem Tame_writestrings (strs : List Bytes) : Tame (writestrings strs) := by
  induction strs with
  | nil => exact Tame_pure ()
  | cons s strs ih =>
    unfold writestrings
    exact Tame_bind _ _ (Tame_writestring s) (fun _ => ih)

theorem Tame_readline : Tame readline :=
  Tame_bind _ _ Tame_flush (fun _ => Tame_readLineChecked)

theorem Tame_read (count : Int) : Tame (read count) := by
  unfold read
  refine Tame_bind _ _ Tame_flush (fun _ => ?_)
  split
  · exact Tame_raiseRuntime
  · exact Tame_readFullChecked _

theorem Tame_sliceTo (b : Bytes) (size : Nat) : Tame (sliceTo b size) := by
  unfold sliceTo
  split
  · exact Tame_raiseRuntime
  · exact Tame_pure _

theorem Tame_orPanic (r : Except NumError Nat) : Tame (orPanic r) := by
  unfold orPanic
  split
  · exact Tame_pure _
  · exact Tame_raise _

theorem Tame_getValue (header : Bytes) : Tame (getValue header) := by
  unfold getValue
  simp only
  split
  · exact Tame_raise _
  · refine Tame_bind _ _ (Tame_orPanic _) (fun _ => ?_)
    refine Tame_bind _ _ (Tame_orPanic _) (fun _ => ?_)
    split
    · refine Tame_bind _ _ (Tame_orPanic _) (fun _ => ?_)
      refine Tame_bind _ _ (Tame_read _) (fun _ => ?_)
      refine Tame_bind _ _ (Tame_sliceTo _ _) (fun _ => ?_)
      exact Tame_bind _ _ Tame_readline (fun _ => Tame_pure _)
    · refine Tame_bind _ _ (Tame_pure _) (fun _ => ?_)
      refine Tame_bind _ _ (Tame_read _) (fun _ => ?_)
      refine Tame_bind _ _ (Tame_sliceTo _ _) (fun _ => ?_)
      exact Tame_bind _ _ Tame_readline (fun _ => Tame_pure _)

theorem Tame_getReply (header : Bytes) : Tame (getReply header) := by
  unfold getReply
  split
  · refine Tame_bind _ _ (Tame_getValue _) (fun r => ?_)
    beta_reduce
    split
    · exact Tame_pure _
    · exact Tame_raise _
  · refine Tame_bind _ _ (Tame_pure _) (fun r => ?_)
    beta_reduce
    split
    · exact Tame_pure _
    · exact Tame_raise _

theorem Tame_get (command key : Bytes) : Tame (get command key) := by
  unfold get
  refine Tame_bind _ _ (Tame_writestrings _) (fun _ => ?_)
  exact Tame_bind _ _ Tame_readline (fun _ => Tame_getReply _)

theorem Tame_storeReply (reply : Bytes) : Tame (storeReply reply) := by
  unfold storeReply
  split
  · exact Tame_raise _
  · exact Tame_pure _

theorem Tame_store (command key : Bytes) (f t : Nat) (v : Bytes) (cas : Nat) :
    Tame (store command key f t v cas) := by
  unfold store
  split
  · exact Tame_pure _
  · refine Tame_bind _ _ (Tame_writestrings _) (fun _ => ?_)
    refine Tame_bind _ _ (Tame_write _) (fun _ => ?_)
    refine Tame_bind _ _ (Tame_writestring _) (fun _ => ?_)
    refine Tame_bind _ _ (Tame_write _) (fun _ => ?_)
    refine Tame_bind _ _ (Tame_writestring _) (fun _ => ?_)
    refine Tame_bind _ _ (Tame_write _) (fun _ => ?_)
    split
    · refine Tame_bind _ _ (Tame_writestring _) (fun _ => ?_)
      refine Tame_bind _ _ (Tame_write _) (fun _ => ?_)
      refine Tame_bind _ _ (Tame_writestring _) (fun _ => ?_)
      refine Tame_bind _ _ (Tame_write _) (fun _ => ?_)
      refine Tame_bind _ _ (Tame_writestring _) (fun _ => ?_)
      exact Tame_bind _ _ Tame_readline (fun _ => Tame_storeReply _)
    · refine Tame_bind _ _ (Tame_pure _) (fun _ => ?_)
      refine Tame_bind _ _ (Tame_writestring _) (fun _ => ?_)
      refine Tame_bind _ _ (Tame_write _) (fun _ => ?_)
      refine Tame_bind _ _ (Tame_writestring _) (fun _ => ?_)
      exact Tame_bind _ _ Tame_readline (fun _ => Tame_storeReply _)

theorem Tame_versionReply (reply : Bytes) : Tame (versionReply reply) := by
  unfold versionReply
  split
  · exact Tame_raise _
  · split
    · exact Tame_raise _
    · split
      · exact Tame_pure _
      · exact Tame_raiseRuntime

theorem Tame_versionBody : Tame versionBody := by
  unfold versionBody
  refine Tame_bind _ _ (Tame_writestrings _) (fun _ => ?_)
  exact Tame_bind _ _ Tame_readline (fun _ => Tame_versionReply _)

theorem Tame_deleteReply (reply : Bytes) : Tame (deleteReply reply) := by
  unfold deleteReply
  split
  · exact Tame_raise _
  · exact Tame_pure _

theorem Tame_deleteBody (key : Bytes) : Tame (deleteBody key) := by
  unfold deleteBody
  refine Tame_bind _ _ (Tame_writestrings _) (fun _ => ?_)
  exact Tame_bind _ _ Tame_readline (fun _ => Tame_deleteReply _)

theorem Tame_statsRequest (argument : Bytes) : Tame (statsRequest argument) := by
  unfold statsRequest
  split
  · exact Tame_bind _ _ (Tame_writestrings _) (fun _ => Tame_flush)
  · exact Tame_bind _ _ (Tame_writestrings _) (fun _ => Tame_flush)

theorem Tame_statsLoop (k : Nat) (result : Bytes) : Tame (statsLoop k result) := by
  induction k generalizing result with
  | zero => exact fun _ => ⟨fun _ => rfl, rfl, rfl⟩
  | succ k ih =>
    intro c
    have hr := Tame_readline c
    unfold statsLoop
    refine ⟨fun b => ?_, ?_, ?_⟩
    · rw [hr.1 b]
      rcases hrl : readline c with ⟨r, c'⟩
      cases r with
      | error p => rfl
      | ok l =>
        simp only
        split
        · rfl
        · split
          · rfl
          · exact ((ih (result ++ l ++ ['\n'])) c').1 b
    · rcases hrl : readline c with ⟨r, c'⟩
      rw [hrl] at hr
      cases r with
      | error p => exact hr.2.1
      | ok l =>
        simp only
        split
        · exact hr.2.1
        · split
          · exact hr.2.1
          · exact (((ih (result ++ l ++ ['\n'])) c').2.1).trans hr.2.1
    · rcases hrl : readline c with ⟨r, c'⟩
      rw [hrl] at hr
      cases r with
      | error p => exact hr.2.2
      | ok l =>
        simp only
        split
        · exact hr.2.2
        · split
          · exact hr.2.2
          · exact (((ih (result ++ l ++ ['\n'])) c').2.2).trans hr.2.2

theorem Sticky_recovered {β : Type} (val : β) (p : PanicValue) (c c' : Connection) (b : Bool)
    (h1 : c'.conn_nil = c.conn_nil) (h2 : c'.nc.closed = c.nc.closed)
    (h3 : c'.has_error = c.has_error) :
    ((recovered val p { c' with has_error := b }).1 = (recovered val p c').1 ∧
      (recovered val p { c' with has_error := b }).2.nc = (recovered val p c').2.nc ∧
      (recovered val p { c' with has_error := b }).2.buffered = (recovered val p c').2.buffered ∧
      (recovered val p { c' with has_error := b }).2.conn_nil =
        (recovered val p c').2.conn_nil) ∧
    (recovered val p c').2.conn_nil = c.conn_nil ∧
    (recovered val p c').2.nc.closed = c.nc.closed ∧
    (c.has_error = true → (recovered val p c').2.has_error = true) ∧
    ((recovered val p c').2.has_error = true →
      c.has_error = true ∨ ∃ v e, (recovered val p c').1 = .ret v (some e)) := by
  cases p with
  | memcache e =>
    refine ⟨⟨rfl, rfl, rfl, rfl⟩, h1, h2, fun _ => rfl, fun _ => Or.inr ⟨val, e, rfl⟩⟩
  | runtime =>
    refine ⟨⟨rfl, rfl, rfl, rfl⟩, h1, h2, fun h => ?_, fun h => Or.inl ?_⟩
    · exact h3.trans h
    · exact h3.symm.trans h

/-- A body that leaves the flag alone, run under `handleError`. -/
theorem Sticky_handleError {α : Type} (zero : α) (body : M α) (hb : Tame body) :
    Sticky (handleError zero body) := by
  intro c
  have ht := hb c
  have hk := Tame_keeps body hb c
  have hun : ∀ b, handleError zero body { c with has_error := b } =
      match body c with
      | (.ok a, c') => (.ret a none, { c' with has_error := b })
      | (.error p, c') => recovered zero p { c' with has_error := b } := by
    intro b
    unfold handleError
    rw [ht.1 b]
    rcases body c with ⟨r, c'⟩
    cases r <;> rfl
  have hc : handleError zero body c =
      match body c with
      | (.ok a, c') => (.ret a none, c')
      | (.error p, c') => recovered zero p c' := rfl
  rcases hbc : body c with ⟨r, c'⟩
  rw [hbc] at ht hk
  simp only at ht hk
  cases r with
  | ok a =>
    refine ⟨fun b => ?_, ?_, ?_, ?_, ?_⟩
    · rw [hun b, hc, hbc]; exact ⟨rfl, rfl, rfl, rfl⟩
    · rw [hc, hbc]; exact ht.2.1
    · rw [hc, hbc]; exact ht.2.2
    · rw [hc, hbc]; intro h; exact hk.trans h
    · rw [hc, hbc]; intro h; exact Or.inl (hk.symm.trans h)
  | error p =>
    have := Sticky_recovered zero p c c' 
    refine ⟨fun b => ?_, ?_, ?_, ?_, ?_⟩
    · rw [hun b, hc, hbc]; exact (this b ht.2.1 ht.2.2 hk).1
    · rw [hc, hbc]; exact (this true ht.2.1 ht.2.2 hk).2.1
    · rw [hc, hbc]; exact (this true ht.2.1 ht.2.2 hk).2.2.1
    · rw [hc, hbc]; exact (this true ht.2.1 ht.2.2 hk).2.2.2.1
    · rw [hc, hbc]; exact (this true ht.2.1 ht.2.2 hk).2.2.2.2

theorem Sticky_Stats (argument : Bytes) : Sticky (Stats argument) := by
  intro c
  have ht := Tame_statsRequest argument c
  have hk := Tame_keeps _ (Tame_statsRequest argument) c
  have hun : ∀ b, Stats argument { c with has_error := b } =
      match statsRequest argument c with
      | (.error p, c') => recovered [] p { c' with has_error := b }
      | (.ok _, c') =>
        match statsLoop (c'.nc.inp.length + 1) [] c' with
        | (.done result, c'') => (.ret result none, { c'' with has_error := b })
        | (.returned e, c'') => (.ret [] (some e), { c'' with has_error := b })
        | (.panicked result p, c'') => recovered result p { c'' with has_error := b }
        | (.bound, c'') => (.hang, { c'' with has_error := b }) := by
    intro b
    unfold Stats
    rw [ht.1 b]
    rcases statsRequest argument c with ⟨r, c'⟩
    cases r with
    | error p => rfl
    | ok u =>
      simp only
      have hl := (Tame_statsLoop (c'.nc.inp.length + 1) [] c').1 b
      rw [hl]
      rcases statsLoop (c'.nc.inp.length + 1) [] c' with ⟨e, c''⟩
      cases e <;> rfl
  have hc : Stats argument c =
      match statsRequest argument c with
      | (.error p, c') => recovered [] p c'
      | (.ok _, c') =>
        match statsLoop (c'.nc.inp.length + 1) [] c' with
        | (.done result, c'') => (.ret result none, c'')
        | (.returned e, c'') => (.ret [] (some e), c'')
        | (.panicked result p, c'') => recovered result p c''
        | (.bound, c'') => (.hang, c'') := rfl
  rcases hbc : statsRequest argument c with ⟨r, c'⟩
  rw [hbc] at ht hk
  simp only at ht hk
  cases r with
  | error p =>
    have := Sticky_recovered ([] : Bytes) p c c'
    refine ⟨fun b => ?_, ?_, ?_, ?_, ?_⟩
    · rw [hun b, hc, hbc]; exact (this b ht.2.1 ht.2.2 hk).1
    · rw [hc, hbc]; exact (this true ht.2.1 ht.2.2 hk).2.1
    · rw [hc, hbc]; exact (this true ht.2.1 ht.2.2 hk).2.2.1
    · rw [hc, hbc]; exact (this true ht.2.1 ht.2.2 hk).2.2.2.1
    · rw [hc, hbc]; exact (this true ht.2.1 ht.2.2 hk).2.2.2.2
  | ok u =>
    have hl := Tame_statsLoop (c'.nc.inp.length + 1) [] c'
    have hlk := Tame_keeps _ (Tame_statsLoop (c'.nc.inp.length + 1) []) c'
    rcases hsl : statsLoop (c'.nc.inp.length + 1) [] c' with ⟨e, c''⟩
    rw [hsl] at hl hlk
    simp only at hl hlk
    have k1 : c''.conn_nil = c.conn_nil := hl.2.1.trans ht.2.1
    have k2 : c''.nc.closed = c.nc.closed := hl.2.2.trans ht.2.2
    have k3 : c''.has_error = c.has_error := hlk.trans hk
    cases e with
    | done result =>
      refine ⟨fun b => ?_, ?_, ?_, ?_, ?_⟩
      · rw [hun b, hc, hbc]; simp [hsl]
      · rw [hc, hbc]; simp only [hsl]; exact k1
      · rw [hc, hbc]; simp only [hsl]; exact k2
      · rw [hc, hbc]; simp only [hsl]; intro h; exact k3.trans h
      · rw [hc, hbc]; simp only [hsl]; intro h; exact Or.inl (k3.symm.trans h)
    | returned e =>
      refine ⟨fun b => ?_, ?_, ?_, ?_, ?_⟩
      · rw [hun b, hc, hbc]; simp [hsl]
      · rw [hc, hbc]; simp only [hsl]; exact k1
      · rw [hc, hbc]; simp only [hsl]; exact k2
      · rw [hc, hbc]; simp only [hsl]; intro h; exact k3.trans h
      · rw [hc, hbc]; simp only [hsl]; intro h; exact Or.inl (k3.symm.trans h)
    | panicked result p =>
      have := Sticky_recovered result p c c''
      refine ⟨fun b => ?_, ?_, ?_, ?_, ?_⟩
      · rw [hun b, hc, hbc]; simp only [hsl]; exact (this b k1 k2 k3).1
      · rw [hc, hbc]; simp only [hsl]; exact (this true k1 k2 k3).2.1
      · rw [hc, hbc]; simp only [hsl]; exact (this true k1 k2 k3).2.2.1
      · rw [hc, hbc]; simp only [hsl]; exact (this true k1 k2 k3).2.2.2.1
      · rw [hc, hbc]; simp only [hsl]; exact (this true k1 k2 k3).2.2.2.2
    | bound =>
      refine ⟨fun b => ?_, ?_, ?_, ?_, ?_⟩
      · rw [hun b, hc, hbc]; simp [hsl]
      · rw [hc, hbc]; simp only [hsl]; exact k1
      · rw [hc, hbc]; simp only [hsl]; exact k2
      · rw [hc, hbc]; simp only [hsl]; intro h; exact k3.trans h
      · rw [hc, hbc]; simp only [hsl]; intro h; exact Or.inl (k3.symm.trans h)

theorem Sticky_map {α β : Type} (g : Connection → Outcome α × Connection) (f : α → β)
    (h : Sticky g) : Sticky (fun c => ((g c).1.map f, (g c).2)) := by
  intro c
  have := h c
  refine ⟨fun b => ⟨?_, (this.1 b).2.1, (this.1 b).2.2.1, (this.1 b).2.2.2⟩, this.2.1,
    this.2.2.1, this.2.2.2.1, ?_⟩
  · simp only
    rw [(this.1 b).1]
  · intro hh
    rcases this.2.2.2.2 hh with h1 | ⟨v, e, h2⟩
    · exact Or.inl h1
    · right
      refine ⟨f v, e, ?_⟩
      simp only
      rw [h2]
      rfl

/-- Every public operation treats the sticky flag as the specification says. -/
theorem Sticky_run (op : Op) : Sticky (run op) := by
  cases op with
  | Get key =>
    exact Sticky_map _ _ (Sticky_handleError _ _
      (Tame_bind _ _ (Tame_get _ key) (fun _ => Tame_pure _)))
  | Gets key => exact Sticky_map _ _ (Sticky_handleError _ _ (Tame_get _ key))
  | Set key f t v => exact Sticky_map _ _ (Sticky_handleError _ _ (Tame_store _ key f t v 0))
  | Add key f t v => exact Sticky_map _ _ (Sticky_handleError _ _ (Tame_store _ key f t v 0))
  | Replace key f t v => exact Sticky_map _ _ (Sticky_handleError _ _ (Tame_store _ key f t v 0))
  | Append key f t v => exact Sticky_map _ _ (Sticky_handleError _ _ (Tame_store _ key f t v 0))
  | Prepend key f t v => exact Sticky_map _ _ (Sticky_handleError _ _ (Tame_store _ key f t v 0))
  | Cas key f t v cas =>
    exact Sticky_map _ _ (Sticky_handleError _ _ (Tame_store _ key f t v cas))
  | Delete key => exact Sticky_map _ _ (Sticky_handleError _ _ (Tame_deleteBody key))
  | Stats argument => exact Sticky_map _ _ (Sticky_Stats argument)
  | Version => exact Sticky_map _ _ (Sticky_handleError _ _ Tame_versionBody)

/-- C13: the sticky flag is monotone: for every connection state and every
public operation, `Close` included and whether the operation succeeds or not,
if `HasError()` is true before the call it is true after it; a fresh
connection starts with `HasError()` false; and an operation that finds the
flag false and leaves it true returns a fault. -/
theorem flag_monotone (nc : Transport) (op : Op) (c : Connection) :
    HasError (newConnection nc) = false ∧
    (HasError c = true → HasError (run op c).2 = true) ∧
    (HasError c = true → HasError (Close c).2 = true) ∧
    (HasError c = false → HasError (run op c).2 = true →
      ∃ v e, (run op c).1 = .ret v (some e)) := by
  have hs := Sticky_run op c
  refine ⟨rfl, hs.2.2.2.1, ?_, ?_⟩
  · intro h
    unfold Close
    split <;> exact h
  · intro h0 h1
    rcases hs.2.2.2.2 h1 with h | h
    · unfold HasError at h0
      rw [h0] at h
      cases h
    · exact h

/-- The monotonicity theorem applied to a `Get` that succeeds (a miss) on a
connection whose flag is set. -/
theorem flag_monotone_witness :
    HasError (run (.Get "k".toList)
      { newConnection ⟨"END\r\n".toList, [], false, none⟩ with has_error := true }).2 = true ∧
    (run (.Get "k".toList)
      { newConnection ⟨"END\r\n".toList, [], false, none⟩ with has_error := true }).1 =
      .ret (.item [] 0 0) none :=
  ⟨(flag_monotone ⟨[], [], false, none⟩ (.Get "k".toList)
      { newConnection ⟨"END\r\n".toList, [], false, none⟩ with has_error := true }).2.1 rfl,
    by decide⟩

/-- C16: the sticky flag is purely observational: for every public operation
with its arguments and every state of the transport and of the writer, run on
two connections that differ only in the flag the operation returns the same
results and the same error or nil error, and leaves the same transport (the
same bytes written and the same bytes read) and the same writer; and no
operation changes the `conn` field or closes the transport, whatever the
flag. -/
theorem flag_observational (op : Op) (c1 c2 : Connection) (hn : c1.conn_nil = c2.conn_nil)
    (ht : c1.nc = c2.nc) (hb : c1.buffered = c2.buffered) :
    (run op c1).1 = (run op c2).1 ∧ (run op c1).2.nc = (run op c2).2.nc ∧
    (run op c1).2.buffered = (run op c2).2.buffered ∧
    (run op c1).2.conn_nil = (run op c2).2.conn_nil ∧
    IsClosed (run op c1).2 = IsClosed c1 ∧ (run op c1).2.nc.closed = c1.nc.closed := by
  have hs := Sticky_run op c2
  have e : c1 = { c2 with has_error := c1.has_error } := by
    cases c1; cases c2
    simp only at hn ht hb
    subst hn ht hb
    rfl
  have h1 := Sticky_run op c1
  refine ⟨?_, ?_, ?_, ?_, h1.2.1, h1.2.2.1⟩
  · rw [e]; exact (hs.1 _).1
  · rw [e]; exact (hs.1 _).2.1
  · rw [e]; exact (hs.1 _).2.2.1
  · rw [e]; exact (hs.1 _).2.2.2

/-- The theorem on the observational flag applied to a `Get` answered by a
malformed line, on a fresh connection and on one whose flag is set. -/
theorem flag_observational_witness :
    (run (.Get "k".toList) (newConnection ⟨"OOPS\r\n".toList, [], false, none⟩)).1 =
      (run (.Get "k".toList)
        { newConnection ⟨"OOPS\r\n".toList, [], false, none⟩ with has_error := true }).1 :=
  (flag_observational (.Get "k".toList) (newConnection ⟨"OOPS\r\n".toList, [], false, none⟩)
    { newConnection ⟨"OOPS\r\n".toList, [], false, none⟩ with has_error := true }
    rfl rfl rfl).1

/-! ## Reading writes nothing, writing reads nothing -/

theorem Pres_bind {α β : Type} (R : Connection → Connection → Prop)
    (htrans : ∀ a b c, R a b → R b c → R a c) (m : M α) (f : α → M β) (hm : Pres R m)
    (hf : ∀ a, Pres R (f a)) : Pres R (m >>= f) := by
  intro c
  have h1 := hm c
  rw [bind_def]
  simp only [M.bind]
  rcases hmc : m c with ⟨r, c'⟩
  rw [hmc] at h1
  cases r with
  | ok a => exact htrans _ _ _ h1 ((hf a) c')
  | error p => exact h1

theorem ReadRel_trans (a b c : Connection) (h1 : ReadRel a b) (h2 : ReadRel b c) :
    ReadRel a c := by
  intro hq
  have q1 := h1 hq
  have q2 := h2 q1.1
  exact ⟨q2.1, q2.2.trans q1.2⟩

theorem InpRel_trans (a b c : Connection) (h1 : InpRel a b) (h2 : InpRel b c) : InpRel a c :=
  Eq.trans h2 h1

theorem ReadOnly_bind {α β : Type} (m : M α) (f : α → M β) (hm : ReadOnly m)
    (hf : ∀ a, ReadOnly (f a)) : ReadOnly (m >>= f) :=
  Pres_bind ReadRel ReadRel_trans m f hm hf

theorem NoRead_bind {α β : Type} (m : M α) (f : α → M β) (hm : NoRead m)
    (hf : ∀ a, NoRead (f a)) : NoRead (m >>= f) :=
  Pres_bind InpRel InpRel_trans m f hm hf

theorem ReadOnly_pure {α : Type} (a : α) : ReadOnly (pure a : M α) := fun _ hq => ⟨hq, rfl⟩

theorem ReadOnly_raise {α : Type} (t : Text) : ReadOnly (raise t : M α) :=
  fun _ hq => ⟨hq, rfl⟩

theorem ReadOnly_raiseRuntime {α : Type} : ReadOnly (raiseRuntime : M α) :=
  fun _ hq => ⟨hq, rfl⟩

theorem flush_quiet (s : Connection) (h : Quiet s) : flush s = (.ok (), s) := by
  unfold Quiet at h
  unfold flush Writer.Flush
  rw [h]
  simp only [Bool.false_eq_true, if_false, if_true]
  cases s
  simp only at h
  subst h
  rfl

theorem ReadOnly_flush : ReadOnly flush := by
  intro s hq
  rw [flush_quiet s hq]
  exact ⟨hq, rfl⟩

theorem ReadOnly_readLineChecked : ReadOnly readLineChecked := by
  intro s hq
  unfold readLineChecked
  simp only
  split <;> exact ⟨hq, rfl⟩

theorem ReadOnly_readFullChecked (n : Nat) : ReadOnly (readFullChecked n) := by
  intro s hq
  unfold readFullChecked
  simp only
  split <;> exact ⟨hq, rfl⟩

theorem ReadOnly_readline : ReadOnly readline :=
  ReadOnly_bind _ _ ReadOnly_flush (fun _ => ReadOnly_readLineChecked)

theorem ReadOnly_read (count : Int) : ReadOnly (read count) := by
  unfold read
  refine ReadOnly_bind _ _ ReadOnly_flush (fun _ => ?_)
  split
  · exact ReadOnly_raiseRuntime
  · exact ReadOnly_readFullChecked _

theorem ReadOnly_sliceTo (b : Bytes) (size : Nat) : ReadOnly (sliceTo b size) := by
  unfold sliceTo
  split
  · exact ReadOnly_raiseRuntime
  · exact ReadOnly_pure _

theorem ReadOnly_orPanic (r : Except NumError Nat) : ReadOnly (orPanic r) := by
  unfold orPanic
  split
  · exact ReadOnly_pure _
  · exact ReadOnly_raise _

theorem ReadOnly_getValue (header : Bytes) : ReadOnly (getValue header) := by
  unfold getValue
  simp only
  split
  · exact ReadOnly_raise _
  · refine ReadOnly_bind _ _ (ReadOnly_orPanic _) (fun _ => ?_)
    refine ReadOnly_bind _ _ (ReadOnly_orPanic _) (fun _ => ?_)
    split
    · refine ReadOnly_bind _ _ (ReadOnly_orPanic _) (fun _ => ?_)
      refine ReadOnly_bind _ _ (ReadOnly_read _) (fun _ => ?_)
      refine ReadOnly_bind _ _ (ReadOnly_sliceTo _ _) (fun _ => ?_)
      exact ReadOnly_bind _ _ ReadOnly_readline (fun _ => ReadOnly_pure _)
    · refine ReadOnly_bind _ _ (ReadOnly_pure _) (fun _ => ?_)
      refine ReadOnly_bind _ _ (ReadOnly_read _) (fun _ => ?_)
      refine ReadOnly_bind _ _ (ReadOnly_sliceTo _ _) (fun _ => ?_)
      exact ReadOnly_bind _ _ ReadOnly_readline (fun _ => ReadOnly_pure _)

theorem ReadOnly_getReply (header : Bytes) : ReadOnly (getReply header) := by
  unfold getReply
  split
  · refine ReadOnly_bind _ _ (ReadOnly_getValue _) (fun r => ?_)
    beta_reduce
    split
    · exact ReadOnly_pure _
    · exact ReadOnly_raise _
  · refine ReadOnly_bind _ _ (ReadOnly_pure _) (fun r => ?_)
    beta_reduce
    split
    · exact ReadOnly_pure _
    · exact ReadOnly_raise _

theorem ReadOnly_storeReply (reply : Bytes) : ReadOnly (storeReply reply) := by
  unfold storeReply
  split
  · exact ReadOnly_raise _
  · exact ReadOnly_pure _

theorem ReadOnly_versionReply (reply : Bytes) : ReadOnly (versionReply reply) := by
  unfold versionReply
  split
  · exact ReadOnly_raise _
  · split
    · exact ReadOnly_raise _
    · split
      · exact ReadOnly_pure _
      · exact ReadOnly_raiseRuntime

theorem ReadOnly_deleteReply (reply : Bytes) : ReadOnly (deleteReply reply) := by
  unfold deleteReply
  split
  · exact ReadOnly_raise _
  · exact ReadOnly_pure _

theorem ReadOnly_statsLoop (k : Nat) (result : Bytes) : ReadOnly (statsLoop k result) := by
  induction k generalizing result with
  | zero => exact fun _ hq => ⟨hq, rfl⟩
  | succ k ih =>
    intro c
    have hr := ReadOnly_readline c
    unfold statsLoop
    rcases hrl : readline c with ⟨r, c'⟩
    rw [hrl] at hr
    cases r with
    | error p => exact hr
    | ok l =>
      simp only
      split
      · exact hr
      · split
        · exact hr
        · exact ReadRel_trans _ _ _ hr ((ih (result ++ l ++ ['\n'])) c')

theorem wsLoop_inp (k : Nat) (w : Writer) (t : Transport) (s : Bytes) :
    (wsLoop k w t s).2.1.inp = t.inp := by
  induction k generalizing w t s with
  | zero => rfl
  | succ k ih =>
    unfold wsLoop
    split
    · have hf := Writer.Flush_inp { w with buf := w.buf ++ s.take w.Available } t
      rcases hfl : Writer.Flush { w with buf := w.buf ++ s.take w.Available } t with ⟨e, w', t'⟩
      rw [hfl] at hf
      simp only at hf ⊢
      rw [ih, hf]
    · rfl

theorem wLoop_inp (k : Nat) (w : Writer) (t : Transport) (p : Bytes) :
    (wLoop k w t p).2.1.inp = t.inp := by
  induction k generalizing w t p with
  | zero => rfl
  | succ k ih =>
    unfold wLoop
    split
    · split
      · have hf := Transport.Write_inp t p
        rcases hw : t.Write p with ⟨n, e, t'⟩
        rw [hw] at hf
        simp only at hf ⊢
        rw [ih, hf]
      · have hf := Writer.Flush_inp { w with buf := w.buf ++ p.take w.Available } t
        rcases hfl : Writer.Flush { w with buf := w.buf ++ p.take w.Available } t with ⟨e, w', t'⟩
        rw [hfl] at hf
        simp only at hf ⊢
        rw [ih, hf]
    · rfl

theorem NoRead_pure {α : Type} (a : α) : NoRead (pure a : M α) := fun _ => rfl

theorem NoRead_writestring (s : Bytes) : NoRead (writestring s) := by
  intro c
  have hc := wsLoop_inp (s.length + 2) c.buffered c.nc s
  unfold writestring Writer.WriteString
  simp only
  rcases hw : wsLoop (s.length + 2) c.buffered c.nc s with ⟨w', t', s'⟩
  rw [hw] at hc
  simp only at hc ⊢
  unfold InpRel
  split <;> exact hc

theorem NoRead_write (p : Bytes) : NoRead (write p) := by
  intro c
  have hc := wLoop_inp (p.length + 2) c.buffered c.nc p
  unfold write Writer.Write
  simp only
  rcases hw : wLoop (p.length + 2) c.buffered c.nc p with ⟨w', t', s'⟩
  rw [hw] at hc
  simp only at hc ⊢
  unfold InpRel
  split <;> exact hc

theorem NoRead_flush : NoRead flush := by
  intro c
  have hc := Writer.Flush_inp c.buffered c.nc
  unfold flush
  simp only
  rcases hw : c.buffered.Flush c.nc with ⟨e, w', t'⟩
  rw [hw] at hc
  simp only at hc ⊢
  unfold InpRel
  split <;> exact hc

theorem NoRead_writestrings (strs : List Bytes) : NoRead (writestrings strs) := by
  induction strs with
  | nil => exact NoRead_pure ()
  | cons s strs ih =>
    unfold writestrings
    exact NoRead_bind _ _ (NoRead_writestring s) (fun _ => ih)

/-! ## The requests of the operations that store nothing -/

theorem ReadOnly_sent {β : Type} (g : Connection → β × Connection) (hg : ReadOnly g)
    (c : Connection) (bs inp : Bytes) :
    (g (sent c bs inp)).2.nc.out = c.nc.out ++ c.buffered.buf ++ bs ∧
      (g (sent c bs inp)).2.buffered.buf = [] := by
  have := hg (sent c bs inp) rfl
  refine ⟨this.2, ?_⟩
  have hq := this.1
  unfold Quiet at hq
  rw [hq]

theorem bind_pure_state {α β : Type} (m : M α) (g : α → β) (c : Connection) :
    ((m >>= fun r => (pure (g r) : M β)) c).2 = (m c).2 := by
  rw [bind_def]
  simp only [M.bind]
  rcases m c with ⟨r, c'⟩
  cases r <;> rfl

theorem version_request (c : Connection) (h : Healthy c) :
    versionBody c = (readLineChecked >>= versionReply)
      (sent c "version\r\n".toList c.nc.inp) := by
  unfold versionBody
  have := request_reply c h ["version\r\n".toList] versionReply
  have hc : concat ["version\r\n".toList] = "version\r\n".toList := by simp [concat]
  rw [hc] at this
  exact this

theorem statsRequest_sent (c : Connection) (h : Healthy c) (argument : Bytes) :
    statsRequest argument c =
      (.ok (), sent c (if argument = [] then "stats\r\n".toList
        else "stats ".toList ++ argument ++ "\r\n".toList) c.nc.inp) := by
  unfold statsRequest
  by_cases ha : argument = []
  · simp only [ha, if_true]
    obtain ⟨c1, e1, w1⟩ := writestrings_wrote ["stats\r\n".toList] c c [] (Wrote_start c h)
    rw [bind_ok _ _ _ _ _ e1, flush_wrote c c1 _ w1]
    simp [concat]
  · simp only [ha, if_false]
    obtain ⟨c1, e1, w1⟩ := writestrings_wrote ["stats ".toList, argument, "\r\n".toList] c c []
      (Wrote_start c h)
    rw [bind_ok _ _ _ _ _ e1, flush_wrote c c1 _ w1]
    simp [concat]

theorem recovered_state {α : Type} (val : α) (p : PanicValue) (c : Connection) :
    (recovered val p c).2.nc = c.nc ∧ (recovered val p c).2.buffered = c.buffered := by
  cases p <;> exact ⟨rfl, rfl⟩

theorem Stats_state (argument : Bytes) (c s : Connection)
    (h : statsRequest argument c = (.ok (), s)) :
    (Stats argument c).2.nc = (statsLoop (s.nc.inp.length + 1) [] s).2.nc ∧
      (Stats argument c).2.buffered = (statsLoop (s.nc.inp.length + 1) [] s).2.buffered := by
  unfold Stats
  rw [h]
  simp only
  rcases statsLoop (s.nc.inp.length + 1) [] s with ⟨e, c''⟩
  cases e with
  | done result => exact ⟨rfl, rfl⟩
  | returned e => exact ⟨rfl, rfl⟩
  | panicked result p => exact recovered_state result p c''
  | bound => exact ⟨rfl, rfl⟩

/-- C15: for every key and argument, on a working connection, the bytes that
reach the transport during an operation that stores nothing are the pending
bytes followed by exactly its request: `Get` writes `get `, the key, `\r\n`;
`Gets` writes `gets `, the key, `\r\n`; `Delete` writes `delete `, the key,
`\r\n`; `Stats("")` writes `stats\r\n`; `Stats(a)` with `a` not empty writes
`stats `, `a`, `\r\n`; `Version` writes `version\r\n`; nothing else is written
and nothing stays in the buffer, whatever the reply. -/
theorem request_bytes (op : Op) (c : Connection) (req : Bytes) (h : Healthy c)
    (hq : op.request = some req) :
    (run op c).2.nc.out = c.nc.out ++ c.buffered.buf ++ req ∧
      (run op c).2.buffered.buf = [] := by
  cases op with
  | Get key =>
    simp only [Op.request, Option.some.injEq] at hq
    subst hq
    have hb := handleError_out ([], 0)
      (do let r ← get "get".toList key; pure (r.1, r.2.1)) c
    have hs := bind_pure_state (get "get".toList key)
      (fun r : Bytes × Nat × Nat => (r.1, r.2.1)) c
    have hr := ReadOnly_sent _
      (ReadOnly_bind _ _ ReadOnly_readLineChecked (fun l => ReadOnly_getReply l)) c
      (fetchRequest "get".toList key) c.nc.inp
    rw [← get_request c h] at hr
    show (Get key c).2.nc.out = _ ∧ (Get key c).2.buffered.buf = []
    unfold Get
    rw [hb.1, hb.2.1, hs]
    have e : fetchRequest "get".toList key = "get ".toList ++ key ++ "\r\n".toList := by
      simp [fetchRequest]
    rw [← e]
    exact hr
  | Gets key =>
    simp only [Op.request, Option.some.injEq] at hq
    subst hq
    have hb := handleError_out ([], 0, 0) (get "gets".toList key) c
    have hr := ReadOnly_sent _
      (ReadOnly_bind _ _ ReadOnly_readLineChecked (fun l => ReadOnly_getReply l)) c
      (fetchRequest "gets".toList key) c.nc.inp
    rw [← get_request c h] at hr
    show (Gets key c).2.nc.out = _ ∧ (Gets key c).2.buffered.buf = []
    unfold Gets
    rw [hb.1, hb.2.1]
    have e : fetchRequest "gets".toList key = "gets ".toList ++ key ++ "\r\n".toList := by
      simp [fetchRequest]
    rw [← e]
    exact hr
  | Delete key =>
    simp only [Op.request, Option.some.injEq] at hq
    subst hq
    have hb := handleError_out false (deleteBody key) c
    have hr := ReadOnly_sent _
      (ReadOnly_bind _ _ ReadOnly_readLineChecked (fun l => ReadOnly_deleteReply l)) c
      ("delete ".toList ++ key ++ ['\r', '\n']) c.nc.inp
    rw [← delete_request c h] at hr
    show (Delete key c).2.nc.out = _ ∧ (Delete key c).2.buffered.buf = []
    unfold Delete
    rw [hb.1, hb.2.1]
    exact hr
  | Version =>
    simp only [Op.request, Option.some.injEq] at hq
    subst hq
    have hb := handleError_out [] versionBody c
    have hr := ReadOnly_sent _
      (ReadOnly_bind _ _ ReadOnly_readLineChecked (fun l => ReadOnly_versionReply l)) c
      "version\r\n".toList c.nc.inp
    rw [← version_request c h] at hr
    show (Version c).2.nc.out = _ ∧ (Version c).2.buffered.buf = []
    unfold Version
    rw [hb.1, hb.2.1]
    exact hr
  | Stats argument =>
    have hreq : req = (if argument = [] then "stats\r\n".toList
        else "stats ".toList ++ argument ++ "\r\n".toList) := by
      simp only [Op.request] at hq
      split at hq
      · rename_i ha
        rw [if_pos ha]
        exact (Option.some.inj hq).symm
      · rename_i ha
        rw [if_neg ha]
        exact (Option.some.inj hq).symm
    have hs := Stats_state argument c _ (statsRequest_sent c h argument)
    have hr := ReadOnly_sent _ (ReadOnly_statsLoop
      ((sent c (if argument = [] then "stats\r\n".toList
        else "stats ".toList ++ argument ++ "\r\n".toList) c.nc.inp).nc.inp.length + 1) []) c
      (if argument = [] then "stats\r\n".toList
        else "stats ".toList ++ argument ++ "\r\n".toList) c.nc.inp
    show (Stats argument c).2.nc.out = _ ∧ (Stats argument c).2.buffered.buf = []
    rw [hs.1, hs.2, hreq]
    exact hr
  | Set key f t v => simp [Op.request] at hq
  | Add key f t v => simp [Op.request] at hq
  | Replace key f t v => simp [Op.request] at hq
  | Append key f t v => simp [Op.request] at hq
  | Prepend key f t v => simp [Op.request] at hq
  | Cas key f t v cas => simp [Op.request] at hq

/-- The theorem on requests applied to `Stats("slabs")` on a fresh connection. -/
theorem request_bytes_witness :
    (run (.Stats "slabs".toList)
        (newConnection ⟨"END\r\n".toList, [], false, none⟩)).2.nc.out =
      "stats slabs\r\n".toList ∧
    (run (.Stats "slabs".toList)
        (newConnection ⟨"END\r\n".toList, [], false, none⟩)).2.buffered.buf = [] :=
  request_bytes (.Stats "slabs".toList) (newConnection ⟨"END\r\n".toList, [], false, none⟩)
    "stats slabs\r\n".toList (by decide) (by decide)

/-! ## Flush before read -/

theorem Transport.Write_ok (t : Transport) (p : Bytes) (h : (t.Write p).2.1 = false) :
    (t.Write p).2.2.out = t.out ++ p := by
  cases hcl : t.closed with
  | true => simp [Transport.Write, hcl] at h
  | false =>
    cases hw : t.wcap with
    | none => simp [Transport.Write, hcl, hw]
    | some k =>
      by_cases hk : p.length ≤ k
      · simp [Transport.Write, hcl, hw, hk]
      · simp [Transport.Write, hcl, hw, hk] at h

/-- What `flush` does in any state: it succeeds and then nothing is pending,
every byte that was pending has been accepted by the transport and no input
was consumed; or it panics with the error of the transport, a fault, and no
input was consumed. -/
theorem flush_cases (c : Connection) :
    (∃ s, flush c = (.ok (), s) ∧ Quiet s ∧ s.nc.out = c.nc.out ++ c.buffered.buf ∧
      s.nc.inp = c.nc.inp) ∨
    (∃ s, flush c = (.error (.memcache ⟨.transport⟩), s) ∧ s.nc.inp = c.nc.inp) := by
  have hin := Writer.Flush_inp c.buffered c.nc
  unfold flush
  unfold Writer.Flush at hin ⊢
  by_cases he : c.buffered.err = true
  · right
    simp only [he, if_true]
    exact ⟨_, rfl, rfl⟩
  · have he' : c.buffered.err = false := by simpa using he
    by_cases hb : c.buffered.buf = []
    · left
      simp only [he', Bool.false_eq_true, if_false, hb, if_true]
      refine ⟨_, rfl, ?_, ?_, rfl⟩
      · unfold Quiet
        rcases hbf : c.buffered with ⟨b, e⟩
        rw [hbf] at he' hb
        simp only at he' hb
        subst he' hb
        rfl
      · simp
    · simp only [he', Bool.false_eq_true, if_false, hb] at hin ⊢
      have hok := Transport.Write_ok c.nc c.buffered.buf
      rcases hw : c.nc.Write c.buffered.buf with ⟨n, e, t'⟩
      rw [hw] at hin hok
      simp only at hin hok ⊢
      by_cases hf : (e || decide (n < c.buffered.buf.length)) = true
      · right
        rw [if_pos hf] at hin ⊢
        simp only [if_true]
        exact ⟨_, rfl, hin⟩
      · left
        rw [if_neg hf] at hin ⊢
        simp only [Bool.false_eq_true, if_false]
        have hee : e = false := by
          cases e
          · rfl
          · simp at hf
        refine ⟨_, rfl, ?_, hok hee, hin⟩
        unfold Quiet
        simp only [he']

theorem FlushFirst_of_NoRead {β : Type} (g : Connection → β × Connection) (h : NoRead g) :
    FlushFirst g :=
  fun c => Or.inl (h c)

theorem FlushFirst_bind {α β : Type} (m : M α) (f : α → M β) (hm : NoRead m)
    (hf : ∀ a, FlushFirst (f a)) : FlushFirst (m >>= f) := by
  intro c
  have h1 : (m c).2.nc.inp = c.nc.inp := hm c
  rw [bind_def]
  simp only [M.bind]
  rcases hmc : m c with ⟨r, c'⟩
  rw [hmc] at h1
  cases r with
  | ok a =>
    simp only at h1 ⊢
    rcases (hf a) c' with h | h
    · exact Or.inl (h.trans h1)
    · exact Or.inr h
  | error p => exact Or.inl h1

theorem FlushFirst_readline {β : Type} (K : Bytes → M β) (hK : ∀ l, ReadOnly (K l)) :
    FlushFirst (readline >>= K) := by
  intro c
  have hro : ReadOnly (readLineChecked >>= K) := ReadOnly_bind _ _ ReadOnly_readLineChecked hK
  rcases flush_cases c with ⟨s, hf, hq, _, _⟩ | ⟨s, hf, hi⟩
  · right
    have e : (readline >>= K) c = (readLineChecked >>= K) s := by
      unfold readline
      simp only [bind_def, bind_assoc']
      show M.bind flush _ c = _
      simp only [M.bind, hf]
    rw [e]
    exact (hro s hq).1
  · left
    have e : (readline >>= K) c = (.error (.memcache ⟨.transport⟩), s) := by
      unfold readline
      simp only [bind_def, bind_assoc']
      show M.bind flush _ c = _
      simp only [M.bind, hf]
    rw [e]
    exact hi

theorem FlushFirst_statsLoop (k : Nat) (result : Bytes) : FlushFirst (statsLoop k result) := by
  intro c
  cases k with
  | zero => exact Or.inl rfl
  | succ k =>
    rcases flush_cases c with ⟨s, hf, hq, _, _⟩ | ⟨s, hf, hi⟩
    · right
      have hr : readline c = readline s := by
        unfold readline
        rw [bind_ok _ _ _ _ _ hf, bind_ok _ _ _ _ _ (flush_quiet s hq)]
      have e : statsLoop (k + 1) result c = statsLoop (k + 1) result s := by
        unfold statsLoop
        rw [hr]
      rw [e]
      exact (ReadOnly_statsLoop (k + 1) result s hq).1
    · left
      have hr : readline c = (.error (.memcache ⟨.transport⟩), s) := by
        unfold readline
        rw [bind_error _ _ _ _ _ hf]
      unfold statsLoop
      rw [hr]
      exact hi

theorem FlushFirst_get (command key : Bytes) : FlushFirst (get command key) := by
  unfold get
  exact FlushFirst_bind _ _ (NoRead_writestrings _)
    (fun _ => FlushFirst_readline _ ReadOnly_getReply)

theorem FlushFirst_store (command key : Bytes) (f t : Nat) (v : Bytes) (cas : Nat) :
    FlushFirst (store command key f t v cas) := by
  unfold store
  split
  · exact FlushFirst_of_NoRead _ (NoRead_pure _)
  · refine FlushFirst_bind _ _ (NoRead_writestrings _) (fun _ => ?_)
    refine FlushFirst_bind _ _ (NoRead_write _) (fun _ => ?_)
    refine FlushFirst_bind _ _ (NoRead_writestring _) (fun _ => ?_)
    refine FlushFirst_bind _ _ (NoRead_write _) (fun _ => ?_)
    refine FlushFirst_bind _ _ (NoRead_writestring _) (fun _ => ?_)
    refine FlushFirst_bind _ _ (NoRead_write _) (fun _ => ?_)
    split
    · refine FlushFirst_bind _ _ (NoRead_writestring _) (fun _ => ?_)
      refine FlushFirst_bind _ _ (NoRead_write _) (fun _ => ?_)
      refine FlushFirst_bind _ _ (NoRead_writestring _) (fun _ => ?_)
      refine FlushFirst_bind _ _ (NoRead_write _) (fun _ => ?_)
      refine FlushFirst_bind _ _ (NoRead_writestring _) (fun _ => ?_)
      exact FlushFirst_readline _ ReadOnly_storeReply
    · refine FlushFirst_bind _ _ (NoRead_pure _) (fun _ => ?_)
      refine FlushFirst_bind _ _ (NoRead_writestring _) (fun _ => ?_)
      refine FlushFirst_bind _ _ (NoRead_write _) (fun _ => ?_)
      refine FlushFirst_bind _ _ (NoRead_writestring _) (fun _ => ?_)
      exact FlushFirst_readline _ ReadOnly_storeReply

theorem FlushFirst_versionBody : FlushFirst versionBody := by
  unfold versionBody
  exact FlushFirst_bind _ _ (NoRead_writestrings _)
    (fun _ => FlushFirst_readline _ ReadOnly_versionReply)

theorem FlushFirst_deleteBody (key : Bytes) : FlushFirst (deleteBody key) := by
  unfold deleteBody
  exact FlushFirst_bind _ _ (NoRead_writestrings _)
    (fun _ => FlushFirst_readline _ ReadOnly_deleteReply)

theorem NoRead_statsRequest (argument : Bytes) : NoRead (statsRequest argument) := by
  unfold statsRequest
  split
  · exact NoRead_bind _ _ (NoRead_writestrings _) (fun _ => NoRead_flush)
  · exact NoRead_bind _ _ (NoRead_writestrings _) (fun _ => NoRead_flush)

theorem FlushFirst_handleError {α : Type} (zero : α) (body : M α) (h : FlushFirst body)
    (c : Connection) :
    (handleError zero body c).2.nc.inp = c.nc.inp ∨
      ((handleError zero body c).2.buffered.buf = [] ∧
        (handleError zero body c).2.buffered.err = false) := by
  have ho := handleError_out zero body c
  rw [ho.1, ho.2.1]
  rcases h c with h1 | h1
  · exact Or.inl h1
  · right
    unfold Quiet at h1
    rw [h1]
    exact ⟨rfl, rfl⟩

theorem FlushFirst_Stats (argument : Bytes) (c : Connection) :
    (Stats argument c).2.nc.inp = c.nc.inp ∨
      ((Stats argument c).2.buffered.buf = [] ∧ (Stats argument c).2.buffered.err = false) := by
  have hn : (statsRequest argument c).2.nc.inp = c.nc.inp := NoRead_statsRequest argument c
  rcases hq : statsRequest argument c with ⟨r, s⟩
  rw [hq] at hn
  simp only at hn
  cases r with
  | error p =>
    left
    unfold Stats
    rw [hq]
    simp only
    rw [(recovered_state ([] : Bytes) p s).1]
    exact hn
  | ok u =>
    have hs := Stats_state argument c s hq
    rw [hs.1, hs.2]
    rcases FlushFirst_statsLoop (s.nc.inp.length + 1) [] s with h1 | h1
    · exact Or.inl (h1.trans hn)
    · right
      unfold Quiet at h1
      rw [h1]
      exact ⟨rfl, rfl⟩

/-- Every public operation either consumes no input or ends with nothing
pending in the writer. -/
theorem FlushFirst_run (op : Op) (c : Connection) :
    (run op c).2.nc.inp = c.nc.inp ∨
      ((run op c).2.buffered.buf = [] ∧ (run op c).2.buffered.err = false) := by
  cases op with
  | Get key =>
    have hff : FlushFirst (do let r ← get "get".toList key; pure (r.1, r.2.1) :
        M (Bytes × Nat)) := by
      intro c'
      rw [bind_pure_state (get "get".toList key) (fun r : Bytes × Nat × Nat => (r.1, r.2.1)) c']
      exact FlushFirst_get _ key c'
    exact FlushFirst_handleError ([], 0) _ hff c
  | Gets key => exact FlushFirst_handleError ([], 0, 0) _ (FlushFirst_get _ key) c
  | Set key f t v => exact FlushFirst_handleError false _ (FlushFirst_store _ key f t v 0) c
  | Add key f t v => exact FlushFirst_handleError false _ (FlushFirst_store _ key f t v 0) c
  | Replace key f t v => exact FlushFirst_handleError false _ (FlushFirst_store _ key f t v 0) c
  | Append key f t v => exact FlushFirst_handleError false _ (FlushFirst_store _ key f t v 0) c
  | Prepend key f t v => exact FlushFirst_handleError false _ (FlushFirst_store _ key f t v 0) c
  | Cas key f t v cas =>
    exact FlushFirst_handleError false _ (FlushFirst_store _ key f t v cas) c
  | Delete key => exact FlushFirst_handleError false _ (FlushFirst_deleteBody key) c
  | Stats argument => exact FlushFirst_Stats argument c
  | Version => exact FlushFirst_handleError [] _ FlushFirst_versionBody c

/-- C19: flush before read. The client consumes input only in `readline` and
in `read`, and in every connection state each of them first flushes: when the
flush succeeds, the line or the block is read in a state in which the writer
holds no pending byte, every byte written so far having been accepted by the
transport; when the flush fails, they panic with the error of the transport,
a fault, and consume no input. And every public operation either consumes no
input or ends with nothing pending in the writer: it writes nothing after it
has begun to read. -/
theorem flush_before_read (op : Op) (c : Connection) (count : Int) :
    ((∃ s, flush c = (.ok (), s) ∧ s.buffered.buf = [] ∧
        s.nc.out = c.nc.out ++ c.buffered.buf ∧ s.nc.inp = c.nc.inp ∧
        readline c = readLineChecked s ∧
        read count c = (if count < 0 then raiseRuntime else readFullChecked count.toNat) s) ∨
      (∃ s, flush c = (.error (.memcache ⟨.transport⟩), s) ∧ s.nc.inp = c.nc.inp ∧
        readline c = (.error (.memcache ⟨.transport⟩), s) ∧
        read count c = (.error (.memcache ⟨.transport⟩), s))) ∧
    ((run op c).2.nc.inp = c.nc.inp ∨
      ((run op c).2.buffered.buf = [] ∧ (run op c).2.buffered.err = false)) := by
  constructor
  · rcases flush_cases c with ⟨s, hf, hq, ho, hi⟩ | ⟨s, hf, hi⟩
    · left
      refine ⟨s, hf, ?_, ho, hi, ?_, ?_⟩
      · unfold Quiet at hq; rw [hq]
      · unfold readline; rw [bind_ok _ _ _ _ _ hf]
      · unfold read; rw [bind_ok _ _ _ _ _ hf]
    · right
      refine ⟨s, hf, hi, ?_, ?_⟩
      · unfold readline; rw [bind_error _ _ _ _ _ hf]
      · unfold read; rw [bind_error _ _ _ _ _ hf]
  · exact FlushFirst_run op c

/-! ## Stats reply -/

theorem replyLines_cons (l : Bytes) (ls : List Bytes) (inp rest : Bytes)
    (h : replyLines (l :: ls) inp = some rest) :
    ∃ r1, ReadLine defaultBufSize inp = (⟨l, false, false⟩, r1) ∧ replyLines ls r1 = some rest := by
  unfold replyLines at h
  by_cases hl : (ReadLine defaultBufSize inp).1 = ⟨l, false, false⟩
  · rw [if_pos hl] at h
    exact ⟨(ReadLine defaultBufSize inp).2, Prod.ext hl rfl, h⟩
  · rw [if_neg hl] at h
    cases h

theorem replyLines_length (ls : List Bytes) (inp rest : Bytes)
    (h : replyLines ls inp = some rest) : ls.length + rest.length ≤ inp.length := by
  induction ls generalizing inp with
  | nil =>
    unfold replyLines at h
    cases h
    simp
  | cons l ls ih =>
    obtain ⟨r1, h1, h2⟩ := replyLines_cons l ls inp rest h
    have hc := ReadLine_consumes defaultBufSize inp (by rw [h1]) (by rw [h1])
    rw [h1] at hc
    have := ih r1 h2
    simp only [List.length_cons] at hc ⊢
    omega

theorem withNewlines_cons (l : Bytes) (ls : List Bytes) :
    withNewlines (l :: ls) = l ++ ['\n'] ++ withNewlines ls := rfl

theorem statsLoop_done (c : Connection) (bs e rest : Bytes)
    (he : HasPrefix e "END".toList = true) (ls : List Bytes) :
    ∀ (k : Nat) (result inp : Bytes), replyLines (ls ++ [e]) inp = some rest →
      (∀ l ∈ ls, HasPrefix l "END".toList = false) →
      (∀ l ∈ ls, Contains l "ERROR".toList = false) → ls.length < k →
      statsLoop k result (sent c bs inp) = (.done (result ++ withNewlines ls), sent c bs rest) := by
  induction ls with
  | nil =>
    intro k result inp hr _ _ hk
    obtain ⟨r1, h1, h2⟩ := replyLines_cons e [] inp rest hr
    unfold replyLines at h2
    cases h2
    obtain ⟨k, rfl⟩ : ∃ j, k = j + 1 := ⟨k - 1, by omega⟩
    unfold statsLoop
    rw [readline_sent_ok c bs inp e rest h1]
    simp only
    rw [if_pos he]
    simp [withNewlines, concat]
  | cons l ls ih =>
    intro k result inp hr hp hc hk
    obtain ⟨r1, h1, h2⟩ := replyLines_cons l (ls ++ [e]) inp rest hr
    obtain ⟨k, rfl⟩ : ∃ j, k = j + 1 := ⟨k - 1, by omega⟩
    unfold statsLoop
    rw [readline_sent_ok c bs inp l r1 h1]
    simp only
    rw [if_neg (by rw [hp l (List.mem_cons_self _ _)]; decide),
      if_neg (by rw [hc l (List.mem_cons_self _ _)]; decide)]
    rw [ih k (result ++ l ++ ['\n']) r1 h2
      (fun x hx => hp x (List.mem_cons_of_mem _ hx))
      (fun x hx => hc x (List.mem_cons_of_mem _ hx))
      (by simp only [List.length_cons] at hk; omega)]
    rw [withNewlines_cons]
    simp only [List.append_assoc]

theorem statsLoop_returned (c : Connection) (bs l rest : Bytes) (post : List Bytes)
    (hl : HasPrefix l "END".toList = false) (hcl : Contains l "ERROR".toList = true)
    (pre : List Bytes) :
    ∀ (k : Nat) (result inp : Bytes), replyLines (pre ++ l :: post) inp = some rest →
      (∀ x ∈ pre, HasPrefix x "END".toList = false) →
      (∀ x ∈ pre, Contains x "ERROR".toList = false) → pre.length < k →
      (statsLoop k result (sent c bs inp)).1 = .returned ⟨.formatted l⟩ := by
  induction pre with
  | nil =>
    intro k result inp hr _ _ hk
    obtain ⟨r1, h1, _⟩ := replyLines_cons l post inp rest hr
    obtain ⟨k, rfl⟩ : ∃ j, k = j + 1 := ⟨k - 1, by omega⟩
    unfold statsLoop
    rw [readline_sent_ok c bs inp l r1 h1]
    simp only
    rw [if_neg (by rw [hl]; decide), if_pos hcl]
  | cons x pre ih =>
    intro k result inp hr hp hc hk
    obtain ⟨r1, h1, h2⟩ := replyLines_cons x (pre ++ l :: post) inp rest hr
    obtain ⟨k, rfl⟩ : ∃ j, k = j + 1 := ⟨k - 1, by omega⟩
    unfold statsLoop
    rw [readline_sent_ok c bs inp x r1 h1]
    simp only
    rw [if_neg (by rw [hp x (List.mem_cons_self _ _)]; decide),
      if_neg (by rw [hc x (List.mem_cons_self _ _)]; decide)]
    exact ih k (result ++ x ++ ['\n']) r1 h2
      (fun y hy => hp y (List.mem_cons_of_mem _ hy))
      (fun y hy => hc y (List.mem_cons_of_mem _ hy))
      (by simp only [List.length_cons] at hk; omega)

/-- C12: for every sequence of lines `ls` read in reply to a stats command on a
working connection, none beginning with `END`, followed by a line `e` that
begins with `END`: if no line of `ls` contains `ERROR`, `Stats` returns each
line of `ls` followed by a single `\n`, in order and without the `END` line,
with a nil error, having read up to the `END` line and no further (an
immediate `END` gives the empty result); if a line of `ls` contains `ERROR`,
`Stats` returns the error made of the first such line and no result bytes. -/
theorem stats_reply (argument : Bytes) (c : Connection) (ls : List Bytes) (e rest : Bytes)
    (h : Healthy c) (hr : replyLines (ls ++ [e]) c.nc.inp = some rest)
    (hls : ∀ l ∈ ls, HasPrefix l "END".toList = false)
    (he : HasPrefix e "END".toList = true) :
    ((∀ l ∈ ls, Contains l "ERROR".toList = false) →
      (run (.Stats argument) c).1 = .ret (.bytes (withNewlines ls)) none ∧
        (run (.Stats argument) c).2.nc.inp = rest) ∧
    (∀ pre l post, ls = pre ++ l :: post → (∀ x ∈ pre, Contains x "ERROR".toList = false) →
      Contains l "ERROR".toList = true →
      (run (.Stats argument) c).1 = .ret (.bytes []) (some ⟨.formatted l⟩)) := by
  have hlen := replyLines_length (ls ++ [e]) c.nc.inp rest hr
  simp only [List.length_append, List.length_cons, List.length_nil] at hlen
  have hrun : run (.Stats argument) c =
      ((Stats argument c).1.map .bytes, (Stats argument c).2) := rfl
  rw [hrun]
  unfold Stats
  rw [statsRequest_sent c h argument]
  simp only
  have hi : (sent c (if argument = [] then "stats\r\n".toList
      else "stats ".toList ++ argument ++ "\r\n".toList) c.nc.inp).nc.inp = c.nc.inp := rfl
  rw [hi]
  constructor
  · intro hc
    rw [statsLoop_done c _ e rest he ls _ [] c.nc.inp hr hls hc (by omega)]
    exact ⟨rfl, rfl⟩
  · intro pre l post hsplit hc hcl
    subst hsplit
    have hr' : replyLines (pre ++ l :: (post ++ [e])) c.nc.inp = some rest := by
      rw [← hr]; simp
    have hl : HasPrefix l "END".toList = false := hls l (by simp)
    have hk : pre.length < c.nc.inp.length + 1 := by
      simp only [List.length_append, List.length_cons] at hlen
      omega
    have := statsLoop_returned c (if argument = [] then "stats\r\n".toList
      else "stats ".toList ++ argument ++ "\r\n".toList) l rest (post ++ [e]) hl hcl pre
      (c.nc.inp.length + 1) [] c.nc.inp hr' (fun x hx => hls x (by simp [hx])) hc hk
    rcases hs : statsLoop (c.nc.inp.length + 1) [] (sent c (if argument = [] then
      "stats\r\n".toList else "stats ".toList ++ argument ++ "\r\n".toList) c.nc.inp)
      with ⟨ex, c''⟩
    rw [hs] at this
    simp only at this
    subst this
    rfl

/-- The Stats reply theorem applied to two lines and `END`, to an immediate
`END`, and to a reply whose second line holds `ERROR`. -/
theorem stats_reply_witness :
    ((run (.Stats []) (newConnection ⟨"STAT a 1\r\nSTAT b 2\r\nEND\r\n".toList, [], false, none⟩)).1
        = .ret (.bytes "STAT a 1\nSTAT b 2\n".toList) none ∧
      (run (.Stats []) (newConnection
        ⟨"STAT a 1\r\nSTAT b 2\r\nEND\r\n".toList, [], false, none⟩)).2.nc.inp = []) ∧
    ((run (.Stats "slabs".toList) (newConnection ⟨"END\r\n".toList, [], false, none⟩)).1
        = .ret (.bytes []) none ∧
      (run (.Stats "slabs".toList) (newConnection
        ⟨"END\r\n".toList, [], false, none⟩)).2.nc.inp = []) ∧
    (run (.Stats []) (newConnection ⟨"STAT a 1\r\nERROR\r\nEND\r\n".toList, [], false, none⟩)).1
        = .ret (.bytes []) (some ⟨.formatted "ERROR".toList⟩) :=
  ⟨(stats_reply [] (newConnection ⟨"STAT a 1\r\nSTAT b 2\r\nEND\r\n".toList, [], false, none⟩)
      ["STAT a 1".toList, "STAT b 2".toList] "END".toList [] (by decide) (by decide)
      (by decide) (by decide)).1 (by decide),
   (stats_reply "slabs".toList (newConnection ⟨"END\r\n".toList, [], false, none⟩)
      [] "END".toList [] (by decide) (by decide) (by decide) (by decide)).1 (by decide),
   (stats_reply [] (newConnection ⟨"STAT a 1\r\nERROR\r\nEND\r\n".toList, [], false, none⟩)
      ["STAT a 1".toList, "ERROR".toList] "END".toList [] (by decide) (by decide)
      (by decide) (by decide)).2 ["STAT a 1".toList] "ERROR".toList [] rfl (by decide)
      (by decide)⟩

end Memcache
